import Mathlib

set_option maxHeartbeats 1000000

/-!
Verification of the activity-aggregation and monitoring subsystems.

The definitions below are shallow embeddings of the Python sources:
  - app/activity_feed/config.py        (ActivityFeedConfig)
  - app/activity_feed/services/recorder.py  (ActivityRecorder)
  - app/activity_feed/services/aggregator.py (ActivityAggregator)
  - app/activity_feed/services/feed_service.py (ActivityFeedService)
  - app/monitoring/config.py           (MonitoringConfig)
  - app/monitoring/middleware.py       (ErrorDeduplicator, MonitoringMiddleware)
  - app/monitoring/security_utils.py   (sanitize_string, sanitize_dict)

Conventions: UUIDs and opaque ids are strings; UTC instants are integers
(seconds since the epoch); database tables are association lists; the
external key-value store is an association list from keys to values with
absolute expiry instants.  External library functions (hashlib.md5,
uuid.UUID) are taken as parameters of the embedding.
-/

namespace ShowcaseSystem

/-! ## Activity feed configuration (activity_feed/config.py) -/

/-- Configuration for the activity feed: the set of enabled categories and
the session window in seconds. Mirrors `ActivityFeedConfig`. -/
structure ActivityFeedConfig where
  ACTIVITY_ENABLED_CATEGORIES : List String
  ACTIVITY_SESSION_DURATION : Int
deriving Repr, DecidableEq

/-- Mapping from an event-type leading token to its category, the literal
`category_mapping` table of `_get_category_for_event_type`. -/
def category_mapping : List (String × String) :=
  [("element", "elements"),
   ("folder", "folders"),
   ("gallery", "gallery"),
   ("announcement", "announcements"),
   ("project", "projects"),
   ("comment", "comments"),
   ("imagemap", "widgets")]

/-- The part of an event type before the first dot:
Python `event_type.split(".")[0]`, i.e. the maximal prefix free of `.`
(the whole string when no dot occurs). -/
def eventTypeHead (event_type : String) : String :=
  String.mk (event_type.data.takeWhile (fun c => c != '.'))

/-- Map an event type to its category, `None` when the leading token is
unknown. Mirrors `_get_category_for_event_type`. -/
def ActivityFeedConfig.get_category_for_event_type
    (event_type : String) : Option String :=
  (category_mapping.lookup (eventTypeHead event_type))

/-- Mirrors `ActivityFeedConfig.is_category_enabled`. -/
def ActivityFeedConfig.is_category_enabled
    (cfg : ActivityFeedConfig) (category : String) : Bool :=
  cfg.ACTIVITY_ENABLED_CATEGORIES.contains category

/-- Mirrors `ActivityFeedConfig.is_event_type_enabled`: unknown leading
tokens default to enabled. -/
def ActivityFeedConfig.is_event_type_enabled
    (cfg : ActivityFeedConfig) (event_type : String) : Bool :=
  match ActivityFeedConfig.get_category_for_event_type event_type with
  | none => true
  | some category => cfg.is_category_enabled category

/-! ## Event recorder (activity_feed/services/recorder.py) -/

/-- A buffered raw event row (`PendingActivity` model). `details` is the
structured detail document restricted to the string-valued fields the
aggregator consults. -/
structure PendingActivity where
  session_key : String
  user_id : String
  project_id : String
  event_type : String
  target_id : String
  target_type : String
  details : List (String × String)
  created_at : Int
deriving Repr, DecidableEq

/-- A queued deferred job: queue kind, argument, defer duration and
idempotency job key, as passed to `queue_manager.enqueue`. -/
structure QueuedJob where
  task : String
  arg : String
  defer_by : Int
  job_key : String
deriving Repr, DecidableEq

/-- Recorder-visible state: the buffer table plus the queue contents. -/
structure RecorderState where
  pending : List PendingActivity
  jobs : List QueuedJob
deriving Repr, DecidableEq

/-- Mirrors `ActivityRecorder._generate_session_key`:
`f"{user_id}:{project_id}:{timestamp_bucket}"` where the bucket is
`int(time.time() // ACTIVITY_SESSION_DURATION)`. The wall-clock bucket is
passed in already computed. -/
def generate_session_key (user_id project_id : String)
    (timestamp_bucket : Int) : String :=
  user_id ++ ":" ++ project_id ++ ":" ++ toString timestamp_bucket

/-- Mirrors `ActivityRecorder.record`: when the category of `event_type`
is enabled, append the raw event row and enqueue the deferred aggregation
job keyed by the session key; otherwise change nothing. `created_at` is
the database-assigned creation instant and `timestamp_bucket` the
wall-clock bucket used by `_generate_session_key`. -/
def ActivityRecorder.record (cfg : ActivityFeedConfig)
    (user_id project_id event_type target_id target_type : String)
    (details : List (String × String))
    (timestamp_bucket created_at : Int)
    (st : RecorderState) : RecorderState :=
  if cfg.is_event_type_enabled event_type then
    let sk := generate_session_key user_id project_id timestamp_bucket
    { pending := st.pending ++
        [{ session_key := sk, user_id := user_id, project_id := project_id,
           event_type := event_type, target_id := target_id,
           target_type := target_type, details := details,
           created_at := created_at }],
      jobs := st.jobs ++
        [{ task := "process_activity_session", arg := sk,
           defer_by := cfg.ACTIVITY_SESSION_DURATION,
           job_key := "activity_session:" ++ sk }] }
  else
    st

/-! ## Monitoring configuration (monitoring/config.py) -/

/-- The slice of `MonitoringConfig` the middleware consults. -/
structure MonitoringConfig where
  MONITORING_ENABLED : Bool
  TELEGRAM_BOT_TOKEN : Option String
  TELEGRAM_CHAT_ID : Option String
  ALERT_RATE_LIMIT_MINUTES : Int
  IGNORED_EXCEPTIONS : List String
  IGNORED_PATHS : List String
deriving Repr, DecidableEq

/-- Mirrors the `is_enabled` property: monitoring is enabled only when the
flag is set and both chat credentials are present. -/
def MonitoringConfig.is_enabled (cfg : MonitoringConfig) : Bool :=
  cfg.MONITORING_ENABLED && cfg.TELEGRAM_BOT_TOKEN.isSome &&
    cfg.TELEGRAM_CHAT_ID.isSome

/-- Mirrors `should_monitor_exception`: the exception class name must not
be listed in `IGNORED_EXCEPTIONS`. -/
def MonitoringConfig.should_monitor_exception
    (cfg : MonitoringConfig) (exception_type : String) : Bool :=
  !(cfg.IGNORED_EXCEPTIONS.contains exception_type)

/-- Mirrors `should_monitor_path`: a path is ignored when it starts with
any entry of `IGNORED_PATHS`. -/
def MonitoringConfig.should_monitor_path
    (cfg : MonitoringConfig) (path : String) : Bool :=
  !(cfg.IGNORED_PATHS.any (fun ignored => ignored.isPrefixOf path))

/-- Mirrors `get_redis_key` with the default prefix `monitoring`. -/
def get_redis_key (parts : List String) : String :=
  "monitoring:" ++ String.intercalate ":" parts

/-! ## Shared key-value store model

Redis is modelled as an association list from keys to numeric payloads
with an absolute expiry instant; a key is visible while `now < expires_at`.
The deduplicator stores `str(current_time)` and parses it back with
`float`, so the payload is kept as the integer instant directly. -/

/-- One stored key-value entry. -/
structure KVEntry where
  value : Int
  expires_at : Int
deriving Repr, DecidableEq

/-- The shared store: an association list from keys to entries. -/
def KVStore := List (String × KVEntry)

instance : DecidableEq KVStore := by
  unfold KVStore; infer_instance

/-- Read a key at instant `now`; expired entries are invisible. -/
def kvGet (kv : KVStore) (now : Int) (key : String) : Option Int :=
  match kv.lookup key with
  | some e => if now < e.expires_at then some e.value else none
  | none => none

/-- Redis `SETEX key ttl value` executed at instant `now`. -/
def kvSetex (kv : KVStore) (now : Int) (key : String) (ttl : Int)
    (value : Int) : KVStore :=
  (key, { value := value, expires_at := now + ttl }) ::
    kv.filter (fun p => p.1 != key)

/-! ## Error deduplicator (monitoring/middleware.py)

`ErrorDeduplicator.should_send_alert` performs two separate Redis
operations: a `GET` of `monitoring:error:<fp>` followed, when the call
decides to alert, by a `SETEX` with a TTL of twice the rate-limit window.
The two steps are modelled separately so that interleavings of concurrent
calls can be expressed; the sequential call composes them. -/

/-- The Redis key used by the deduplicator for a fingerprint. -/
def errorKey (fingerprint : String) : String :=
  get_redis_key ["error", fingerprint]

/-- Decision taken from the value the `GET` step returned: rate-limited
(returns false) only when a timestamp newer than one window exists. -/
def ssa_decision (last_sent : Option Int) (now rate_limit_minutes : Int) :
    Bool :=
  match last_sent with
  | some last_sent_time =>
    if now - last_sent_time < rate_limit_minutes * 60 then false else true
  | none => true

/-- The TTL passed to `SETEX`: double the rate limit, the literal
`self.rate_limit_minutes * 60 * 2` of the source. -/
def ssa_ttl (rate_limit_minutes : Int) : Int :=
  rate_limit_minutes * 60 * 2

/-- The `SETEX` step: store the current instant under the error key. -/
def ssa_setex (kv : KVStore) (now rate_limit_minutes : Int)
    (fingerprint : String) : KVStore :=
  kvSetex kv now (errorKey fingerprint) (ssa_ttl rate_limit_minutes) now

/-- Mirrors `ErrorDeduplicator.should_send_alert` on the Redis path, run
without interference between its two steps: `GET`, decide, then `SETEX`
when alerting. Returns the decision and the updated store. -/
def should_send_alert (rate_limit_minutes : Int) (kv : KVStore)
    (now : Int) (fingerprint : String) : Bool × KVStore :=
  let got := kvGet kv now (errorKey fingerprint)
  if ssa_decision got now rate_limit_minutes then
    (true, ssa_setex kv now rate_limit_minutes fingerprint)
  else
    (false, kv)

/-- Two concurrent `should_send_alert` calls for the same fingerprint in
which both `GET` steps execute before either `SETEX` step: the
interleaving GET-A, GET-B, SETEX-A, SETEX-B. Returns both decisions and
the final store. -/
def ssa_interleaved_both_get_first (rate_limit_minutes : Int)
    (kv0 : KVStore) (now : Int) (fingerprint : String) :
    Bool × Bool × KVStore :=
  let gotA := kvGet kv0 now (errorKey fingerprint)
  let resA := ssa_decision gotA now rate_limit_minutes
  let gotB := kvGet kv0 now (errorKey fingerprint)
  let kv1 := if resA then ssa_setex kv0 now rate_limit_minutes fingerprint
             else kv0
  let resB := ssa_decision gotB now rate_limit_minutes
  let kv2 := if resB then ssa_setex kv1 now rate_limit_minutes fingerprint
             else kv1
  (resA, resB, kv2)

/-! ## Exception interceptor (monitoring/middleware.py) -/

/-- The error-message head: `str(exception).split("\n")[0]` when the
message is non-empty, the empty string otherwise. -/
def error_msg_head (exc_msg : String) : String :=
  if exc_msg = "" then "" else (exc_msg.splitOn "\n").headD ""

/-- Mirrors `ErrorDeduplicator.generate_fingerprint`. `md5hex` stands for
the external `hashlib.md5(...).hexdigest()` function. The error message
head is the first line of `str(exception)`, truncated to 100 characters,
and the four key parts are joined with `|`. -/
def generate_fingerprint (md5hex : String → String)
    (path method exc_type exc_msg : String) : String :=
  let key_str :=
    String.intercalate "|"
      [path, method, exc_type, (error_msg_head exc_msg).take 100]
  md5hex key_str

/-- Outcome of invoking the downstream handler inside `dispatch`. -/
inductive HandlerOutcome where
  | success (status : Nat)
  | httpExc (status : Nat)
  | exc (exc_type exc_msg : String)
deriving Repr, DecidableEq

/-- What `dispatch` produces towards the client: the downstream response
passed through, the original exception re-raised, or the synthetic
JSON 500 response built in the final handler. -/
inductive DispatchResult where
  | passthrough (status : Nat)
  | reraised
  | jsonResponse (status : Nat) (detail : String) (error_id : String)
deriving Repr, DecidableEq

/-- Mirrors the response path of `MonitoringMiddleware.dispatch`: the
short-circuits for disabled monitoring and ignored paths, re-raising of
`HTTPException`s and of ignored exception classes, and the synthetic 500
response for everything else.  The fire-and-forget alerting and
statistics side effects do not influence the returned response and are
not modelled here; the deduplicator state transition they go through is
`should_send_alert` above. -/
def MonitoringMiddleware.dispatch_response (cfg : MonitoringConfig)
    (md5hex : String → String) (path method : String)
    (outcome : HandlerOutcome) : DispatchResult :=
  if !cfg.is_enabled then
    match outcome with
    | .success s => .passthrough s
    | _ => .reraised
  else if !cfg.should_monitor_path path then
    match outcome with
    | .success s => .passthrough s
    | _ => .reraised
  else
    match outcome with
    | .success s => .passthrough s
    | .httpExc _ => .reraised
    | .exc exc_type exc_msg =>
      if !cfg.should_monitor_exception exc_type then
        .reraised
      else
        .jsonResponse 500 "Internal server error"
          (generate_fingerprint md5hex path method exc_type exc_msg)

/-! ## Session aggregator (activity_feed/services/aggregator.py)

The aggregator is embedded as a pure state transition: the single
database transaction of `aggregate_session` becomes one function from the
pre-state to the post-state.  `uuid.UUID` (an external library) is a
parameter `parseUUID`; parse failures are the `ValueError` branches.
Python sets are modelled as insertion-ordered duplicate-free lists. -/

/-- Helper: `details.get(k)`. -/
def detGet (details : List (String × String)) (k : String) : Option String :=
  details.lookup k

/-- Python truthiness of an optional string: `None` and the empty string
are falsy. -/
def truthy : Option String → Bool
  | some s => s ≠ ""
  | none => false

/-- Python `a or b` on optional strings: `b` whenever `a` is falsy. -/
def pyOr (a b : Option String) : Option String :=
  if truthy a then a else b

/-- Add an element to a Python-set modelled as an insertion-ordered
duplicate-free list. -/
def setAdd (xs : List String) (x : String) : List String :=
  if xs.contains x then xs else xs ++ [x]

/-- Upsert into an association list, keeping the position of an existing
key (Python dict assignment semantics). -/
def upsertAssoc [DecidableEq κ] (k : κ) (v : α) :
    List (κ × α) → List (κ × α)
  | [] => [(k, v)]
  | (k0, v0) :: rest =>
    if k0 = k then (k0, v) :: rest else (k0, v0) :: upsertAssoc k v rest

/-- One step of a Python dict comprehension keyed by `keyOf`: iteration
order of the resulting dict is first-occurrence order of keys and the
value for a key is the last element with that key (last write wins). -/
def dictLastWins (keyOf : α → String) (xs : List α) : List (String × α) :=
  xs.foldl (fun acc e => upsertAssoc (keyOf e) e acc) []

/-- Append a value to the list held under a key, inserting the key at the
end on first occurrence (Python `defaultdict(list)` filling). -/
def appendAssoc (k : String) (v : α) :
    List (String × List α) → List (String × List α)
  | [] => [(k, [v])]
  | (k0, vs) :: rest =>
    if k0 = k then (k0, vs ++ [v]) :: rest
    else (k0, vs) :: appendAssoc k v rest

/-- Group a list by `keyOf` preserving first-occurrence key order,
mirroring `defaultdict(list)` iterated in insertion order. -/
def groupByOrdered (keyOf : α → String) (xs : List α) :
    List (String × List α) :=
  xs.foldl (fun acc e => appendAssoc (keyOf e) e acc) []

/-- One `{id, name}` (widgets additionally `entity_type`) summary item. -/
structure SummaryItem where
  id : String
  name : Option String
  entity_type : Option String := none
deriving Repr, DecidableEq

/-- One `{id, snippet}` item grouped under a parent entity. -/
structure ParentItem where
  id : String
  snippet : Option String
deriving Repr, DecidableEq

/-- One summary group; `gtype` is the `"type"` field of the group dict.
Plain groups fill `items`, comment and image groups fill
`items_by_parent`. -/
structure SummaryGroup where
  gtype : String
  count : Nat
  items : List SummaryItem := []
  items_by_parent : List (String × List ParentItem) := []
deriving Repr, DecidableEq

/-- The structured summary document `{groups: [...]}`. -/
structure Summary where
  groups : List SummaryGroup
deriving Repr, DecidableEq

/-- A durable `Activity` row. -/
structure Activity where
  project_id : String
  user_id : String
  title : String
  summary : Summary
  affected_folders : List String
  affected_elements : List String
  started_at : Int
  ended_at : Int
deriving Repr, DecidableEq

/-- Mirrors `ActivityAggregator._plural_form`. -/
def plural_form (count : Nat) (one few many : String) : String :=
  if count % 10 = 1 ∧ count % 100 ≠ 11 then
    toString count ++ " " ++ one
  else if (2 ≤ count % 10 ∧ count % 10 ≤ 4) ∧
      (count % 100 < 10 ∨ count % 100 ≥ 20) then
    toString count ++ " " ++ few
  else
    toString count ++ " " ++ many

/-- Helper: `details.get(k, "...")` used by the title maps. -/
def detGetDots (details : List (String × String)) (k : String) : String :=
  (detGet details k).getD "..."

/-- Mirrors `ActivityAggregator._single_event_title`. -/
def single_event_title (user_name : String) (event : PendingActivity) :
    String :=
  let d := event.details
  match event.event_type with
  | "element.created" =>
    user_name ++ " создал(а) элемент «" ++ detGetDots d "element_name" ++ "»"
  | "element.updated" =>
    user_name ++ " обновил(а) элемент «" ++ detGetDots d "element_name" ++ "»"
  | "element.trashed" =>
    user_name ++ " удалил(а) элемент «" ++ detGetDots d "element_name" ++ "»"
  | "element.moved" =>
    user_name ++ " переместил(а) элемент «" ++ detGetDots d "element_name" ++ "»"
  | "folder.created" =>
    user_name ++ " создал(а) папку «" ++ detGetDots d "folder_name" ++ "»"
  | "folder.updated" =>
    user_name ++ " обновил(а) папку «" ++ detGetDots d "folder_name" ++ "»"
  | "folder.trashed" =>
    user_name ++ " удалил(а) папку «" ++ detGetDots d "folder_name" ++ "»"
  | "comment.created" => user_name ++ " оставил(а) комментарий"
  | "gallery.image.uploaded" =>
    user_name ++ " загрузил(а) изображение «" ++ detGetDots d "image_name" ++ "»"
  | "announcement.created" =>
    user_name ++ " создал(а) задачу «" ++ detGetDots d "title" ++ "»"
  | "announcement.updated" =>
    user_name ++ " обновил(а) задачу «" ++ detGetDots d "title" ++ "»"
  | "project.updated" =>
    user_name ++ " обновил(а) проект «" ++ detGetDots d "project_name" ++ "»"
  | "imagemap.created" =>
    user_name ++ " создал(а) виджет «" ++ detGetDots d "name" ++ "»"
  | "imagemap.updated" =>
    user_name ++ " обновил(а) виджет «" ++ detGetDots d "name" ++ "»"
  | "imagemap.deleted" =>
    user_name ++ " удалил(а) виджет «" ++ detGetDots d "name" ++ "»"
  | _ => user_name ++ " выполнил(а) действие"

/-- Mirrors `ActivityAggregator._same_type_events_title`. -/
def same_type_events_title (user_name event_type : String)
    (events : List PendingActivity) : String :=
  let count := events.length
  match event_type with
  | "element.created" =>
    user_name ++ " создал(а) " ++ plural_form count "элемент" "элемента" "элементов"
  | "element.updated" =>
    user_name ++ " обновил(а) " ++ plural_form count "элемент" "элемента" "элементов"
  | "element.trashed" =>
    user_name ++ " удалил(а) " ++ plural_form count "элемент" "элемента" "элементов"
  | "folder.created" =>
    user_name ++ " создал(а) " ++ plural_form count "папку" "папки" "папок"
  | "folder.updated" =>
    user_name ++ " обновил(а) " ++ plural_form count "папку" "папки" "папок"
  | "comment.created" =>
    user_name ++ " оставил(а) " ++
      plural_form count "комментарий" "комментария" "комментариев"
  | "gallery.image.uploaded" =>
    user_name ++ " загрузил(а) " ++
      plural_form count "изображение" "изображения" "изображений"
  | "announcement.created" =>
    user_name ++ " создал(а) " ++ plural_form count "задачу" "задачи" "задач"
  | "imagemap.created" =>
    user_name ++ " создал(а) " ++ plural_form count "виджет" "виджета" "виджетов"
  | "imagemap.updated" =>
    user_name ++ " обновил(а) " ++ plural_form count "виджет" "виджета" "виджетов"
  | "imagemap.deleted" =>
    user_name ++ " удалил(а) " ++ plural_form count "виджет" "виджета" "виджетов"
  | _ => user_name ++ " выполнил(а) " ++ toString count ++ " действий"

/-- Mirrors `ActivityAggregator._mixed_events_title`; `event_counts` is
the insertion-ordered grouping by event type. -/
def mixed_events_title (user_name : String)
    (event_counts : List (String × List PendingActivity))
    (events : List PendingActivity) : String :=
  let countOf := fun (t : String) =>
    match event_counts.lookup t with
    | some l => l.length
    | none => 0
  let hasType := fun (t : String) => (event_counts.lookup t).isSome
  let created_types :=
    (if hasType "element.created" then
      [plural_form (countOf "element.created") "элемент" "элемента" "элементов"]
     else []) ++
    (if hasType "folder.created" then
      [plural_form (countOf "folder.created") "папку" "папки" "папок"]
     else []) ++
    (if hasType "imagemap.created" then
      [plural_form (countOf "imagemap.created") "виджет" "виджета" "виджетов"]
     else [])
  let createdActions :=
    if created_types.isEmpty then []
    else if created_types.length = 1 then
      ["создал(а) " ++ created_types.headD ""]
    else
      ["создал(а) " ++ String.intercalate " и " created_types]
  let updated_count :=
    countOf "element.updated" + countOf "folder.updated" +
      countOf "announcement.updated" + countOf "imagemap.updated"
  let updatedActions :=
    if updated_count > 0 then
      ["обновил(а) " ++ plural_form updated_count "объект" "объекта" "объектов"]
    else []
  let commentActions :=
    if hasType "comment.created" then
      ["добавил(а) " ++
        plural_form (countOf "comment.created")
          "комментарий" "комментария" "комментариев"]
    else []
  let imageActions :=
    if hasType "gallery.image.uploaded" then
      ["загрузил(а) " ++
        plural_form (countOf "gallery.image.uploaded")
          "изображение" "изображения" "изображений"]
    else []
  let priority_actions :=
    createdActions ++ updatedActions ++ commentActions ++ imageActions
  if priority_actions.isEmpty then
    user_name ++ " выполнил(а) " ++ toString events.length ++
      " действий в проекте"
  else
    let main_actions := priority_actions.take 2
    let result := user_name ++ " " ++ String.intercalate " и " main_actions
    if priority_actions.length > 2 then
      let extra_count : Int := (events.length : Int) -
        (((event_counts.take 2).map (fun p => p.2.length)).sum : Int)
      if extra_count > 0 then
        result ++ " (+еще " ++ toString extra_count ++ " действий)"
      else result
    else result

/-- Mirrors `ActivityAggregator._generate_title`. -/
def generate_title (user_name : String) (events : List PendingActivity) :
    String :=
  let event_counts := groupByOrdered (fun e => e.event_type) events
  match events with
  | [e] => single_event_title user_name e
  | _ =>
    match event_counts with
    | [p] => same_type_events_title user_name p.1 p.2
    | _ => mixed_events_title user_name event_counts events

/-- Mirrors `ActivityAggregator._group_by_parent`: group `{id, snippet}`
items under `"<parent_type>:<parent_id>"`, skipping events with falsy
parent fields. -/
def group_by_parent (events : List PendingActivity) :
    List (String × List ParentItem) :=
  events.foldl
    (fun acc e =>
      let pt := detGet e.details "parent_type"
      let pid := detGet e.details "parent_id"
      if truthy pt && truthy pid then
        appendAssoc (pt.getD "" ++ ":" ++ pid.getD "")
          { id := e.target_id,
            snippet := pyOr (detGet e.details "text_snippet")
              (detGet e.details "image_name") }
          acc
      else acc)
    []

/-- The `elements_created` group of `_build_summary`. -/
def elements_created_group (events : List PendingActivity) : SummaryGroup :=
  let l := events.filter (fun e => e.event_type == "element.created")
  { gtype := "elements_created", count := l.length,
    items := l.map (fun e =>
      { id := e.target_id, name := detGet e.details "element_name" }) }

/-- The `elements_updated` group: built from the dict comprehension
`{e.target_id: e for e in events if ...}`, so de-duplicated by
`target_id` with last write wins. -/
def elements_updated_group (events : List PendingActivity) : SummaryGroup :=
  let d := dictLastWins (fun e => e.target_id)
    (events.filter (fun e => e.event_type == "element.updated"))
  { gtype := "elements_updated", count := d.length,
    items := d.map (fun p =>
      { id := p.2.target_id, name := detGet p.2.details "element_name" }) }

/-- The `folders_created` group. -/
def folders_created_group (events : List PendingActivity) : SummaryGroup :=
  let l := events.filter (fun e => e.event_type == "folder.created")
  { gtype := "folders_created", count := l.length,
    items := l.map (fun e =>
      { id := e.target_id, name := detGet e.details "folder_name" }) }

/-- The `folders_updated` group, de-duplicated like the elements one. -/
def folders_updated_group (events : List PendingActivity) : SummaryGroup :=
  let d := dictLastWins (fun e => e.target_id)
    (events.filter (fun e => e.event_type == "folder.updated"))
  { gtype := "folders_updated", count := d.length,
    items := d.map (fun p =>
      { id := p.2.target_id, name := detGet p.2.details "folder_name" }) }

/-- The `comments_added` group. -/
def comments_added_group (events : List PendingActivity) : SummaryGroup :=
  let l := events.filter (fun e => e.event_type == "comment.created")
  { gtype := "comments_added", count := l.length,
    items_by_parent := group_by_parent l }

/-- The `images_uploaded` group. -/
def images_uploaded_group (events : List PendingActivity) : SummaryGroup :=
  let l := events.filter (fun e => e.event_type == "gallery.image.uploaded")
  { gtype := "images_uploaded", count := l.length,
    items_by_parent := group_by_parent l }

/-- The `announcements_created` group. -/
def announcements_created_group (events : List PendingActivity) :
    SummaryGroup :=
  let l := events.filter (fun e => e.event_type == "announcement.created")
  { gtype := "announcements_created", count := l.length,
    items := l.map (fun e =>
      { id := e.target_id, name := detGet e.details "title" }) }

/-- The `widgets_created` group: the plain filtered list. -/
def widgets_created_group (events : List PendingActivity) : SummaryGroup :=
  let l := events.filter (fun e => e.event_type == "imagemap.created")
  { gtype := "widgets_created", count := l.length,
    items := l.map (fun e =>
      { id := e.target_id, name := detGet e.details "name",
        entity_type := detGet e.details "entity_type" }) }

/-- The `widgets_updated` group: unlike `elements_updated` and
`folders_updated`, the source builds it from the plain filtered list
`updated_imagemaps`, with no de-duplication by `target_id`. -/
def widgets_updated_group (events : List PendingActivity) : SummaryGroup :=
  let l := events.filter (fun e => e.event_type == "imagemap.updated")
  { gtype := "widgets_updated", count := l.length,
    items := l.map (fun e =>
      { id := e.target_id, name := detGet e.details "name",
        entity_type := detGet e.details "entity_type" }) }

/-- The `widgets_deleted` group. -/
def widgets_deleted_group (events : List PendingActivity) : SummaryGroup :=
  let l := events.filter (fun e => e.event_type == "imagemap.deleted")
  { gtype := "widgets_deleted", count := l.length,
    items := l.map (fun e =>
      { id := e.target_id, name := detGet e.details "name",
        entity_type := detGet e.details "entity_type" }) }

/-- Mirrors the group-building part of `ActivityAggregator._build_summary`:
each group appears exactly when its event list is non-empty, in the fixed
source order. -/
def build_summary_groups (events : List PendingActivity) :
    List SummaryGroup :=
  (if (events.filter (fun e => e.event_type == "element.created")).isEmpty
    then [] else [elements_created_group events]) ++
  (if (dictLastWins (fun e => e.target_id)
      (events.filter (fun e => e.event_type == "element.updated"))).isEmpty
    then [] else [elements_updated_group events]) ++
  (if (events.filter (fun e => e.event_type == "folder.created")).isEmpty
    then [] else [folders_created_group events]) ++
  (if (dictLastWins (fun e => e.target_id)
      (events.filter (fun e => e.event_type == "folder.updated"))).isEmpty
    then [] else [folders_updated_group events]) ++
  (if (events.filter (fun e => e.event_type == "comment.created")).isEmpty
    then [] else [comments_added_group events]) ++
  (if (events.filter
      (fun e => e.event_type == "gallery.image.uploaded")).isEmpty
    then [] else [images_uploaded_group events]) ++
  (if (events.filter
      (fun e => e.event_type == "announcement.created")).isEmpty
    then [] else [announcements_created_group events]) ++
  (if (events.filter (fun e => e.event_type == "imagemap.created")).isEmpty
    then [] else [widgets_created_group events]) ++
  (if (events.filter (fun e => e.event_type == "imagemap.updated")).isEmpty
    then [] else [widgets_updated_group events]) ++
  (if (events.filter (fun e => e.event_type == "imagemap.deleted")).isEmpty
    then [] else [widgets_deleted_group events])

/-- Resolve the display name of the first claimed event's user, mirroring
`user.name if user and user.name else "Пользователь"`. The user table
maps ids to the nullable `name` column. -/
def resolve_user_name (users : List (String × Option String))
    (user_id : String) : String :=
  match users.lookup user_id with
  | some (some n) => if n = "" then "Пользователь" else n
  | _ => "Пользователь"

/-- Mirrors `ActivityAggregator._build_summary`: resolve the user name,
generate the title and assemble the group list. Returns
`(title, summary)`. -/
def build_summary (users : List (String × Option String))
    (events : List PendingActivity) : String × Summary :=
  match events with
  | [] => ("", { groups := [] })
  | e0 :: _ =>
    let user_name := resolve_user_name users e0.user_id
    (generate_title user_name events,
     { groups := build_summary_groups events })

/-- Mirrors `ActivityAggregator._extract_affected_entities`; `parseUUID`
is the external `uuid.UUID` constructor returning `none` on the
`ValueError/TypeError` branches. Python returns `list(set(...))` in
unspecified order; the model returns insertion order. -/
def extract_affected_entities (parseUUID : String → Option String)
    (events : List PendingActivity) : List String × List String :=
  events.foldl
    (fun (acc : List String × List String) e =>
      let (folders, elements) := acc
      let (folders, elements) :=
        if e.event_type == "folder.created" || e.event_type == "folder.updated" ||
            e.event_type == "folder.trashed" then
          match parseUUID e.target_id with
          | some u => (setAdd folders u, elements)
          | none => (folders, elements)
        else if e.event_type == "element.created" ||
            e.event_type == "element.updated" ||
            e.event_type == "element.trashed" ||
            e.event_type == "element.moved" then
          let elements :=
            match parseUUID e.target_id with
            | some u => setAdd elements u
            | none => elements
          let folders :=
            let fid := detGet e.details "folder_id"
            if truthy fid then
              match parseUUID (fid.getD "") with
              | some u => setAdd folders u
              | none => folders
            else folders
          (folders, elements)
        else if e.event_type == "comment.created" ||
            e.event_type == "gallery.image.uploaded" then
          let pt := detGet e.details "parent_type"
          let pid := detGet e.details "parent_id"
          if truthy pid then
            match parseUUID (pid.getD "") with
            | some u =>
              if pt == some "element" then (folders, setAdd elements u)
              else if pt == some "folder" then (setAdd folders u, elements)
              else (folders, elements)
            | none => (folders, elements)
          else (folders, elements)
        else if e.event_type == "imagemap.created" ||
            e.event_type == "imagemap.updated" ||
            e.event_type == "imagemap.deleted" then
          let et := detGet e.details "entity_type"
          let eid := detGet e.details "entity_id"
          if truthy eid then
            match parseUUID (eid.getD "") with
            | some u =>
              if et == some "element" then (folders, setAdd elements u)
              else if et == some "folder" then (setAdd folders u, elements)
              else (folders, elements)
            | none => (folders, elements)
          else (folders, elements)
        else (folders, elements)
      if e.event_type == "element.moved" then
        let ofid := detGet e.details "old_folder_id"
        if truthy ofid then
          match parseUUID (ofid.getD "") with
          | some u => (setAdd folders u, elements)
          | none => (folders, elements)
        else (folders, elements)
      else (folders, elements))
    ([], [])

/-- Aggregator-visible state: buffered events, durable activities, the
daily counter table keyed by `(activity_date, project_id, user_id)`, and
the read-only user table. -/
structure AggState where
  pending : List PendingActivity
  activities : List Activity
  daily : List ((Int × String × String) × Nat)
  users : List (String × Option String)
deriving Repr, DecidableEq

/-- Mirrors `ActivityAggregator._update_daily_summary`: the
`INSERT .. ON CONFLICT DO UPDATE` upsert incrementing `event_count`. -/
def update_daily_summary (daily : List ((Int × String × String) × Nat))
    (project_id user_id : String) (activity_date : Int)
    (events_count : Nat) : List ((Int × String × String) × Nat) :=
  match daily.lookup (activity_date, project_id, user_id) with
  | some old =>
    upsertAssoc (activity_date, project_id, user_id) (old + events_count) daily
  | none => daily ++ [((activity_date, project_id, user_id), events_count)]

/-- The UTC calendar day of an instant, mirroring `datetime.date()` on a
UTC timestamp: floor division by 86400. -/
def dateOf (t : Int) : Int := Int.fdiv t 86400

/-- The boolean ordering used to model `ORDER BY created_at`. -/
def byCreatedAt (a b : PendingActivity) : Bool :=
  a.created_at ≤ b.created_at

/-- Mirrors `ActivityAggregator.aggregate_session` as one transaction:
claim the buffered rows for the session key ordered by `created_at`,
return unchanged when the claim is empty or the session is still fresh,
otherwise write the activity, upsert the daily counter and delete the
claimed rows. `W` is `settings.ACTIVITY_SESSION_DURATION_SECONDS`. -/
def aggregate_session (parseUUID : String → Option String) (W : Int)
    (now : Int) (session_key : String) (st : AggState) : AggState :=
  let pending_events :=
    (st.pending.filter (fun e => e.session_key == session_key)).mergeSort
      byCreatedAt
  if hne : pending_events = [] then st
  else
    let last_event_time := (pending_events.getLast hne).created_at
    if now - last_event_time < W then st
    else
      let summary_data := build_summary st.users pending_events
      let affected := extract_affected_entities parseUUID pending_events
      let first_event := pending_events.head hne
      let new_activity : Activity :=
        { project_id := first_event.project_id,
          user_id := first_event.user_id,
          title := summary_data.1,
          summary := summary_data.2,
          affected_folders := affected.1,
          affected_elements := affected.2,
          started_at := first_event.created_at,
          ended_at := last_event_time }
      { pending := st.pending.filter (fun e => e.session_key != session_key),
        activities := st.activities ++ [new_activity],
        daily := update_daily_summary st.daily first_event.project_id
          first_event.user_id (dateOf last_event_time)
          pending_events.length,
        users := st.users }

/-! ## Feed reader (activity_feed/services/feed_service.py)

All three feed queries select the matching activities with
`.order_by(Activity.ended_at.desc())` and paginate with
`.offset((page - 1) * size).limit(size)`.  SQL leaves the relative order
of rows with equal `ended_at` unspecified, so a query result is modelled
relationally: any permutation of the matching rows that is sorted by
`ended_at` descending can be the list the page is cut from. -/

/-- The columns of an `Activity` row the feed queries read. -/
structure ActivityRow where
  id : Nat
  project_id : String
  ended_at : Int
  affected_folders : List String
  affected_elements : List String
deriving Repr, DecidableEq

/-- The `WHERE` clause of `get_feed_for_project`: same project, and each
affected array is empty or contained in the caller-accessible set
(`cardinality(...) = 0 OR ... <@ accessible`). -/
def project_feed_filter (project_id : String)
    (accessible_folders accessible_elements : List String)
    (a : ActivityRow) : Bool :=
  a.project_id == project_id &&
    (a.affected_elements.isEmpty ||
      a.affected_elements.all (fun x => accessible_elements.contains x)) &&
    (a.affected_folders.isEmpty ||
      a.affected_folders.all (fun x => accessible_folders.contains x))

/-- The `WHERE` clause of `get_feed_for_folder`: same project and
`affected_folders` overlaps the folder-and-descendants id set. -/
def folder_feed_filter (project_id : String)
    (all_folder_ids : List String) (a : ActivityRow) : Bool :=
  a.project_id == project_id &&
    a.affected_folders.any (fun x => all_folder_ids.contains x)

/-- The `WHERE` clause of `get_feed_for_element`: same project and
`affected_elements` contains the element id. -/
def element_feed_filter (project_id element_id : String)
    (a : ActivityRow) : Bool :=
  a.project_id == project_id && a.affected_elements.contains element_id

/-- The `ORDER BY ended_at DESC` relation between adjacent result rows. -/
def endedAtDesc (a b : ActivityRow) : Prop :=
  b.ended_at ≤ a.ended_at

instance : DecidableRel endedAtDesc := by
  unfold endedAtDesc; infer_instance

/-- `items` is a possible page of the query over `table` with the given
filter: some ordering `l` of the matching rows sorted by `ended_at`
descending exists from which the page is cut by offset and limit. -/
def IsFeedPage (table : List ActivityRow) (keep : ActivityRow → Bool)
    (page size : Nat) (items : List ActivityRow) : Prop :=
  ∃ l : List ActivityRow,
    l.Perm (table.filter keep) ∧ l.Pairwise endedAtDesc ∧
    items = (l.drop ((page - 1) * size)).take size

/-! ## Sanitizer (monitoring/security_utils.py)

`SENSITIVE_PATTERNS` is a list of compiled case-insensitive regular
expressions applied in order by `re.sub`.  Each of the eleven patterns is
a concatenation of case-insensitive literals, an optional character, and
greedy character-class repetitions in which every repetition is followed
by a component its class excludes, so Python's backtracking matcher is
equivalent to the deterministic maximal-munch matcher defined here.
`re.sub` scans left to right replacing non-overlapping matches, which is
the scanner `scanSub`.  Character classes are modelled over ASCII (the
sources process ASCII header/connection-string material). -/

/-- The class `["\s:=]` that separates a credential keyword from its
value. -/
def isSepChar (c : Char) : Bool :=
  c == '"' || c == ' ' || c == '\t' || c == '\n' || c == '\r' ||
    c == '\x0b' || c == '\x0c' || c == ':' || c == '='

/-- ASCII word characters, the class `\w`. -/
def isWordChar (c : Char) : Bool :=
  ('a' ≤ c && c ≤ 'z') || ('A' ≤ c && c ≤ 'Z') ||
    ('0' ≤ c && c ≤ '9') || c == '_'

/-- The value class `[\w\-\.]` of the keyword patterns. -/
def isKwTailChar (c : Char) : Bool :=
  isWordChar c || c == '-' || c == '.'

/-- The value class `[\w/+]` of the `aws_secret_access_key` pattern. -/
def isAwsTailChar (c : Char) : Bool :=
  isWordChar c || c == '/' || c == '+'

/-- The class `[0-9A-Z]` under `re.IGNORECASE`. -/
def isAlnumChar (c : Char) : Bool :=
  ('a' ≤ c && c ≤ 'z') || ('A' ≤ c && c ≤ 'Z') || ('0' ≤ c && c ≤ '9')

/-- One component of a pattern: a case-insensitive literal (stored
lowercase), an optional single character, a greedy one-or-more class
repetition, or an exact-count class repetition. -/
inductive Pat where
  | lit (s : List Char)
  | optc (cs : List Char)
  | plus (cls : Char → Bool)
  | exactly (n : Nat) (cls : Char → Bool)

/-- Length of the maximal prefix of `cs` inside `cls`. -/
def takeWhileLen (cls : Char → Bool) : List Char → Nat
  | [] => 0
  | c :: cs => if cls c then takeWhileLen cls cs + 1 else 0

/-- Match a case-insensitive literal, returning its length. -/
def litLen : List Char → List Char → Option Nat
  | [], _ => some 0
  | _ :: _, [] => none
  | p :: ps, c :: cs =>
    if c.toLower == p then (litLen ps cs).map (· + 1) else none

/-- Deterministic matcher for a component sequence at the head of the
input, returning the number of characters consumed. -/
def matchPats : List Pat → List Char → Option Nat
  | [], _ => some 0
  | .lit s :: ps, cs =>
    match litLen s cs with
    | none => none
    | some n => (matchPats ps (cs.drop n)).map (· + n)
  | .optc chars :: ps, cs =>
    match cs with
    | c :: rest =>
      if chars.contains c then (matchPats ps rest).map (· + 1)
      else matchPats ps (c :: rest)
    | [] => matchPats ps []
  | .plus cls :: ps, cs =>
    let n := takeWhileLen cls cs
    if n = 0 then none else (matchPats ps (cs.drop n)).map (· + n)
  | .exactly n cls :: ps, cs =>
    if n ≤ cs.length ∧ (cs.take n).all cls then
      (matchPats ps (cs.drop n)).map (· + n)
    else none

/-- The `re.sub` scanner: at each position try the matcher; on a match
emit the replacement and resume after the matched text, otherwise copy
one character.  All eleven patterns only produce matches of length at
least one; a zero-length match is treated as no match. -/
def scanSub (m : List Char → Option Nat) (r : List Char) :
    List Char → List Char
  | [] => []
  | c :: cs =>
    match m (c :: cs) with
    | some n =>
      if h : 1 ≤ n then r ++ scanSub m r ((c :: cs).drop n)
      else c :: scanSub m r cs
    | none => c :: scanSub m r cs
termination_by cs => cs.length
decreasing_by
  all_goals simp only [List.length_drop, List.length_cons]
  all_goals omega

/-- Components of `<kw>["\s:=]+[\w\-\.]+`. -/
def kwPattern (kw : String) : List Pat :=
  [.lit kw.toList, .plus isSepChar, .plus isKwTailChar]

/-- Components of `api[_-]?key["\s:=]+[\w\-\.]+`. -/
def apiKeyPattern : List Pat :=
  [.lit "api".toList, .optc ['_', '-'], .lit "key".toList,
   .plus isSepChar, .plus isKwTailChar]

/-- Components of `<scheme>://[^:]+:[^@]+@`. -/
def urlPattern (scheme : String) : List Pat :=
  [.lit (scheme ++ "://").toList, .plus (fun c => c != ':'),
   .lit ":".toList, .plus (fun c => c != '@'), .lit "@".toList]

/-- Components of `AKIA[0-9A-Z]{16}` under `re.IGNORECASE`. -/
def akiaPattern : List Pat :=
  [.lit "akia".toList, .exactly 16 isAlnumChar]

/-- Components of `aws_secret_access_key["\s:=]+[\w/+]+`. -/
def awsPattern : List Pat :=
  [.lit "aws_secret_access_key".toList, .plus isSepChar,
   .plus isAwsTailChar]

/-- The ordered `SENSITIVE_PATTERNS` list: each pattern with its
replacement text. -/
def SENSITIVE_PATTERNS : List (List Pat × List Char) :=
  [(kwPattern "password", "password=***".toList),
   (kwPattern "token", "token=***".toList),
   (kwPattern "key", "key=***".toList),
   (kwPattern "secret", "secret=***".toList),
   (apiKeyPattern, "api_key=***".toList),
   (urlPattern "postgresql", "postgresql://***:***@".toList),
   (urlPattern "mysql", "mysql://***:***@".toList),
   (urlPattern "mongodb", "mongodb://***:***@".toList),
   (urlPattern "redis", "redis://***:***@".toList),
   (akiaPattern, "AKIA***".toList),
   (awsPattern, "aws_secret_access_key=***".toList)]

/-- Apply the eleven substitutions in order, mirroring the loop of
`sanitize_string` (no truncation: `max_length=None`). -/
def sanitizeChars (cs : List Char) : List Char :=
  SENSITIVE_PATTERNS.foldl (fun acc pr => scanSub (matchPats pr.1) pr.2 acc) cs

/-- Mirrors `sanitize_string text` with the default `max_length=None`. -/
def sanitize_string (s : String) : String :=
  String.mk (sanitizeChars s.data)

/-! ## Infrastructure for the sanitizer idempotence proof (C9):
deterministic automata for the eleven patterns, scan segmentation, and
the per-position cleanliness predicate. -/

/-! ### Anchored matcher automata

Each sensitive pattern, viewed at a fixed start position, is matched by a
deterministic straight-line automaton that reads one character at a time.
`accept` and `dead` are absorbing.  These automata are proved equivalent to
`matchPats` below and make the scanner proofs compositional. -/

/-- Run a step function over a character list. -/
def runD {σ : Type} (step : σ → Char → σ) (s : σ) (cs : List Char) : σ :=
  cs.foldl step s

/-- States of the keyword-pattern automaton (`<lit>["\s:=]+<tail>+`). -/
inductive KwSt where
  | lit (rem : List Char)
  | sep0
  | sep1
  | accept
  | dead
deriving DecidableEq

/-- Step function of the keyword automaton, parametrised by the value class. -/
def kwStep (tcl : Char → Bool) : KwSt → Char → KwSt
  | .lit [], c => if isSepChar c then .sep1 else .dead
  | .lit (p :: ps), c => if c.toLower == p then .lit ps else .dead
  | .sep0, c => if isSepChar c then .sep1 else .dead
  | .sep1, c =>
    if isSepChar c then .sep1 else if tcl c then .accept else .dead
  | .accept, _ => .accept
  | .dead, _ => .dead

/-- States of the URL-credential automaton (`<scheme>://[^:]+:[^@]+@`). -/
inductive UrlSt where
  | lit (rem : List Char)
  | a0
  | a1
  | b0
  | b1
  | accept
  | dead
deriving DecidableEq

/-- Step function of the URL-credential automaton. -/
def urlStep : UrlSt → Char → UrlSt
  | .lit [], c => if c != ':' then .a1 else .dead
  | .lit (p :: ps), c => if c.toLower == p then .lit ps else .dead
  | .a0, c => if c != ':' then .a1 else .dead
  | .a1, c => if c == ':' then .b0 else .a1
  | .b0, c => if c != '@' then .b1 else .dead
  | .b1, c => if c == '@' then .accept else .b1
  | .accept, _ => .accept
  | .dead, _ => .dead

/-- States of the api-key automaton (`api[_-]?key["\s:=]+[\w\-\.]+`). -/
inductive ApiSt where
  | litA (rem : List Char)
  | opt
  | litK (rem : List Char)
  | sep0
  | sep1
  | accept
  | dead
deriving DecidableEq

/-- Step function of the api-key automaton. -/
def apiStep : ApiSt → Char → ApiSt
  | .litA [], c =>
    if ['_', '-'].contains c then .litK ['k', 'e', 'y']
    else if c.toLower == 'k' then .litK ['e', 'y'] else .dead
  | .litA (p :: ps), c => if c.toLower == p then .litA ps else .dead
  | .opt, c =>
    if ['_', '-'].contains c then .litK ['k', 'e', 'y']
    else if c.toLower == 'k' then .litK ['e', 'y'] else .dead
  | .litK [], c => if isSepChar c then .sep1 else .dead
  | .litK (p :: ps), c => if c.toLower == p then .litK ps else .dead
  | .sep0, c => if isSepChar c then .sep1 else .dead
  | .sep1, c =>
    if isSepChar c then .sep1 else if isKwTailChar c then .accept else .dead
  | .accept, _ => .accept
  | .dead, _ => .dead

/-- States of the AKIA automaton (`AKIA[0-9A-Z]\x7b16\x7d`, case-insensitive). -/
inductive AkSt where
  | lit (rem : List Char)
  | cnt (k : Fin 16)
  | accept
  | dead
deriving DecidableEq

/-- Step function of the AKIA automaton. -/
def akStep : AkSt → Char → AkSt
  | .lit [], c =>
    if isAlnumChar c then .cnt ⟨1, by omega⟩ else .dead
  | .lit (p :: ps), c => if c.toLower == p then .lit ps else .dead
  | .cnt k, c =>
    if isAlnumChar c then
      if h : k.val + 1 < 16 then .cnt ⟨k.val + 1, h⟩ else .accept
    else .dead
  | .accept, _ => .accept
  | .dead, _ => .dead

/-! ### Matcher / automaton equivalence: keyword family -/

/-- Matcher semantics attached to each keyword-automaton state. -/
def kwSem (tcl : Char → Bool) : KwSt → List Char → Prop
  | .lit rem, cs =>
    (matchPats [.lit rem, .plus isSepChar, .plus tcl] cs).isSome = true
  | .sep0, cs => (matchPats [.plus isSepChar, .plus tcl] cs).isSome = true
  | .sep1, cs =>
    (matchPats [.plus tcl] (cs.drop (takeWhileLen isSepChar cs))).isSome = true
  | .accept, _ => True
  | .dead, _ => False

/-- Matcher semantics attached to each URL-automaton state. -/
def urlSem : UrlSt → List Char → Prop
  | .lit rem, cs =>
    (matchPats [.lit rem, .plus (fun c => c != ':'), .lit ":".toList,
      .plus (fun c => c != '@'), .lit "@".toList] cs).isSome = true
  | .a0, cs =>
    (matchPats [.plus (fun c => c != ':'), .lit ":".toList,
      .plus (fun c => c != '@'), .lit "@".toList] cs).isSome = true
  | .a1, cs =>
    (matchPats [.lit ":".toList, .plus (fun c => c != '@'), .lit "@".toList]
      (cs.drop (takeWhileLen (fun c => c != ':') cs))).isSome = true
  | .b0, cs =>
    (matchPats [.plus (fun c => c != '@'), .lit "@".toList] cs).isSome = true
  | .b1, cs =>
    (matchPats [.lit "@".toList]
      (cs.drop (takeWhileLen (fun c => c != '@') cs))).isSome = true
  | .accept, _ => True
  | .dead, _ => False

/-- Matcher semantics attached to each api-key-automaton state. -/
def apiSem : ApiSt → List Char → Prop
  | .litA rem, cs =>
    (matchPats [.lit rem, .optc ['_', '-'], .lit "key".toList,
      .plus isSepChar, .plus isKwTailChar] cs).isSome = true
  | .opt, cs =>
    (matchPats [.optc ['_', '-'], .lit "key".toList,
      .plus isSepChar, .plus isKwTailChar] cs).isSome = true
  | .litK rem, cs =>
    (matchPats [.lit rem, .plus isSepChar, .plus isKwTailChar] cs).isSome
      = true
  | .sep0, cs =>
    (matchPats [.plus isSepChar, .plus isKwTailChar] cs).isSome = true
  | .sep1, cs =>
    (matchPats [.plus isKwTailChar]
      (cs.drop (takeWhileLen isSepChar cs))).isSome = true
  | .accept, _ => True
  | .dead, _ => False

/-- Matcher semantics attached to each AKIA-automaton state. -/
def akSem : AkSt → List Char → Prop
  | .lit rem, cs =>
    (matchPats [.lit rem, .exactly 16 isAlnumChar] cs).isSome = true
  | .cnt k, cs =>
    16 - k.val ≤ cs.length ∧ (cs.take (16 - k.val)).all isAlnumChar = true
  | .accept, _ => True
  | .dead, _ => False

/-- A segment of a single-pattern scan: one copied character or one
replaced match. -/
inductive Seg where
  | chr (c : Char)
  | blk (jm : List Char)

/-- Original text of a segment list. -/
def flatI : List Seg → List Char
  | [] => []
  | .chr c :: rest => c :: flatI rest
  | .blk jm :: rest => jm ++ flatI rest

/-- Output text of a segment list under replacement `r`. -/
def flatR (r : List Char) : List Seg → List Char
  | [] => []
  | .chr c :: rest => c :: flatR r rest
  | .blk jm :: rest => r ++ flatR r rest

/-- Well-formedness of a scan decomposition for matcher `m`: copied
characters sit at positions where `m` does not produce a replacement, and
each block records a match of length at least one. -/
inductive ScanWf (m : List Char → Option Nat) : List Seg → Prop
  | nil : ScanWf m []
  | chr (c : Char) (rest : List Seg) :
      m (c :: flatI rest) = none ∨ m (c :: flatI rest) = some 0 →
      ScanWf m rest → ScanWf m (.chr c :: rest)
  | blk (jm : List Char) (rest : List Seg) :
      m (jm ++ flatI rest) = some jm.length → 1 ≤ jm.length →
      ScanWf m rest → ScanWf m (.blk jm :: rest)

/-! ### The window simulation -/

/-- Simulation used for the finite-window automata: states evolve in
lockstep, with absorbing escape hatches on either side. -/
def winSim {σ : Type} (States : List σ) (acc dd : σ) (s t : σ) : Prop :=
  (s = t ∧ s ∈ States) ∨ s = dd ∨ t = acc

/-! ### Tracked state lists and their closure -/

/-- States of the keyword automaton reachable from `lit K`. -/
def kwStates (K : List Char) : List KwSt :=
  K.tails.map .lit ++ [.sep0, .sep1, .accept, .dead]

/-- States of the URL automaton reachable from `lit L`. -/
def urlStates (L : List Char) : List UrlSt :=
  L.tails.map .lit ++ [.a0, .a1, .b0, .b1, .accept, .dead]

/-- States of the api-key automaton reachable from `litA "api"`. -/
def apiStates : List ApiSt :=
  ("api".toList).tails.map .litA ++ [.opt] ++
    ("key".toList).tails.map .litK ++ [.sep0, .sep1, .accept, .dead]

/-- States of the AKIA automaton reachable from `lit "akia"`. -/
def akStates : List AkSt :=
  ("akia".toList).tails.map .lit ++
    (List.finRange 16).map .cnt ++ [.accept, .dead]

/-! ### Position-wise cleanliness -/

/-- At every suffix of `cs` the matcher `m` either fails or matches exactly
the replacement text `r`. -/
def CleanPos (m : List Char → Option Nat) (r : List Char)
    (cs : List Char) : Prop :=
  ∀ k, m (cs.drop k) = none ∨
    (m (cs.drop k) = some r.length ∧ (cs.drop k).take r.length = r)

/-- Simulation used while the aws scan runs over URL-automaton text. -/
def awsSim (Li : List Char) (s t : UrlSt) : Prop :=
  (s = t ∧ s ∈ urlStates Li) ∨ s = .dead ∨ t = .accept ∨
    (s = .a1 ∧ t = .b1) ∨ (s = .b0 ∧ t = .b1)

/-! ### The eleven passes of one sanitization run -/

def t1 (cs : List Char) : List Char :=
  scanSub (matchPats (kwPattern "password")) "password=***".toList cs

def t2 (cs : List Char) : List Char :=
  scanSub (matchPats (kwPattern "token")) "token=***".toList (t1 cs)

def t3 (cs : List Char) : List Char :=
  scanSub (matchPats (kwPattern "key")) "key=***".toList (t2 cs)

def t4 (cs : List Char) : List Char :=
  scanSub (matchPats (kwPattern "secret")) "secret=***".toList (t3 cs)

def t5 (cs : List Char) : List Char :=
  scanSub (matchPats apiKeyPattern) "api_key=***".toList (t4 cs)

def t6 (cs : List Char) : List Char :=
  scanSub (matchPats (urlPattern "postgresql"))
    "postgresql://***:***@".toList (t5 cs)

def t7 (cs : List Char) : List Char :=
  scanSub (matchPats (urlPattern "mysql")) "mysql://***:***@".toList (t6 cs)

def t8 (cs : List Char) : List Char :=
  scanSub (matchPats (urlPattern "mongodb")) "mongodb://***:***@".toList
    (t7 cs)

def t9 (cs : List Char) : List Char :=
  scanSub (matchPats (urlPattern "redis")) "redis://***:***@".toList (t8 cs)

def t10 (cs : List Char) : List Char :=
  scanSub (matchPats akiaPattern) "AKIA***".toList (t9 cs)

def t11 (cs : List Char) : List Char :=
  scanSub (matchPats awsPattern) "aws_secret_access_key=***".toList
    (t10 cs)


/-- A JSON-like value: the shapes `sanitize_dict` distinguishes with its
`isinstance` checks (strings, dicts, lists/tuples, anything else). -/
inductive JVal where
  | str (s : String)
  | dict (entries : List (String × JVal))
  | arr (xs : List JVal)
  | other (tag : Int)

/-- Check whether a key name contains one of the sensitive markers, the
`any(sensitive in key_lower for ...)` test of `sanitize_dict`. -/
def containsSubList (needle : List Char) : List Char → Bool
  | [] => needle.isEmpty
  | c :: cs => needle.isPrefixOf (c :: cs) || containsSubList needle cs

/-- Key sensitivity test of `sanitize_dict`. -/
def is_sensitive_key (k : String) : Bool :=
  let kl := k.toList.map Char.toLower
  ["password", "secret", "token", "key", "auth", "credential"].any
    (fun s => containsSubList s.toList kl)

/-- Mirrors `sanitize_dict data max_depth`: at depth zero the
`max depth reached` marker; sensitive keys masked with `***`; nested
dicts recursed with decremented depth; strings pattern-sanitized; list
and tuple elements sanitized only when they are strings; everything
else (including dicts inside lists) returned unchanged. -/
def sanitize_dict (data : JVal) : (max_depth : Nat) → JVal
  | 0 => JVal.dict [("...", .str "max depth reached")]
  | d + 1 =>
    match data with
    | .dict entries =>
      .dict (entries.map (fun p =>
        if is_sensitive_key p.1 then (p.1, .str "***")
        else
          match p.2 with
          | .dict es => (p.1, sanitize_dict (.dict es) d)
          | .str s => (p.1, .str (sanitize_string s))
          | .arr xs =>
            (p.1, .arr (xs.map (fun item =>
              match item with
              | .str s => .str (sanitize_string s)
              | _ => item)))
          | v => (p.1, v)))
    | v => v

/-- The transformation `sanitize_dict` applies to one entry value, keyed
by the entry name: mask when the key is sensitive, recurse into dicts,
pattern-sanitize strings, walk lists element-wise sanitizing only the
string items. -/
def sanVal (d : Nat) (k : String) (v : JVal) : JVal :=
  if is_sensitive_key k then .str "***"
  else
    match v with
    | .dict es => sanitize_dict (.dict es) d
    | .str s => .str (sanitize_string s)
    | .arr xs =>
      .arr (xs.map (fun item =>
        match item with
        | .str s => .str (sanitize_string s)
        | _ => item))
    | v => v

/-- Walk a chain of dict keys, the access path used to state which nested
values `sanitize_dict` masks. -/
def dictLookup (v : JVal) (k : String) : Option JVal :=
  match v with
  | .dict es => es.lookup k
  | _ => none

/-- Iterated `dictLookup` along a key path. -/
def getPath (v : JVal) : List String → Option JVal
  | [] => some v
  | k :: ks => (dictLookup v k).bind (fun v2 => getPath v2 ks)

/-- The ordering claimed for feed pages: `ended_at` descending with ties
broken by `id` descending. -/
def feedOrderClaim (a b : ActivityRow) : Prop :=
  b.ended_at < a.ended_at ∨ (a.ended_at = b.ended_at ∧ b.id < a.id)

instance : DecidableRel feedOrderClaim := by
  unfold feedOrderClaim
  infer_instance

/-! ## Claim statement for the aggregator atomicity claim -/

/-- Claim C1 formalized exactly as stated: after `Aggregate(SF)` returns,
either (a) zero buffered rows were claimed and no state changed, or (b)
exactly one new Activity was appended whose `started_at` is the minimum
and `ended_at` the maximum `created_at` over the claimed rows, every
claimed row is deleted, and the daily counter for the activity's date,
project and actor grew by exactly the claim size. -/
def C1Statement (parseUUID : String → Option String) (W now : Int)
    (session_key : String) (st : AggState) : Prop :=
  let post := aggregate_session parseUUID W now session_key st
  let claimed := st.pending.filter (fun e => e.session_key == session_key)
  (claimed = [] ∧ post = st) ∨
  (∃ a : Activity,
    post.activities = st.activities ++ [a] ∧
    (∃ e ∈ claimed, a.started_at = e.created_at) ∧
    (∀ e ∈ claimed, a.started_at ≤ e.created_at) ∧
    (∃ e ∈ claimed, a.ended_at = e.created_at) ∧
    (∀ e ∈ claimed, e.created_at ≤ a.ended_at) ∧
    post.pending = st.pending.filter (fun e => e.session_key != session_key) ∧
    ((post.daily.lookup (dateOf a.ended_at, a.project_id, a.user_id)).getD 0 =
      (st.daily.lookup (dateOf a.ended_at, a.project_id, a.user_id)).getD 0 +
        claimed.length))

/-! ## Concrete rows used by witnesses and counterexamples -/

/-- A single fresh buffered row, 90 seconds old at instant 100. -/
def freshRow : PendingActivity :=
  { session_key := "k", user_id := "u", project_id := "p",
    event_type := "element.created", target_id := "t",
    target_type := "element", details := [], created_at := 90 }

/-- State holding only `freshRow`. -/
def freshState : AggState :=
  { pending := [freshRow], activities := [], daily := [], users := [] }

/-- Two `imagemap.updated` events for the same widget `T` with different
names. -/
def widgetRow1 : PendingActivity :=
  { session_key := "k", user_id := "u", project_id := "p",
    event_type := "imagemap.updated", target_id := "T",
    target_type := "imagemap", details := [("name", "first")],
    created_at := 0 }

/-- Second update of the same widget. -/
def widgetRow2 : PendingActivity :=
  { session_key := "k", user_id := "u", project_id := "p",
    event_type := "imagemap.updated", target_id := "T",
    target_type := "imagemap", details := [("name", "second")],
    created_at := 1 }

/-- Two activity rows with equal `ended_at` and ascending ids. -/
def rowA1 : ActivityRow :=
  { id := 1, project_id := "p", ended_at := 0, affected_folders := [],
    affected_elements := ["E"] }

/-- The second row of the tie. -/
def rowA2 : ActivityRow :=
  { id := 2, project_id := "p", ended_at := 0, affected_folders := [],
    affected_elements := ["E"] }

/-! ## Supporting lemmas -/

/-- Decimal digits of a natural number with definite fuel. -/
def natDigits (n : Nat) : List Char :=
  Nat.toDigitsCore 10 (n + 1) n []

theorem toDigitsCore_append (f n : Nat) (l : List Char) :
    Nat.toDigitsCore 10 f n l = Nat.toDigitsCore 10 f n [] ++ l := by
  induction f generalizing n l with
  | zero => simp [Nat.toDigitsCore]
  | succ f ih =>
    simp only [Nat.toDigitsCore]
    by_cases h : n / 10 = 0
    · simp [h]
    · simp only [h, if_false]
      rw [ih (n / 10) (Nat.digitChar (n % 10) :: l),
        ih (n / 10) [Nat.digitChar (n % 10)]]
      simp

theorem toDigitsCore_fuel {f f' n : Nat} (hf : n < f) (hf' : n < f')
    (l : List Char) :
    Nat.toDigitsCore 10 f n l = Nat.toDigitsCore 10 f' n l := by
  induction f generalizing n f' l with
  | zero => omega
  | succ f ih =>
    cases f' with
    | zero => omega
    | succ f' =>
      simp only [Nat.toDigitsCore]
      by_cases h : n / 10 = 0
      · simp [h]
      · simp only [h, if_false]
        have hn : 1 ≤ n := by
          by_contra hc
          push_neg at hc
          interval_cases n
          simp at h
        have hlt : n / 10 < n := Nat.div_lt_self hn (by norm_num)
        exact ih (by omega) (by omega) _

theorem natDigits_small {n : Nat} (h : n < 10) :
    natDigits n = [Nat.digitChar n] := by
  unfold natDigits
  simp only [Nat.toDigitsCore]
  have h0 : n / 10 = 0 := Nat.div_eq_of_lt h
  simp [h0, Nat.mod_eq_of_lt h]

theorem natDigits_large {n : Nat} (h : 10 ≤ n) :
    natDigits n = natDigits (n / 10) ++ [Nat.digitChar (n % 10)] := by
  unfold natDigits
  conv_lhs => simp only [Nat.toDigitsCore]
  have h0 : n / 10 ≠ 0 := by omega
  simp only [h0, if_false]
  rw [toDigitsCore_append]
  congr 1
  exact toDigitsCore_fuel (by have := Nat.div_lt_self (by omega : 1 ≤ n) (by norm_num : 1 < 10); omega)
    (Nat.lt_succ_self _) []

theorem natDigits_ne_nil (n : Nat) : natDigits n ≠ [] := by
  by_cases h : n < 10
  · simp [natDigits_small h]
  · rw [natDigits_large (by omega)]
    simp

theorem mem_natDigits_isDigit {n : Nat} {c : Char} (hc : c ∈ natDigits n) :
    ∃ d, d < 10 ∧ c = Nat.digitChar d := by
  induction n using Nat.strong_induction_on with
  | _ n ih =>
    by_cases h : n < 10
    · rw [natDigits_small h] at hc
      simp at hc
      exact ⟨n, h, hc⟩
    · rw [natDigits_large (by omega)] at hc
      rcases List.mem_append.mp hc with h1 | h1
      · exact ih (n / 10) (Nat.div_lt_self (by omega) (by norm_num)) h1
      · simp at h1
        exact ⟨n % 10, Nat.mod_lt _ (by norm_num), h1⟩

theorem digitChar_inj {a b : Nat} (ha : a < 10) (hb : b < 10)
    (h : Nat.digitChar a = Nat.digitChar b) : a = b := by
  interval_cases a <;> interval_cases b <;> first | rfl | (exfalso; revert h; decide)

theorem natDigits_inj {a b : Nat} (h : natDigits a = natDigits b) :
    a = b := by
  induction a using Nat.strong_induction_on generalizing b with
  | _ a ih =>
    by_cases ha : a < 10 <;> by_cases hb : b < 10
    · rw [natDigits_small ha, natDigits_small hb] at h
      simp at h
      exact digitChar_inj ha hb h
    · exfalso
      rw [natDigits_small ha, natDigits_large (by omega)] at h
      have := congrArg List.length h
      simp at this
      have hne := natDigits_ne_nil (b / 10)
      cases hd : natDigits (b / 10) with
      | nil => exact hne hd
      | cons x xs => rw [hd] at this; simp at this
    · exfalso
      rw [natDigits_small hb, natDigits_large (by omega)] at h
      have := congrArg List.length h
      simp at this
      have hne := natDigits_ne_nil (a / 10)
      cases hd : natDigits (a / 10) with
      | nil => exact hne hd
      | cons x xs => rw [hd] at this; simp at this
    · rw [natDigits_large (by omega : 10 ≤ a),
        natDigits_large (by omega : 10 ≤ b)] at h
      have hlen : ([Nat.digitChar (a % 10)] : List Char).length =
          ([Nat.digitChar (b % 10)] : List Char).length := by simp
      obtain ⟨h1, h2⟩ := List.append_inj' h hlen
      have hdiv : a / 10 = b / 10 :=
        ih (a / 10) (Nat.div_lt_self (by omega) (by norm_num)) h1
      have hmod : a % 10 = b % 10 := by
        simp at h2
        exact digitChar_inj (Nat.mod_lt _ (by norm_num))
          (Nat.mod_lt _ (by norm_num)) h2
      omega

theorem natRepr_eq (n : Nat) : Nat.repr n = String.mk (natDigits n) := rfl

theorem natRepr_inj {a b : Nat} (h : Nat.repr a = Nat.repr b) : a = b := by
  rw [natRepr_eq, natRepr_eq] at h
  exact natDigits_inj (congrArg String.data h)

theorem natDigits_head_ne_dash (n : Nat) {c : Char} {l : List Char}
    (h : natDigits n = c :: l) : c ≠ '-' := by
  have hc : c ∈ natDigits n := by rw [h]; exact List.mem_cons_self _ _
  obtain ⟨d, hd, rfl⟩ := mem_natDigits_isDigit hc
  interval_cases d <;> decide

theorem intRepr_inj {a b : Int} (h : Int.repr a = Int.repr b) : a = b := by
  cases a with
  | ofNat m =>
    cases b with
    | ofNat k =>
      simp only [Int.repr] at h
      exact congrArg Int.ofNat (natRepr_inj h)
    | negSucc k =>
      exfalso
      simp only [Int.repr] at h
      have hd := congrArg String.data h
      simp only [natRepr_eq, String.data_append] at hd
      cases hm : natDigits m with
      | nil => exact natDigits_ne_nil m hm
      | cons c l =>
        rw [hm] at hd
        have : c = '-' := by
          have : (c :: l : List Char) = '-' :: (Nat.repr (k + 1)).data := by
            simpa using hd
          exact (List.cons.injEq _ _ _ _ ▸ this).1
        exact natDigits_head_ne_dash m hm this
  | negSucc m =>
    cases b with
    | ofNat k =>
      exfalso
      simp only [Int.repr] at h
      have hd := congrArg String.data h
      simp only [natRepr_eq, String.data_append] at hd
      cases hm : natDigits k with
      | nil => exact natDigits_ne_nil k hm
      | cons c l =>
        rw [hm] at hd
        have : c = '-' := by
          have : ('-' :: (Nat.repr (m + 1)).data : List Char) = c :: l := by
            simpa using hd
          exact ((List.cons.injEq _ _ _ _ ▸ this).1).symm
        exact natDigits_head_ne_dash k hm this
    | negSucc k =>
      simp only [Int.repr] at h
      have hd := congrArg String.data h
      simp only [natRepr_eq, String.data_append] at hd
      have hdig : natDigits (m + 1) = natDigits (k + 1) := by
        simpa using hd
      have hmk : m = k := by
        have := natDigits_inj hdig
        omega
      exact congrArg Int.negSucc hmk

theorem colon_split {a1 a2 r1 r2 : List Char}
    (h1 : ':' ∉ a1) (h2 : ':' ∉ a2)
    (he : a1 ++ ':' :: r1 = a2 ++ ':' :: r2) : a1 = a2 ∧ r1 = r2 := by
  induction a1 generalizing a2 with
  | nil =>
    cases a2 with
    | nil => simpa using he
    | cons b bs =>
      exfalso
      simp only [List.nil_append, List.cons_append, List.cons.injEq] at he
      exact h2 (by rw [← he.1]; exact List.mem_cons_self _ _)
  | cons a as ih =>
    cases a2 with
    | nil =>
      exfalso
      simp only [List.nil_append, List.cons_append, List.cons.injEq] at he
      exact h1 (by rw [he.1]; exact List.mem_cons_self _ _)
    | cons b bs =>
      simp only [List.cons_append, List.cons.injEq] at he
      obtain ⟨rfl, he2⟩ := he
      have := ih (fun hm => h1 (List.mem_cons_of_mem _ hm))
        (fun hm => h2 (List.mem_cons_of_mem _ hm)) he2
      exact ⟨by rw [this.1], this.2⟩

/-! ## C5: recorder category gating -/

/-- C5: a `Record` call whose event-type leading token maps to a disabled
category persists no raw event and enqueues no job, and a call with an
unknown leading token behaves exactly as for an enabled category: the row
is persisted and the deferred aggregation job is enqueued. -/
theorem recorder_category_gating
    (cfg : ActivityFeedConfig) (c : String)
    (user_id project_id event_type target_id target_type : String)
    (details : List (String × String)) (timestamp_bucket created_at : Int)
    (st : RecorderState) :
    (ActivityFeedConfig.get_category_for_event_type event_type = some c →
      cfg.is_category_enabled c = false →
      ActivityRecorder.record cfg user_id project_id event_type target_id
        target_type details timestamp_bucket created_at st = st) ∧
    (ActivityFeedConfig.get_category_for_event_type event_type = none →
      ActivityRecorder.record cfg user_id project_id event_type target_id
          target_type details timestamp_bucket created_at st =
        { pending := st.pending ++
            [{ session_key :=
                 generate_session_key user_id project_id timestamp_bucket,
               user_id := user_id, project_id := project_id,
               event_type := event_type, target_id := target_id,
               target_type := target_type, details := details,
               created_at := created_at }],
          jobs := st.jobs ++
            [{ task := "process_activity_session",
               arg := generate_session_key user_id project_id timestamp_bucket,
               defer_by := cfg.ACTIVITY_SESSION_DURATION,
               job_key := "activity_session:" ++
                 generate_session_key user_id project_id timestamp_bucket }] }) := by
  constructor
  · intro hcat hdis
    have hen : cfg.is_event_type_enabled event_type = false := by
      unfold ActivityFeedConfig.is_event_type_enabled
      rw [hcat]
      exact hdis
    unfold ActivityRecorder.record
    rw [hen]
    simp
  · intro hcat
    have hen : cfg.is_event_type_enabled event_type = true := by
      unfold ActivityFeedConfig.is_event_type_enabled
      rw [hcat]
    unfold ActivityRecorder.record
    rw [hen]
    simp

/-- Witness for C5 at concrete inputs: `comment.created` with only the
`elements` category enabled is dropped entirely, while the unknown kind
`custom.event` is persisted and scheduled. -/
theorem recorder_category_gating_witness :
    ActivityRecorder.record ⟨["elements"], 900⟩ "u" "p" "comment.created"
        "t" "comment" [] 3 17 ⟨[], []⟩ = ⟨[], []⟩ ∧
    ActivityRecorder.record ⟨["elements"], 900⟩ "u" "p" "custom.event"
        "t" "x" [] 3 17 ⟨[], []⟩ =
      { pending := ([] : List PendingActivity) ++
          [{ session_key := generate_session_key "u" "p" 3,
             user_id := "u", project_id := "p",
             event_type := "custom.event", target_id := "t",
             target_type := "x", details := [], created_at := 17 }],
        jobs := ([] : List QueuedJob) ++
          [{ task := "process_activity_session",
             arg := generate_session_key "u" "p" 3,
             defer_by := (900 : Int),
             job_key := "activity_session:" ++
               generate_session_key "u" "p" 3 }] } :=
  ⟨(recorder_category_gating ⟨["elements"], 900⟩ "comments" "u" "p"
      "comment.created" "t" "comment" [] 3 17 ⟨[], []⟩).1
      (by decide) (by decide),
   (recorder_category_gating ⟨["elements"], 900⟩ "comments" "u" "p"
      "custom.event" "t" "x" [] 3 17 ⟨[], []⟩).2 (by decide)⟩

/-! ## C10: session-key injectivity -/

/-- C10: the session-key generator is injective: whenever the rendered
user and project ids contain no colon, equal generated session keys imply
equal user id, equal project id and equal time bucket, so the events
buffered under one key all carry the same actor and project and the
attribution of the aggregated activity to the first claimed event is
well-defined. -/
theorem session_key_injective
    (u1 p1 u2 p2 : String) (b1 b2 : Int)
    (hu1 : ':' ∉ u1.data) (hu2 : ':' ∉ u2.data)
    (hp1 : ':' ∉ p1.data) (hp2 : ':' ∉ p2.data)
    (h : generate_session_key u1 p1 b1 = generate_session_key u2 p2 b2) :
    u1 = u2 ∧ p1 = p2 ∧ b1 = b2 := by
  have hd := congrArg String.data h
  have hcolon : (":" : String).data = [':'] := rfl
  simp only [generate_session_key, String.data_append, hcolon] at hd
  rw [List.append_assoc, List.append_assoc, List.append_assoc,
    List.append_assoc, List.append_assoc, List.append_assoc] at hd
  simp only [List.singleton_append] at hd
  obtain ⟨h1, h2⟩ := colon_split hu1 hu2 hd
  obtain ⟨h3, h4⟩ := colon_split hp1 hp2 h2
  refine ⟨String.ext h1, String.ext h3, ?_⟩
  have hts : Int.repr b1 = Int.repr b2 := String.ext h4
  exact intRepr_inj hts

/-- Witness for C10 at concrete colon-free renderings. -/
theorem session_key_injective_witness :
    ':' ∉ ("u1" : String).data ∧
    ("u1" : String) = "u1" ∧ ("pr" : String) = "pr" ∧ (42 : Int) = 42 :=
  ⟨by decide,
   session_key_injective "u1" "pr" "u1" "pr" 42 42 (by decide) (by decide)
     (by decide) (by decide) rfl⟩

/-! ## C6: interceptor 500 response and fingerprint stability -/

/-- C6: for a request whose handler raises a non-HTTP exception whose
class is not ignored (with monitoring enabled and the path monitored),
the interceptor returns status 500 with body
`detail = "Internal server error"` and `error_id` equal to the hex digest
of the stable hash of `(path, method, class name, first 100 characters of
the message head)`; two exceptions agreeing on those four fields yield
the same fingerprint. -/
theorem interceptor_error_response
    (cfg : MonitoringConfig) (md5hex : String → String)
    (path method exc_type exc_msg : String)
    (hen : cfg.is_enabled = true)
    (hpath : cfg.should_monitor_path path = true)
    (hexc : cfg.should_monitor_exception exc_type = true) :
    MonitoringMiddleware.dispatch_response cfg md5hex path method
        (.exc exc_type exc_msg) =
      .jsonResponse 500 "Internal server error"
        (generate_fingerprint md5hex path method exc_type exc_msg) ∧
    ∀ exc_msg2 : String,
      (error_msg_head exc_msg).take 100 = (error_msg_head exc_msg2).take 100 →
      generate_fingerprint md5hex path method exc_type exc_msg =
        generate_fingerprint md5hex path method exc_type exc_msg2 := by
  constructor
  · unfold MonitoringMiddleware.dispatch_response
    rw [hen, hpath]
    simp [hexc]
  · intro exc_msg2 hmsg
    unfold generate_fingerprint
    rw [hmsg]

/-- Witness for C6: a concrete enabled configuration, a handler raising
`ValueError`, and a second message with the same head. -/
theorem interceptor_error_response_witness :
    MonitoringMiddleware.dispatch_response
        ⟨true, some "tok", some "chat", 10, [], []⟩ (fun s => s) "/api/x"
        "GET" (.exc "ValueError" "boom") =
      .jsonResponse 500 "Internal server error"
        (generate_fingerprint (fun s => s) "/api/x" "GET" "ValueError"
          "boom") ∧
    generate_fingerprint (fun s => s) "/api/x" "GET" "ValueError" "boom" =
      generate_fingerprint (fun s => s) "/api/x" "GET" "ValueError"
        "boom" :=
  ⟨(interceptor_error_response ⟨true, some "tok", some "chat", 10, [], []⟩
      (fun s => s) "/api/x" "GET" "ValueError" "boom" (by decide)
      (by decide) (by decide)).1,
   (interceptor_error_response ⟨true, some "tok", some "chat", 10, [], []⟩
      (fun s => s) "/api/x" "GET" "ValueError" "boom" (by decide)
      (by decide) (by decide)).2 "boom" rfl⟩

/-! ## C4: the rate limiter is not an atomic set-if-absent -/

/-- C4 counterexample: `should_send_alert` is a `GET` followed by a
separate `SETEX`, not one atomic set-if-absent.  In the interleaving
where both concurrent calls perform their `GET` before either `SETEX`,
both calls return true for the same fingerprint within one window,
contradicting the claim that every call after the first returns false
across processes; moreover the TTL written is twice the rate-limit
window, not equal to it. -/
theorem should_send_alert_race_counterexample :
    (ssa_interleaved_both_get_first 10 [] 0 "fp").1 = true ∧
    (ssa_interleaved_both_get_first 10 [] 0 "fp").2.1 = true ∧
    ssa_ttl 10 ≠ 10 * 60 := by
  refine ⟨rfl, rfl, by decide⟩

/-- C4 amended: run sequentially (each call's `GET` and `SETEX` adjacent),
the deduplicator behaves as a first-in-window filter: with the key absent
the first call returns true; any later call within `rate_limit_minutes`
minutes returns false; any call at or beyond the window returns true
again; and the TTL stored is twice the window. -/
theorem should_send_alert_sequential (win : Int) (kv : KVStore)
    (t t2 t3 : Int) (fp : String)
    (hwin : 0 < win)
    (hfresh : kvGet kv t (errorKey fp) = none)
    (h2a : t ≤ t2) (h2b : t2 - t < win * 60)
    (h3 : win * 60 ≤ t3 - t) :
    (should_send_alert win kv t fp).1 = true ∧
    (should_send_alert win (should_send_alert win kv t fp).2 t2 fp).1 =
      false ∧
    (should_send_alert win (should_send_alert win kv t fp).2 t3 fp).1 =
      true ∧
    ssa_ttl win = win * 60 * 2 := by
  have hfirst : should_send_alert win kv t fp =
      (true, ssa_setex kv t win fp) := by
    unfold should_send_alert
    rw [hfresh]
    rfl
  refine ⟨by rw [hfirst], ?_, ?_, rfl⟩
  · rw [hfirst]
    unfold should_send_alert ssa_setex kvSetex kvGet
    have hlook :
        (((errorKey fp, ({ value := t, expires_at := t + ssa_ttl win } :
            KVEntry)) :: List.filter (fun p => p.1 != errorKey fp)
              kv)).lookup (errorKey fp) =
          some { value := t, expires_at := t + ssa_ttl win } := by
      simp [List.lookup]
    simp only [hlook]
    have hvis : t2 < t + ssa_ttl win := by
      unfold ssa_ttl
      omega
    simp only [if_pos hvis]
    unfold ssa_decision
    simp only [if_pos h2b]
    rfl
  · rw [hfirst]
    unfold should_send_alert ssa_setex kvSetex kvGet
    have hlook :
        (((errorKey fp, ({ value := t, expires_at := t + ssa_ttl win } :
            KVEntry)) :: List.filter (fun p => p.1 != errorKey fp)
              kv)).lookup (errorKey fp) =
          some { value := t, expires_at := t + ssa_ttl win } := by
      simp [List.lookup]
    simp only [hlook]
    by_cases hvis : t3 < t + ssa_ttl win
    · simp only [if_pos hvis]
      unfold ssa_decision
      have : ¬ (t3 - t < win * 60) := by omega
      simp [this]
    · simp only [if_neg hvis]
      rfl

/-- Witness for C4 amended at a concrete store and instants. -/
theorem should_send_alert_sequential_witness :
    (should_send_alert 10 [] 0 "fp").1 = true ∧
    (should_send_alert 10 (should_send_alert 10 [] 0 "fp").2 30 "fp").1 =
      false ∧
    (should_send_alert 10 (should_send_alert 10 [] 0 "fp").2 700 "fp").1 =
      true ∧
    ssa_ttl 10 = 10 * 60 * 2 :=
  should_send_alert_sequential 10 [] 0 30 700 "fp" (by decide) rfl
    (by decide) (by decide) (by decide)

/-! ## Aggregator lemmas -/

theorem byCreatedAt_trans (a b c : PendingActivity) :
    byCreatedAt a b → byCreatedAt b c → byCreatedAt a c := by
  unfold byCreatedAt
  intro h1 h2
  simp only [decide_eq_true_eq] at *
  omega

theorem byCreatedAt_total (a b : PendingActivity) :
    byCreatedAt a b || byCreatedAt b a := by
  unfold byCreatedAt
  simp only [Bool.or_eq_true, decide_eq_true_eq]
  omega

theorem sorted_head_le {l : List PendingActivity} (hne : l ≠ [])
    (hp : l.Pairwise (fun a b => byCreatedAt a b = true)) :
    ∀ x ∈ l, (l.head hne).created_at ≤ x.created_at := by
  intro x hx
  cases l with
  | nil => exact absurd rfl hne
  | cons a t =>
    rcases List.mem_cons.mp hx with rfl | hxt
    · exact le_refl _
    · have := (List.pairwise_cons.mp hp).1 x hxt
      unfold byCreatedAt at this
      simpa using this

theorem sorted_le_getLast {l : List PendingActivity} (hne : l ≠ [])
    (hp : l.Pairwise (fun a b => byCreatedAt a b = true)) :
    ∀ x ∈ l, x.created_at ≤ (l.getLast hne).created_at := by
  induction l with
  | nil => exact absurd rfl hne
  | cons a t ih =>
    intro x hx
    cases t with
    | nil =>
      rcases List.mem_cons.mp hx with rfl | hxt
      · exact le_refl _
      · simp at hxt
    | cons b t2 =>
      have hlast : ((a :: b :: t2 : List PendingActivity).getLast hne) =
          ((b :: t2 : List PendingActivity).getLast (by simp)) := by
        simp [List.getLast]
      rcases List.mem_cons.mp hx with rfl | hxt
      · have hmem : ((b :: t2 : List PendingActivity).getLast (by simp)) ∈
            b :: t2 := List.getLast_mem _
        have := (List.pairwise_cons.mp hp).1 _ hmem
        unfold byCreatedAt at this
        rw [hlast]
        simpa using this
      · rw [hlast]
        exact ih (by simp) (List.pairwise_cons.mp hp).2 x hxt

/-! ## C2: quiescence -/

/-- C2: whenever some buffered row with the given session key has
`created_at` within the last `W` seconds, `aggregate_session` changes no
state: no activity is created, no counter changes, no row is deleted. -/
theorem aggregate_quiescence (parseUUID : String → Option String)
    (W now : Int) (session_key : String) (st : AggState)
    (e : PendingActivity) (he : e ∈ st.pending)
    (hk : e.session_key = session_key)
    (hfresh : now - e.created_at < W) :
    aggregate_session parseUUID W now session_key st = st := by
  unfold aggregate_session
  dsimp only
  split
  · rfl
  next hne =>
    split
    · rfl
    next hnf =>
      exfalso
      apply hnf
      have hmem : e ∈ (st.pending.filter
          (fun x => x.session_key == session_key)).mergeSort byCreatedAt := by
        rw [List.mem_mergeSort]
        exact List.mem_filter.mpr ⟨he, by simp [hk]⟩
      have hsorted := List.sorted_mergeSort byCreatedAt_trans byCreatedAt_total
        (st.pending.filter (fun x => x.session_key == session_key))
      have hle := sorted_le_getLast hne hsorted e hmem
      omega

/-- Witness for C2: a single fresh buffered row blocks aggregation. -/
theorem aggregate_quiescence_witness :
    aggregate_session (fun s => some s) 900 100 "k" freshState =
      freshState :=
  aggregate_quiescence (fun s => some s) 900 100 "k" freshState freshRow
    (by simp [freshState]) rfl (by decide)

/-! ## C1: aggregator atomicity -/

theorem lookup_upsertAssoc_self {κ α : Type} [DecidableEq κ] [BEq κ]
    [LawfulBEq κ] (k : κ) (v : α) (l : List (κ × α)) :
    (upsertAssoc k v l).lookup k = some v := by
  induction l with
  | nil => simp [upsertAssoc, List.lookup]
  | cons p rest ih =>
    obtain ⟨k0, v0⟩ := p
    unfold upsertAssoc
    by_cases hk : k0 = k
    · subst hk
      simp [List.lookup]
    · rw [if_neg hk]
      have hb : (k == k0) = false := by
        simp [beq_iff_eq]
        exact fun hc => hk hc.symm
      simp [List.lookup, hb, ih]

theorem lookup_append_of_none {κ α : Type} [BEq κ]
    (l1 l2 : List (κ × α)) (k : κ) (h : l1.lookup k = none) :
    (l1 ++ l2).lookup k = l2.lookup k := by
  induction l1 with
  | nil => simp
  | cons p rest ih =>
    obtain ⟨k0, v0⟩ := p
    simp only [List.lookup, List.cons_append] at *
    cases hb : (k == k0) with
    | true => rw [hb] at h; simp at h
    | false => rw [hb] at h; exact ih h

theorem lookup_update_daily (d : List ((Int × String × String) × Nat))
    (p u : String) (dt : Int) (n : Nat) :
    ((update_daily_summary d p u dt n).lookup (dt, p, u)).getD 0 =
      (d.lookup (dt, p, u)).getD 0 + n := by
  unfold update_daily_summary
  cases hl : d.lookup (dt, p, u) with
  | some old =>
    simp only [hl]
    rw [lookup_upsertAssoc_self]
    simp
  | none =>
    simp only [hl]
    rw [lookup_append_of_none _ _ _ hl]
    simp [List.lookup]

/-- C1 counterexample: with a single buffered row 10 seconds old, the
aggregator returns successfully while claiming one row and changing
nothing, so neither disjunct of the claim holds: the claim is missing
the freshness-abort case. -/
theorem aggregate_atomicity_counterexample :
    ¬ C1Statement (fun s => some s) 900 100 "k" freshState := by
  have hfilter : freshState.pending.filter
      (fun e => e.session_key == "k") = [freshRow] := rfl
  have hpost : aggregate_session (fun s => some s) 900 100 "k"
      freshState = freshState := by
    unfold aggregate_session
    dsimp only
    rw [hfilter, List.mergeSort_singleton]
    rw [dif_neg (by simp : ¬([freshRow] = []))]
    rw [if_pos (by decide :
      (100 : Int) - (([freshRow].getLast (by simp)).created_at) < 900)]
  intro h
  unfold C1Statement at h
  rcases h with ⟨hcl, _⟩ | ⟨a, ha, _⟩
  · rw [hfilter] at hcl
    simp at hcl
  · rw [hpost] at ha
    have : ([] : List Activity) = [] ++ [a] := ha
    simp at this

/-- C1 amended: after `aggregate_session` returns, exactly one of three
cases holds: no buffered row carried the session key and nothing
changed; some rows did but the newest was within the session window and
nothing changed; or exactly one new Activity was appended whose
`started_at` and `ended_at` are the minimum and maximum `created_at`
over the claimed rows, the claimed rows were deleted and the daily
counter for the activity's date, project and actor grew by exactly the
claim size, all in the one transition. -/
theorem aggregate_atomicity (parseUUID : String → Option String)
    (W now : Int) (session_key : String) (st : AggState) :
    (st.pending.filter (fun e => e.session_key == session_key) = [] ∧
      aggregate_session parseUUID W now session_key st = st) ∨
    (st.pending.filter (fun e => e.session_key == session_key) ≠ [] ∧
      (∃ e ∈ st.pending.filter (fun e => e.session_key == session_key),
        now - e.created_at < W ∧
        ∀ e2 ∈ st.pending.filter (fun e => e.session_key == session_key),
          e2.created_at ≤ e.created_at) ∧
      aggregate_session parseUUID W now session_key st = st) ∨
    (∃ a : Activity,
      (aggregate_session parseUUID W now session_key st).activities =
        st.activities ++ [a] ∧
      (∃ e ∈ st.pending.filter (fun e => e.session_key == session_key),
        a.started_at = e.created_at) ∧
      (∀ e ∈ st.pending.filter (fun e => e.session_key == session_key),
        a.started_at ≤ e.created_at) ∧
      (∃ e ∈ st.pending.filter (fun e => e.session_key == session_key),
        a.ended_at = e.created_at) ∧
      (∀ e ∈ st.pending.filter (fun e => e.session_key == session_key),
        e.created_at ≤ a.ended_at) ∧
      (aggregate_session parseUUID W now session_key st).pending =
        st.pending.filter (fun e => e.session_key != session_key) ∧
      (((aggregate_session parseUUID W now session_key st).daily.lookup
          (dateOf a.ended_at, a.project_id, a.user_id)).getD 0 =
        (st.daily.lookup (dateOf a.ended_at, a.project_id, a.user_id)).getD
            0 +
          (st.pending.filter
            (fun e => e.session_key == session_key)).length)) := by
  by_cases hcl :
      st.pending.filter (fun e => e.session_key == session_key) = []
  · left
    refine ⟨hcl, ?_⟩
    unfold aggregate_session
    dsimp only
    rw [hcl, List.mergeSort_nil]
    rfl
  · have hperm := List.mergeSort_perm
      (st.pending.filter (fun e => e.session_key == session_key)) byCreatedAt
    have hsorted := List.sorted_mergeSort byCreatedAt_trans byCreatedAt_total
      (st.pending.filter (fun e => e.session_key == session_key))
    set pe := (st.pending.filter
      (fun e => e.session_key == session_key)).mergeSort byCreatedAt
      with hpe
    have hne : pe ≠ [] := by
      intro hcon
      rw [hcon] at hperm
      exact hcl hperm.symm.eq_nil
    by_cases hfr : now - (pe.getLast hne).created_at < W
    · right; left
      refine ⟨hcl, ⟨pe.getLast hne, ?_, hfr, ?_⟩, ?_⟩
      · exact hperm.mem_iff.mp (List.getLast_mem hne)
      · intro e2 he2
        exact sorted_le_getLast hne hsorted e2 (hperm.mem_iff.mpr he2)
      · unfold aggregate_session
        dsimp only
        rw [← hpe, dif_neg hne, if_pos hfr]
    · right; right
      have hpost : aggregate_session parseUUID W now session_key st =
          { pending :=
              st.pending.filter (fun e => e.session_key != session_key),
            activities := st.activities ++
              [{ project_id := (pe.head hne).project_id,
                 user_id := (pe.head hne).user_id,
                 title := (build_summary st.users pe).1,
                 summary := (build_summary st.users pe).2,
                 affected_folders :=
                   (extract_affected_entities parseUUID pe).1,
                 affected_elements :=
                   (extract_affected_entities parseUUID pe).2,
                 started_at := (pe.head hne).created_at,
                 ended_at := (pe.getLast hne).created_at }],
            daily := update_daily_summary st.daily
              (pe.head hne).project_id (pe.head hne).user_id
              (dateOf (pe.getLast hne).created_at) pe.length,
            users := st.users } := by
        unfold aggregate_session
        dsimp only
        rw [← hpe, dif_neg hne, if_neg hfr]
      rw [hpost]
      dsimp only
      refine ⟨_, rfl, ?_, ?_, ?_, ?_, rfl, ?_⟩
      · exact ⟨pe.head hne, hperm.mem_iff.mp (List.head_mem hne), rfl⟩
      · intro e he
        exact sorted_head_le hne hsorted e (hperm.mem_iff.mpr he)
      · exact ⟨pe.getLast hne, hperm.mem_iff.mp (List.getLast_mem hne), rfl⟩
      · intro e he
        exact sorted_le_getLast hne hsorted e (hperm.mem_iff.mpr he)
      · have hlen : pe.length =
            (st.pending.filter
              (fun e => e.session_key == session_key)).length :=
          hperm.length_eq
        rw [← hlen]
        exact lookup_update_daily st.daily (pe.head hne).project_id
          (pe.head hne).user_id (dateOf (pe.getLast hne).created_at)
          pe.length

/-! ## C3: de-duplication of updated groups -/

theorem lookup_upsertAssoc {κ α : Type} [DecidableEq κ] [BEq κ]
    [LawfulBEq κ] (k k2 : κ) (v : α) (l : List (κ × α)) :
    (upsertAssoc k v l).lookup k2 =
      if k2 = k then some v else l.lookup k2 := by
  induction l with
  | nil =>
    by_cases hk : k2 = k
    · simp [upsertAssoc, List.lookup, hk]
    · have hb : (k2 == k) = false := by simp [hk]
      simp [upsertAssoc, List.lookup, hb, hk]
  | cons p rest ih =>
    obtain ⟨k0, v0⟩ := p
    unfold upsertAssoc
    by_cases h0 : k0 = k
    · subst h0
      by_cases hk : k2 = k0
      · subst hk
        simp [List.lookup]
      · have hb : (k2 == k0) = false := by simp [hk]
        simp [List.lookup, hb, hk]
    · rw [if_neg h0]
      by_cases hk : k2 = k0
      · subst hk
        have hkn : ¬ (k2 = k) := fun hc => h0 hc
        simp [List.lookup, hkn]
      · have hb : (k2 == k0) = false := by simp [hk]
        simp [List.lookup, hb, ih]

theorem upsertAssoc_map_fst_mem {κ α : Type} [DecidableEq κ]
    (k : κ) (v : α) (l : List (κ × α)) (hmem : k ∈ l.map Prod.fst) :
    (upsertAssoc k v l).map Prod.fst = l.map Prod.fst := by
  induction l with
  | nil => simp at hmem
  | cons p rest ih =>
    obtain ⟨k0, v0⟩ := p
    unfold upsertAssoc
    by_cases h0 : k0 = k
    · simp [h0]
    · rw [if_neg h0]
      simp only [List.map_cons]
      have : k ∈ rest.map Prod.fst := by
        simp only [List.map_cons, List.mem_cons] at hmem
        rcases hmem with h | h
        · exact absurd h.symm h0
        · exact h
      rw [ih this]

theorem upsertAssoc_map_fst_not_mem {κ α : Type} [DecidableEq κ]
    (k : κ) (v : α) (l : List (κ × α)) (hmem : k ∉ l.map Prod.fst) :
    (upsertAssoc k v l).map Prod.fst = l.map Prod.fst ++ [k] := by
  induction l with
  | nil => simp [upsertAssoc]
  | cons p rest ih =>
    obtain ⟨k0, v0⟩ := p
    unfold upsertAssoc
    have h0 : k0 ≠ k := by
      intro hc
      exact hmem (by simp [hc])
    rw [if_neg h0]
    simp only [List.map_cons, List.cons_append, List.cons.injEq, true_and]
    exact ih (fun hc => hmem (by simp [hc]))

theorem dictLastWins_concat {α : Type} (keyOf : α → String)
    (xs : List α) (x : α) :
    dictLastWins keyOf (xs ++ [x]) =
      upsertAssoc (keyOf x) x (dictLastWins keyOf xs) := by
  unfold dictLastWins
  rw [List.foldl_append]
  rfl

theorem dictLastWins_keys_nodup {α : Type} (keyOf : α → String)
    (xs : List α) : ((dictLastWins keyOf xs).map Prod.fst).Nodup := by
  induction xs using List.reverseRecOn with
  | nil => simp [dictLastWins]
  | append_singleton xs x ih =>
    rw [dictLastWins_concat]
    by_cases hmem : keyOf x ∈ (dictLastWins keyOf xs).map Prod.fst
    · rw [upsertAssoc_map_fst_mem _ _ _ hmem]
      exact ih
    · rw [upsertAssoc_map_fst_not_mem _ _ _ hmem]
      rw [List.nodup_append]
      refine ⟨ih, List.nodup_singleton _, ?_⟩
      intro a ha hb
      simp only [List.mem_singleton] at hb
      subst hb
      exact hmem ha

theorem upsertAssoc_keyOf_pres {κ α : Type} [DecidableEq κ]
    (keyOf : α → κ) (k : κ) (v : α) (hkv : keyOf v = k)
    (l : List (κ × α)) (hl : ∀ p ∈ l, keyOf p.2 = p.1) :
    ∀ p ∈ upsertAssoc k v l, keyOf p.2 = p.1 := by
  induction l with
  | nil =>
    intro p hp
    simp [upsertAssoc] at hp
    rw [hp, hkv]
  | cons q rest ih =>
    obtain ⟨k0, v0⟩ := q
    intro p hp
    unfold upsertAssoc at hp
    by_cases h0 : k0 = k
    · rw [if_pos h0] at hp
      rcases List.mem_cons.mp hp with rfl | hrest
      · simpa [hkv] using h0.symm
      · exact hl _ (List.mem_cons_of_mem _ hrest)
    · rw [if_neg h0] at hp
      rcases List.mem_cons.mp hp with rfl | hrest
      · exact hl _ (List.mem_cons_self _ _)
      · exact ih (fun q hq => hl q (List.mem_cons_of_mem _ hq)) _ hrest

theorem dictLastWins_keyOf {α : Type} (keyOf : α → String)
    (xs : List α) : ∀ p ∈ dictLastWins keyOf xs, keyOf p.2 = p.1 := by
  induction xs using List.reverseRecOn with
  | nil => simp [dictLastWins]
  | append_singleton xs x ih =>
    rw [dictLastWins_concat]
    exact upsertAssoc_keyOf_pres (fun e => keyOf e) (keyOf x) x rfl _ ih

theorem mem_keys_dictLastWins {α : Type} (keyOf : α → String)
    (xs : List α) (k : String) :
    k ∈ (dictLastWins keyOf xs).map Prod.fst ↔ k ∈ xs.map keyOf := by
  induction xs using List.reverseRecOn with
  | nil => simp [dictLastWins]
  | append_singleton xs x ih =>
    rw [dictLastWins_concat]
    by_cases hmem : keyOf x ∈ (dictLastWins keyOf xs).map Prod.fst
    · rw [upsertAssoc_map_fst_mem _ _ _ hmem]
      simp only [List.map_append, List.map_cons, List.map_nil,
        List.mem_append, List.mem_singleton]
      constructor
      · intro h
        exact Or.inl (ih.mp h)
      · intro h
        rcases h with h | h
        · exact ih.mpr h
        · rw [h]
          exact hmem
    · rw [upsertAssoc_map_fst_not_mem _ _ _ hmem]
      simp only [List.map_append, List.map_cons, List.map_nil,
        List.mem_append, List.mem_singleton]
      exact or_congr ih Iff.rfl

theorem lookup_dictLastWins {α : Type} (keyOf : α → String)
    (xs : List α) (k : String) :
    (dictLastWins keyOf xs).lookup k =
      (xs.filter (fun e => keyOf e == k)).getLast? := by
  induction xs using List.reverseRecOn with
  | nil => simp [dictLastWins]
  | append_singleton xs x ih =>
    rw [dictLastWins_concat, lookup_upsertAssoc, List.filter_append]
    by_cases hx : keyOf x = k
    · have hb : (keyOf x == k) = true := by simp [hx]
      have hf : List.filter (fun e => keyOf e == k) [x] = [x] := by
        simp [hb]
      rw [hf, List.getLast?_concat, if_pos hx.symm]
    · have hb : (keyOf x == k) = false := by simp [hx]
      have hf : List.filter (fun e => keyOf e == k) [x] = [] := by
        simp [hb]
      rw [hf, List.append_nil, if_neg (fun hc => hx hc.symm), ih]

theorem lookup_of_keys_nodup {κ α : Type} [BEq κ] [LawfulBEq κ]
    {l : List (κ × α)} (hnd : (l.map Prod.fst).Nodup) {k : κ} {v : α}
    (hmem : (k, v) ∈ l) : l.lookup k = some v := by
  induction l with
  | nil => simp at hmem
  | cons p rest ih =>
    obtain ⟨k0, v0⟩ := p
    rcases List.mem_cons.mp hmem with heq | hrest
    · simp only [Prod.mk.injEq] at heq
      obtain ⟨rfl, rfl⟩ := heq
      simp [List.lookup]
    · have hnotin : k0 ∉ rest.map Prod.fst :=
        (List.nodup_cons.mp (by simpa using hnd)).1
      have hk : k ≠ k0 := by
        intro hc
        subst hc
        exact hnotin (List.mem_map_of_mem Prod.fst hrest)
      have hb : (k == k0) = false := by simp [hk]
      simp only [List.lookup, hb]
      exact ih (List.nodup_cons.mp (by simpa using hnd)).2 hrest

theorem mem_ite_nil_singleton {c : Prop} [Decidable c] {g x : SummaryGroup}
    (h : g ∈ (if c then ([] : List SummaryGroup) else [x])) : g = x := by
  by_cases hc : c
  · rw [if_pos hc] at h
    simp at h
  · rw [if_neg hc] at h
    simpa using h

/-- Any group in the built summary equals one of the ten source groups. -/
theorem mem_build_summary_groups {events : List PendingActivity}
    {g : SummaryGroup} (hg : g ∈ build_summary_groups events) :
    g = elements_created_group events ∨ g = elements_updated_group events ∨
    g = folders_created_group events ∨ g = folders_updated_group events ∨
    g = comments_added_group events ∨ g = images_uploaded_group events ∨
    g = announcements_created_group events ∨
    g = widgets_created_group events ∨ g = widgets_updated_group events ∨
    g = widgets_deleted_group events := by
  unfold build_summary_groups at hg
  simp only [List.append_assoc, List.mem_append] at hg
  rcases hg with hg|hg|hg|hg|hg|hg|hg|hg|hg|hg <;>
    (have hmi := mem_ite_nil_singleton hg; tauto)

theorem dedup_group_core (events : List PendingActivity) (et nk : String) :
    (((dictLastWins (fun e => e.target_id)
        (events.filter (fun e => e.event_type == et))).map
        (fun p => ({ id := p.2.target_id,
                     name := detGet p.2.details nk } : SummaryItem))).map
      (fun i => i.id)).Nodup ∧
    (dictLastWins (fun e => e.target_id)
        (events.filter (fun e => e.event_type == et))).length =
      ((dictLastWins (fun e => e.target_id)
        (events.filter (fun e => e.event_type == et))).map
        (fun p => ({ id := p.2.target_id,
                     name := detGet p.2.details nk } : SummaryItem))).length ∧
    (∀ t : String,
      t ∈ ((dictLastWins (fun e => e.target_id)
        (events.filter (fun e => e.event_type == et))).map
        (fun p => ({ id := p.2.target_id,
                     name := detGet p.2.details nk } : SummaryItem))).map
          (fun i => i.id) ↔
      t ∈ (events.filter (fun e => e.event_type == et)).map
        (fun e => e.target_id)) ∧
    (∀ i ∈ (dictLastWins (fun e => e.target_id)
        (events.filter (fun e => e.event_type == et))).map
        (fun p => ({ id := p.2.target_id,
                     name := detGet p.2.details nk } : SummaryItem)),
      ∃ e : PendingActivity,
        ((events.filter (fun e => e.event_type == et)).filter
          (fun e => e.target_id == i.id)).getLast? = some e ∧
        i.name = detGet e.details nk ∧ i.id = e.target_id) := by
  have hids : ((dictLastWins (fun e => e.target_id)
      (events.filter (fun e => e.event_type == et))).map
      (fun p => ({ id := p.2.target_id,
                   name := detGet p.2.details nk } : SummaryItem))).map
        (fun i => i.id) =
      (dictLastWins (fun e => e.target_id)
        (events.filter (fun e => e.event_type == et))).map Prod.fst := by
    rw [List.map_map]
    apply List.map_congr_left
    intro p hp
    exact dictLastWins_keyOf (fun e => e.target_id) _ p hp
  refine ⟨?_, ?_, ?_, ?_⟩
  · rw [hids]
    exact dictLastWins_keys_nodup _ _
  · simp
  · intro t
    rw [hids]
    exact mem_keys_dictLastWins _ _ t
  · intro i hi
    obtain ⟨p, hp, rfl⟩ := List.mem_map.mp hi
    have hkey : p.2.target_id = p.1 :=
      dictLastWins_keyOf (fun e => e.target_id) _ p hp
    refine ⟨p.2, ?_, rfl, ?_⟩
    · dsimp only
      simp only [hkey]
      rw [← lookup_dictLastWins]
      exact lookup_of_keys_nodup (dictLastWins_keys_nodup _ _)
        (by simpa using hp)
    · rfl

/-- C3 counterexample: two `imagemap.updated` events for the same widget
id `T` produce a `widgets_updated` group whose item list carries `T`
twice with count 2, so the group is not de-duplicated by `target_id`. -/
theorem widgets_updated_not_deduplicated :
    ∃ g ∈ build_summary_groups [widgetRow1, widgetRow2],
      g.gtype = "widgets_updated" ∧
      g.items.map (fun i => i.id) = ["T", "T"] ∧
      g.count = 2 ∧
      ¬ (g.items.map (fun i => i.id)).Nodup := by
  refine ⟨{ gtype := "widgets_updated", count := 2,
            items := [{ id := "T", name := some "first",
                        entity_type := none },
                      { id := "T", name := some "second",
                        entity_type := none }],
            items_by_parent := [] }, ?_, rfl, rfl, rfl, by decide⟩
  decide

/-- C3 amended: in every built summary, the `elements_updated` and
`folders_updated` groups are de-duplicated by `target_id` with last
write wins — item ids are duplicate-free, cover exactly the targets of
the corresponding update events, each item carries the name of the last
update event for its target, and the count is the number of items —
while the `widgets_updated` group is not de-duplicated: its items are
in one-to-one order-preserving correspondence with the individual
`imagemap.updated` events and its count is the number of those events. -/
theorem updated_groups_dedup_semantics (events : List PendingActivity) :
    (∀ g ∈ build_summary_groups events, g.gtype = "elements_updated" →
      (g.items.map (fun i => i.id)).Nodup ∧
      g.count = g.items.length ∧
      (∀ t : String, t ∈ g.items.map (fun i => i.id) ↔
        t ∈ (events.filter
          (fun e => e.event_type == "element.updated")).map
            (fun e => e.target_id)) ∧
      (∀ i ∈ g.items, ∃ e : PendingActivity,
        ((events.filter (fun e => e.event_type == "element.updated")).filter
          (fun e => e.target_id == i.id)).getLast? = some e ∧
        i.name = detGet e.details "element_name" ∧
        i.id = e.target_id)) ∧
    (∀ g ∈ build_summary_groups events, g.gtype = "folders_updated" →
      (g.items.map (fun i => i.id)).Nodup ∧
      g.count = g.items.length ∧
      (∀ t : String, t ∈ g.items.map (fun i => i.id) ↔
        t ∈ (events.filter
          (fun e => e.event_type == "folder.updated")).map
            (fun e => e.target_id)) ∧
      (∀ i ∈ g.items, ∃ e : PendingActivity,
        ((events.filter (fun e => e.event_type == "folder.updated")).filter
          (fun e => e.target_id == i.id)).getLast? = some e ∧
        i.name = detGet e.details "folder_name" ∧
        i.id = e.target_id)) ∧
    (∀ g ∈ build_summary_groups events, g.gtype = "widgets_updated" →
      g.items.map (fun i => i.id) =
        (events.filter (fun e => e.event_type == "imagemap.updated")).map
          (fun e => e.target_id) ∧
      g.count = (events.filter
        (fun e => e.event_type == "imagemap.updated")).length) := by
  refine ⟨?_, ?_, ?_⟩
  · intro g hg ht
    rcases mem_build_summary_groups hg with
      h|h|h|h|h|h|h|h|h|h <;> subst h <;>
      first
      | (exfalso; revert ht
         simp [elements_created_group, folders_created_group,
           folders_updated_group, comments_added_group,
           images_uploaded_group, announcements_created_group,
           widgets_created_group, widgets_updated_group,
           widgets_deleted_group]
         done)
      | skip
    simpa only [elements_updated_group] using
      dedup_group_core events "element.updated" "element_name"
  · intro g hg ht
    rcases mem_build_summary_groups hg with
      h|h|h|h|h|h|h|h|h|h <;> subst h <;>
      first
      | (exfalso; revert ht
         simp [elements_created_group, elements_updated_group,
           folders_created_group, comments_added_group,
           images_uploaded_group, announcements_created_group,
           widgets_created_group, widgets_updated_group,
           widgets_deleted_group]
         done)
      | skip
    simpa only [folders_updated_group] using
      dedup_group_core events "folder.updated" "folder_name"
  · intro g hg ht
    rcases mem_build_summary_groups hg with
      h|h|h|h|h|h|h|h|h|h <;> subst h <;>
      first
      | (exfalso; revert ht
         simp [elements_created_group, elements_updated_group,
           folders_created_group, folders_updated_group,
           comments_added_group, images_uploaded_group,
           announcements_created_group, widgets_created_group,
           widgets_deleted_group]
         done)
      | skip
    constructor
    · simp [widgets_updated_group, List.map_map, Function.comp]
    · simp [widgets_updated_group]

/-- Witness for the amended C3 at the two concrete widget updates. -/
theorem updated_groups_dedup_semantics_witness :
    (widgets_updated_group [widgetRow1, widgetRow2]).items.map
        (fun i => i.id) =
      (([widgetRow1, widgetRow2]).filter
        (fun e => e.event_type == "imagemap.updated")).map
          (fun e => e.target_id) ∧
    (widgets_updated_group [widgetRow1, widgetRow2]).count =
      (([widgetRow1, widgetRow2]).filter
        (fun e => e.event_type == "imagemap.updated")).length :=
  (updated_groups_dedup_semantics [widgetRow1, widgetRow2]).2.2
    (widgets_updated_group [widgetRow1, widgetRow2]) (by decide) rfl

/-! ## C8: feed ordering -/

/-- C8 counterexample: the queries order only by `ended_at` descending,
so with two matching rows of equal `ended_at` the page listing them in
ascending id order is a legitimate query result, violating the claimed
id-descending tie-break. -/
theorem feed_tiebreak_counterexample :
    IsFeedPage [rowA1, rowA2] (element_feed_filter "p" "E") 1 10
      [rowA1, rowA2] ∧
    ¬ ([rowA1, rowA2] : List ActivityRow).Pairwise feedOrderClaim := by
  constructor
  · refine ⟨[rowA1, rowA2], ?_, ?_, rfl⟩
    · have hf : ([rowA1, rowA2] : List ActivityRow).filter
          (element_feed_filter "p" "E") = [rowA1, rowA2] := by decide
      rw [hf]
    · decide
  · decide

theorem sorted_feed_page {table : List ActivityRow}
    {keep : ActivityRow → Bool} {page size : Nat}
    {items : List ActivityRow}
    (h : IsFeedPage table keep page size items) :
    items.Pairwise endedAtDesc := by
  obtain ⟨l, hperm, hsort, rfl⟩ := h
  exact hsort.sublist
    ((List.take_sublist _ _).trans (List.drop_sublist _ _))

/-- C8 amended: every page produced by the project, folder and element
feed queries is ordered by `ended_at` descending; rows with equal
`ended_at` appear in an order the queries leave unspecified (there is no
id tie-break in the SQL). -/
theorem feed_pages_sorted (table : List ActivityRow) (page size : Nat)
    (project_id element_id : String)
    (accessible_folders accessible_elements all_folder_ids : List String)
    (items1 items2 items3 : List ActivityRow)
    (h1 : IsFeedPage table
      (project_feed_filter project_id accessible_folders
        accessible_elements) page size items1)
    (h2 : IsFeedPage table (folder_feed_filter project_id all_folder_ids)
      page size items2)
    (h3 : IsFeedPage table (element_feed_filter project_id element_id)
      page size items3) :
    items1.Pairwise endedAtDesc ∧ items2.Pairwise endedAtDesc ∧
      items3.Pairwise endedAtDesc :=
  ⟨sorted_feed_page h1, sorted_feed_page h2, sorted_feed_page h3⟩

/-- Witness for C8 amended: the single-row table is its own sorted page
for all three queries. -/
theorem feed_pages_sorted_witness :
    ([rowA1] : List ActivityRow).Pairwise endedAtDesc ∧
    ([] : List ActivityRow).Pairwise endedAtDesc ∧
    ([rowA1] : List ActivityRow).Pairwise endedAtDesc :=
  feed_pages_sorted [rowA1] 1 10 "p" "E" [] ["E"] ["x"] [rowA1] []
    [rowA1]
    ⟨[rowA1], by decide, by decide, by decide⟩
    ⟨[], by decide, by decide, by decide⟩
    ⟨[rowA1], by decide, by decide, by decide⟩

/-! ## C7: dict sanitization -/

/-- C7 counterexample: a map reached through a list is returned
unchanged, so the sensitive `password` value survives sanitization in
full, contradicting the claim that sensitive values are masked at any
nesting depth including maps reached through lists. -/
theorem sanitize_dict_list_counterexample :
    sanitize_dict
        (JVal.dict [("a", .arr [.dict [("password", .str "hunter2")]])])
        3 =
      JVal.dict [("a", .arr [.dict [("password", .str "hunter2")]])] ∧
    is_sensitive_key "password" = true ∧
    JVal.str "hunter2" ≠ JVal.str "***" := by
  refine ⟨rfl, by decide, ?_⟩
  intro h
  injection h with h2
  exact absurd h2 (by decide)

theorem lookup_map_entry (f : String → JVal → JVal)
    (entries : List (String × JVal)) (k : String) :
    (entries.map (fun p => (p.1, f p.1 p.2))).lookup k =
      (entries.lookup k).map (f k) := by
  induction entries with
  | nil => simp
  | cons p rest ih =>
    obtain ⟨k0, v0⟩ := p
    by_cases hk : k = k0
    · subst hk
      simp [List.lookup]
    · have hb : (k == k0) = false := by simp [hk]
      simp [List.lookup, hb, ih]

theorem sanitize_dict_eq_map (entries : List (String × JVal)) (d2 : Nat) :
    sanitize_dict (.dict entries) (d2 + 1) =
      .dict (entries.map (fun p => (p.1, sanVal d2 p.1 p.2))) := by
  show JVal.dict _ = _
  congr 1
  apply List.map_congr_left
  intro p _
  obtain ⟨k0, v0⟩ := p
  by_cases hs : is_sensitive_key k0
  · simp [sanVal, hs]
  · cases v0 <;> simp [sanVal, hs]

/-- C7 amended: along every chain of dict nesting shorter than
`max_depth` whose intermediate keys are not themselves sensitive,
`sanitize_dict` replaces the value of every sensitive key with `***`;
maps reached through lists, however, are returned unchanged (see the
counterexample). -/
theorem sanitize_dict_masks_nested (ks : List String) (v : JVal)
    (k : String) (d : Nat)
    (hd : ks.length < d)
    (hks : ∀ k0 ∈ ks, is_sensitive_key k0 = false)
    (hsens : is_sensitive_key k = true)
    (w : JVal) (hw : getPath v ks = some w)
    (hk : (dictLookup w k).isSome) :
    ∃ w2, getPath (sanitize_dict v d) ks = some w2 ∧
      dictLookup w2 k = some (.str "***") := by
  induction ks generalizing v d with
  | nil =>
    simp only [getPath, Option.some.injEq] at hw
    subst hw
    cases v with
    | dict entries =>
      cases d with
      | zero => omega
      | succ d2 =>
        refine ⟨sanitize_dict (.dict entries) (d2 + 1), rfl, ?_⟩
        rw [sanitize_dict_eq_map]
        show (entries.map (fun p => (p.1, sanVal d2 p.1 p.2))).lookup k = _
        rw [lookup_map_entry (sanVal d2) entries k]
        have hku : (entries.lookup k).isSome := hk
        cases hu : entries.lookup k with
        | none => rw [hu] at hku; simp at hku
        | some u =>
          have hred : (some u).map (sanVal d2 k) = some (sanVal d2 k u) :=
            rfl
          rw [hred]
          unfold sanVal
          rw [if_pos hsens]
    | str s => simp [dictLookup] at hk
    | arr xs => simp [dictLookup] at hk
    | other t => simp [dictLookup] at hk
  | cons k0 ks2 ih =>
    have hk0 : is_sensitive_key k0 = false := hks k0 (by simp)
    have hd2 : ks2.length < d - 1 := by
      simp only [List.length_cons] at hd
      omega
    have hks2 : ∀ k1 ∈ ks2, is_sensitive_key k1 = false :=
      fun k1 hk1 => hks k1 (List.mem_cons_of_mem _ hk1)
    cases v with
    | dict entries =>
      simp only [getPath] at hw
      cases hv0 : dictLookup (.dict entries) k0 with
      | none =>
        rw [hv0] at hw
        simp at hw
      | some v0 =>
        rw [hv0] at hw
        simp only [Option.some_bind] at hw
        cases d with
        | zero => omega
        | succ d2 =>
          have hstep : getPath (sanitize_dict (.dict entries) (d2 + 1))
              (k0 :: ks2) = getPath (sanVal d2 k0 v0) ks2 := by
            rw [sanitize_dict_eq_map]
            have hlk : dictLookup
                (.dict (entries.map (fun p => (p.1, sanVal d2 p.1 p.2))))
                  k0 = some (sanVal d2 k0 v0) := by
              show (entries.map
                  (fun p => (p.1, sanVal d2 p.1 p.2))).lookup k0 = _
              rw [lookup_map_entry (sanVal d2) entries k0]
              have hl0 : entries.lookup k0 = some v0 := hv0
              rw [hl0]
              rfl
            simp only [getPath, hlk, Option.some_bind]
          cases v0 with
          | dict es0 =>
            have hsv : sanVal d2 k0 (.dict es0) =
                sanitize_dict (.dict es0) d2 := by
              unfold sanVal
              rw [if_neg (by simp [hk0])]
            obtain ⟨w2, h1, h2⟩ := ih (.dict es0) d2 (by omega) hks2 hw
            refine ⟨w2, ?_, h2⟩
            rw [hstep, hsv]
            exact h1
          | str s =>
            exfalso
            cases ks2 with
            | nil =>
              simp only [getPath, Option.some.injEq] at hw
              rw [← hw] at hk
              simp [dictLookup] at hk
            | cons k1 ks3 =>
              simp [getPath, dictLookup] at hw
          | arr xs =>
            exfalso
            cases ks2 with
            | nil =>
              simp only [getPath, Option.some.injEq] at hw
              rw [← hw] at hk
              simp [dictLookup] at hk
            | cons k1 ks3 =>
              simp [getPath, dictLookup] at hw
          | other t =>
            exfalso
            cases ks2 with
            | nil =>
              simp only [getPath, Option.some.injEq] at hw
              rw [← hw] at hk
              simp [dictLookup] at hk
            | cons k1 ks3 =>
              simp [getPath, dictLookup] at hw
    | str s => simp [getPath, dictLookup] at hw
    | arr xs => simp [getPath, dictLookup] at hw
    | other t => simp [getPath, dictLookup] at hw

/-- Witness for C7 amended at a concrete nested credential. -/
theorem sanitize_dict_masks_nested_witness :
    ∃ w2,
      getPath
        (sanitize_dict
          (JVal.dict [("params", .dict [("token", .str "x")])]) 3)
        ["params"] = some w2 ∧
      dictLookup w2 "token" = some (.str "***") :=
  sanitize_dict_masks_nested ["params"]
    (JVal.dict [("params", .dict [("token", .str "x")])]) "token" 3
    (by decide) (by decide) (by decide)
    (JVal.dict [("token", .str "x")]) rfl (by decide)


/-! ## Sanitizer idempotence (C9) -/

/-! ### Character case lemmas -/

theorem char_toNat_inj {c d : Char} (h : c.toNat = d.toNat) : c = d := by
  apply Char.ext
  exact UInt32.toNat.inj h

theorem char_eq_iff_toNat {c d : Char} : c = d ↔ c.toNat = d.toNat :=
  ⟨fun h => by rw [h], char_toNat_inj⟩

theorem toNat_ofNat_lt {n : Nat} (h : n < 55296) : (Char.ofNat n).toNat = n := by
  rw [Char.ofNat, dif_pos (Or.inl h)]
  simp [Char.ofNatAux, Char.toNat, UInt32.toNat, BitVec.toNat_ofNatLt]

theorem toLower_cases (c : Char) :
    c.toLower = c ∨
      (65 ≤ c.toNat ∧ c.toNat ≤ 90 ∧ c.toLower.toNat = c.toNat + 32) := by
  unfold Char.toLower
  by_cases h : c.toNat ≥ 65 ∧ c.toNat ≤ 90
  · right
    refine ⟨h.1, h.2, ?_⟩
    rw [if_pos h]
    exact toNat_ofNat_lt (by omega)
  · left
    rw [if_neg h]

theorem toLower_fixed {c : Char} (h : ¬(65 ≤ c.toNat ∧ c.toNat ≤ 90)) :
    c.toLower = c := by
  unfold Char.toLower
  rw [if_neg h]

theorem toLower_toLower (c : Char) : c.toLower.toLower = c.toLower := by
  rcases toLower_cases c with h | ⟨_, _, hv⟩
  · rw [h, h]
  · exact toLower_fixed (by omega)

theorem char_le_iff_toNat {c d : Char} : c ≤ d ↔ c.toNat ≤ d.toNat := by
  rw [Char.le_def]
  rfl

/-- Numeric characterisation of the separator class. -/
theorem isSepChar_iff (c : Char) : isSepChar c = true ↔
    (c.toNat = 34 ∨ c.toNat = 32 ∨ c.toNat = 9 ∨ c.toNat = 10 ∨
      c.toNat = 13 ∨ c.toNat = 11 ∨ c.toNat = 12 ∨ c.toNat = 58 ∨ c.toNat = 61) := by
  unfold isSepChar
  simp only [Bool.or_eq_true, beq_iff_eq, char_eq_iff_toNat,
    show Char.toNat '"' = 34 from rfl, show Char.toNat ' ' = 32 from rfl,
    show Char.toNat '\t' = 9 from rfl, show Char.toNat '\n' = 10 from rfl,
    show Char.toNat '\r' = 13 from rfl, show Char.toNat '\x0b' = 11 from rfl,
    show Char.toNat '\x0c' = 12 from rfl, show Char.toNat ':' = 58 from rfl,
    show Char.toNat '=' = 61 from rfl]
  omega

/-- Numeric characterisation of the word-character class. -/
theorem isWordChar_iff (c : Char) : isWordChar c = true ↔
    ((97 ≤ c.toNat ∧ c.toNat ≤ 122) ∨ (65 ≤ c.toNat ∧ c.toNat ≤ 90) ∨
      (48 ≤ c.toNat ∧ c.toNat ≤ 57) ∨ c.toNat = 95) := by
  unfold isWordChar
  simp only [Bool.or_eq_true, Bool.and_eq_true, decide_eq_true_eq, beq_iff_eq,
    char_le_iff_toNat, char_eq_iff_toNat,
    show Char.toNat 'a' = 97 from rfl, show Char.toNat 'z' = 122 from rfl,
    show Char.toNat 'A' = 65 from rfl, show Char.toNat 'Z' = 90 from rfl,
    show Char.toNat '0' = 48 from rfl, show Char.toNat '9' = 57 from rfl,
    show Char.toNat '_' = 95 from rfl]
  omega

/-- Numeric characterisation of the keyword value class. -/
theorem isKwTailChar_iff (c : Char) : isKwTailChar c = true ↔
    ((97 ≤ c.toNat ∧ c.toNat ≤ 122) ∨ (65 ≤ c.toNat ∧ c.toNat ≤ 90) ∨
      (48 ≤ c.toNat ∧ c.toNat ≤ 57) ∨ c.toNat = 95 ∨ c.toNat = 45 ∨ c.toNat = 46) := by
  unfold isKwTailChar
  simp only [Bool.or_eq_true, beq_iff_eq, char_eq_iff_toNat, isWordChar_iff,
    show Char.toNat '-' = 45 from rfl, show Char.toNat '.' = 46 from rfl]
  omega

/-- Numeric characterisation of the aws value class. -/
theorem isAwsTailChar_iff (c : Char) : isAwsTailChar c = true ↔
    ((97 ≤ c.toNat ∧ c.toNat ≤ 122) ∨ (65 ≤ c.toNat ∧ c.toNat ≤ 90) ∨
      (48 ≤ c.toNat ∧ c.toNat ≤ 57) ∨ c.toNat = 95 ∨ c.toNat = 47 ∨ c.toNat = 43) := by
  unfold isAwsTailChar
  simp only [Bool.or_eq_true, beq_iff_eq, char_eq_iff_toNat, isWordChar_iff,
    show Char.toNat '/' = 47 from rfl, show Char.toNat '+' = 43 from rfl]
  omega

/-- Numeric characterisation of the alphanumeric class. -/
theorem isAlnumChar_iff (c : Char) : isAlnumChar c = true ↔
    ((97 ≤ c.toNat ∧ c.toNat ≤ 122) ∨ (65 ≤ c.toNat ∧ c.toNat ≤ 90) ∨
      (48 ≤ c.toNat ∧ c.toNat ≤ 57)) := by
  unfold isAlnumChar
  simp only [Bool.or_eq_true, Bool.and_eq_true, decide_eq_true_eq,
    char_le_iff_toNat,
    show Char.toNat 'a' = 97 from rfl, show Char.toNat 'z' = 122 from rfl,
    show Char.toNat 'A' = 65 from rfl, show Char.toNat 'Z' = 90 from rfl,
    show Char.toNat '0' = 48 from rfl, show Char.toNat '9' = 57 from rfl]
  omega

theorem isSepChar_toLower (c : Char) : isSepChar c.toLower = isSepChar c := by
  rcases toLower_cases c with h | ⟨h1, h2, h3⟩
  · rw [h]
  · rw [Bool.eq_iff_iff, isSepChar_iff, isSepChar_iff]
    omega

theorem isWordChar_toLower (c : Char) : isWordChar c.toLower = isWordChar c := by
  rcases toLower_cases c with h | ⟨h1, h2, h3⟩
  · rw [h]
  · rw [Bool.eq_iff_iff, isWordChar_iff, isWordChar_iff]
    omega

theorem isKwTailChar_toLower (c : Char) : isKwTailChar c.toLower = isKwTailChar c := by
  rcases toLower_cases c with h | ⟨h1, h2, h3⟩
  · rw [h]
  · rw [Bool.eq_iff_iff, isKwTailChar_iff, isKwTailChar_iff]
    omega

theorem isAwsTailChar_toLower (c : Char) : isAwsTailChar c.toLower = isAwsTailChar c := by
  rcases toLower_cases c with h | ⟨h1, h2, h3⟩
  · rw [h]
  · rw [Bool.eq_iff_iff, isAwsTailChar_iff, isAwsTailChar_iff]
    omega

theorem isAlnumChar_toLower (c : Char) : isAlnumChar c.toLower = isAlnumChar c := by
  rcases toLower_cases c with h | ⟨h1, h2, h3⟩
  · rw [h]
  · rw [Bool.eq_iff_iff, isAlnumChar_iff, isAlnumChar_iff]
    omega

theorem bne_colon_toLower (c : Char) : (c.toLower != ':') = (c != ':') := by
  rcases toLower_cases c with h | ⟨h1, h2, h3⟩
  · rw [h]
  · rw [Bool.eq_iff_iff, bne_iff_ne, bne_iff_ne, Ne, Ne,
      char_eq_iff_toNat, char_eq_iff_toNat, show Char.toNat ':' = 58 from rfl]
    omega

theorem bne_at_toLower (c : Char) : (c.toLower != '@') = (c != '@') := by
  rcases toLower_cases c with h | ⟨h1, h2, h3⟩
  · rw [h]
  · rw [Bool.eq_iff_iff, bne_iff_ne, bne_iff_ne, Ne, Ne,
      char_eq_iff_toNat, char_eq_iff_toNat, show Char.toNat '@' = 64 from rfl]
    omega

theorem optc_contains_toLower (c : Char) :
    (['_', '-'].contains c.toLower) = (['_', '-'].contains c) := by
  rcases toLower_cases c with h | ⟨h1, h2, h3⟩
  · rw [h]
  · rw [Bool.eq_iff_iff]
    simp only [List.contains_cons, List.elem_nil, Bool.or_false, Bool.or_eq_true,
      beq_iff_eq, char_eq_iff_toNat,
      show Char.toNat '_' = 95 from rfl, show Char.toNat '-' = 45 from rfl]
    omega

theorem runD_append {σ : Type} (step : σ → Char → σ) (s : σ) (xs ys : List Char) :
    runD step s (xs ++ ys) = runD step (runD step s xs) ys := by
  unfold runD
  exact List.foldl_append step s xs ys

theorem runD_fixed {σ : Type} (step : σ → Char → σ) (s : σ)
    (h : ∀ c, step s c = s) : ∀ cs, runD step s cs = s := by
  intro cs
  induction cs with
  | nil => rfl
  | cons c cs ih =>
    show runD step (step s c) cs = s
    rw [h c]
    exact ih

theorem takeWhileLen_cons (cls : Char → Bool) (c : Char) (cs : List Char) :
    takeWhileLen cls (c :: cs) =
      if cls c then takeWhileLen cls cs + 1 else 0 := rfl

theorem litLen_cons (p : Char) (ps : List Char) (c : Char) (cs : List Char) :
    litLen (p :: ps) (c :: cs) =
      if c.toLower == p then (litLen ps cs).map (· + 1) else none := rfl

theorem isSome_omap (f : Nat → Nat) (o : Option Nat) :
    (o.map f).isSome = o.isSome := by
  cases o <;> rfl

theorem matchPats_lit_nil (R : List Pat) (cs : List Char) :
    (matchPats (.lit [] :: R) cs).isSome = (matchPats R cs).isSome := by
  show (match litLen [] cs with
    | none => none
    | some n => (matchPats R (cs.drop n)).map (· + n)).isSome = _
  show ((matchPats R (cs.drop 0)).map (· + 0)).isSome = _
  rw [List.drop_zero, isSome_omap]

theorem matchPats_lit_cons (p : Char) (ps : List Char) (R : List Pat)
    (c : Char) (cs : List Char) :
    (matchPats (.lit (p :: ps) :: R) (c :: cs)).isSome =
      if c.toLower == p then (matchPats (.lit ps :: R) cs).isSome else false := by
  show (match litLen (p :: ps) (c :: cs) with
    | none => none
    | some n => (matchPats R ((c :: cs).drop n)).map (· + n)).isSome = _
  rw [litLen_cons]
  by_cases h : c.toLower == p
  · rw [if_pos h, if_pos h]
    show (match (litLen ps cs).map (· + 1) with
      | none => none
      | some n => (matchPats R ((c :: cs).drop n)).map (· + n)).isSome = _
    cases hl : litLen ps cs with
    | none =>
      show (none : Option Nat).isSome = (matchPats (.lit ps :: R) cs).isSome
      show _ = (match litLen ps cs with
        | none => none
        | some n => (matchPats R (cs.drop n)).map (· + n)).isSome
      rw [hl]
    | some m =>
      show ((matchPats R ((c :: cs).drop (m + 1))).map (· + (m + 1))).isSome
        = (matchPats (.lit ps :: R) cs).isSome
      have hr : (matchPats (.lit ps :: R) cs) = (match litLen ps cs with
        | none => none
        | some n => (matchPats R (cs.drop n)).map (· + n)) := rfl
      rw [hr, hl, List.drop_succ_cons, isSome_omap, isSome_omap]
  · rw [if_neg h, if_neg h]
    rfl

theorem matchPats_plus_cons (cls : Char → Bool) (R : List Pat)
    (c : Char) (cs : List Char) :
    (matchPats (.plus cls :: R) (c :: cs)).isSome =
      if cls c
      then (matchPats R (cs.drop (takeWhileLen cls cs))).isSome
      else false := by
  show (let n := takeWhileLen cls (c :: cs);
    if n = 0 then none
    else (matchPats R ((c :: cs).drop n)).map (· + n)).isSome = _
  rw [takeWhileLen_cons]
  by_cases h : cls c
  · rw [if_pos h]
    show (if takeWhileLen cls cs + 1 = 0 then none
      else (matchPats R ((c :: cs).drop (takeWhileLen cls cs + 1))).map
        (· + (takeWhileLen cls cs + 1))).isSome = _
    rw [if_neg (Nat.succ_ne_zero _), if_pos h, List.drop_succ_cons,
      isSome_omap]
  · show (if (if cls c = true then takeWhileLen cls cs + 1 else 0) = 0
      then none
      else (matchPats R ((c :: cs).drop
        (if cls c = true then takeWhileLen cls cs + 1 else 0))).map
          (· + (if cls c = true then takeWhileLen cls cs + 1 else 0))).isSome
      = _
    rw [if_neg h, if_pos rfl, if_neg h]
    rfl

theorem matchPats_plus_nil (cls : Char → Bool) (R : List Pat) :
    (matchPats (.plus cls :: R) []).isSome = false := by
  rfl

/-- One-step agreement of the keyword automaton with the matcher. -/
theorem kwSem_step (tcl : Char → Bool) (s : KwSt) (c : Char) (cs : List Char) :
    kwSem tcl s (c :: cs) ↔ kwSem tcl (kwStep tcl s c) cs := by
  cases s with
  | lit rem =>
    cases rem with
    | nil =>
      show (matchPats [.lit [], .plus isSepChar, .plus tcl] (c :: cs)).isSome
          = true ↔ _
      rw [matchPats_lit_nil, matchPats_plus_cons]
      show (if isSepChar c then _ else false) = true ↔
        kwSem tcl (if isSepChar c then .sep1 else .dead) cs
      by_cases h : isSepChar c
      · rw [if_pos h, if_pos h]
        exact Iff.rfl
      · rw [if_neg h, if_neg h]
        simp [kwSem]
    | cons p ps =>
      show (matchPats [.lit (p :: ps), .plus isSepChar, .plus tcl]
        (c :: cs)).isSome = true ↔ _
      rw [matchPats_lit_cons]
      show (if c.toLower == p then _ else false) = true ↔
        kwSem tcl (if c.toLower == p then .lit ps else .dead) cs
      by_cases h : c.toLower == p
      · rw [if_pos h, if_pos h]
        exact Iff.rfl
      · rw [if_neg h, if_neg h]
        simp [kwSem]
  | sep0 =>
    show (matchPats [.plus isSepChar, .plus tcl] (c :: cs)).isSome = true ↔ _
    rw [matchPats_plus_cons]
    by_cases h : isSepChar c
    · rw [if_pos h]
      show _ ↔ kwSem tcl (if isSepChar c then .sep1 else .dead) cs
      rw [if_pos h]
      exact Iff.rfl
    · rw [if_neg h]
      show false = true ↔ kwSem tcl (if isSepChar c then .sep1 else .dead) cs
      rw [if_neg h]
      simp [kwSem]
  | sep1 =>
    show (matchPats [.plus tcl]
      ((c :: cs).drop (takeWhileLen isSepChar (c :: cs)))).isSome = true ↔ _
    rw [takeWhileLen_cons]
    by_cases h : isSepChar c
    · rw [if_pos h, List.drop_succ_cons]
      show _ ↔ kwSem tcl (kwStep tcl .sep1 c) cs
      show _ ↔ kwSem tcl (if isSepChar c then .sep1 else
        if tcl c then .accept else .dead) cs
      rw [if_pos h]
      exact Iff.rfl
    · rw [if_neg h, List.drop_zero, matchPats_plus_cons]
      show _ ↔ kwSem tcl (if isSepChar c then .sep1 else
        if tcl c then .accept else .dead) cs
      rw [if_neg h]
      by_cases ht : tcl c
      · rw [if_pos ht, if_pos ht]
        show (matchPats [] (cs.drop (takeWhileLen tcl cs))).isSome = true ↔
          kwSem tcl .accept cs
        simp [matchPats, kwSem]
      · rw [if_neg ht, if_neg ht]
        simp [kwSem]
  | accept => simp [kwSem, kwStep]
  | dead => simp [kwSem, kwStep]

/-- The keyword automaton accepts exactly when the matcher succeeds. -/
theorem kw_run_iff (tcl : Char → Bool) (cs : List Char) : ∀ s : KwSt,
    runD (kwStep tcl) s cs = KwSt.accept ↔ kwSem tcl s cs := by
  induction cs with
  | nil =>
    intro s
    cases s with
    | lit rem =>
      cases rem with
      | nil =>
        show KwSt.lit [] = KwSt.accept ↔
          (matchPats [.lit [], .plus isSepChar, .plus tcl] []).isSome = true
        rw [matchPats_lit_nil, matchPats_plus_nil]
        simp
      | cons p ps =>
        show KwSt.lit (p :: ps) = KwSt.accept ↔
          (matchPats [.lit (p :: ps), .plus isSepChar, .plus tcl] []).isSome
            = true
        show _ ↔ (none : Option Nat).isSome = true
        simp
    | sep0 =>
      show KwSt.sep0 = KwSt.accept ↔
        (matchPats [.plus isSepChar, .plus tcl] []).isSome = true
      rw [matchPats_plus_nil]
      simp
    | sep1 =>
      show KwSt.sep1 = KwSt.accept ↔
        (matchPats [.plus tcl] (List.drop _ [])).isSome = true
      rw [List.drop_nil, matchPats_plus_nil]
      simp
    | accept => simp [runD, kwSem]
    | dead => simp [runD, kwSem]
  | cons c cs ih =>
    intro s
    show runD (kwStep tcl) (kwStep tcl s c) cs = KwSt.accept ↔ _
    rw [ih, kwSem_step]

/-! ### Matcher / automaton equivalence: URL family -/

theorem str_colon_toList : ":".toList = [':'] := rfl

theorem str_at_toList : "@".toList = ['@'] := rfl

/-- One-step agreement of the URL automaton with the matcher. -/
theorem urlSem_step (s : UrlSt) (c : Char) (cs : List Char) :
    urlSem s (c :: cs) ↔ urlSem (urlStep s c) cs := by
  cases s with
  | lit rem =>
    cases rem with
    | nil =>
      show (matchPats (.lit [] :: [.plus (fun c => c != ':'), .lit ":".toList,
        .plus (fun c => c != '@'), .lit "@".toList]) (c :: cs)).isSome
          = true ↔ _
      rw [matchPats_lit_nil, matchPats_plus_cons]
      show (if (c != ':') then _ else false) = true ↔
        urlSem (if c != ':' then .a1 else .dead) cs
      by_cases h : c != ':'
      · rw [if_pos h, if_pos h]
        exact Iff.rfl
      · rw [if_neg h, if_neg h]
        simp [urlSem]
    | cons p ps =>
      show (matchPats (.lit (p :: ps) :: [.plus (fun c => c != ':'),
        .lit ":".toList, .plus (fun c => c != '@'), .lit "@".toList])
        (c :: cs)).isSome = true ↔ _
      rw [matchPats_lit_cons]
      show (if c.toLower == p then _ else false) = true ↔
        urlSem (if c.toLower == p then .lit ps else .dead) cs
      by_cases h : c.toLower == p
      · rw [if_pos h, if_pos h]
        exact Iff.rfl
      · rw [if_neg h, if_neg h]
        simp [urlSem]
  | a0 =>
    show (matchPats (.plus (fun c => c != ':') :: [.lit ":".toList,
      .plus (fun c => c != '@'), .lit "@".toList]) (c :: cs)).isSome
        = true ↔ _
    rw [matchPats_plus_cons]
    show (if (c != ':') then _ else false) = true ↔
      urlSem (if c != ':' then .a1 else .dead) cs
    by_cases h : c != ':'
    · rw [if_pos h, if_pos h]
      exact Iff.rfl
    · rw [if_neg h, if_neg h]
      simp [urlSem]
  | a1 =>
    show (matchPats [.lit ":".toList, .plus (fun c => c != '@'),
      .lit "@".toList]
      ((c :: cs).drop (takeWhileLen (fun c => c != ':') (c :: cs)))).isSome
        = true ↔ _
    rw [takeWhileLen_cons]
    show _ ↔ urlSem (if c == ':' then .b0 else .a1) cs
    by_cases h : c == ':'
    · have hc : c = ':' := beq_iff_eq.mp h
      have hb : (c != ':') = false := by
        rw [hc]
        rfl
      rw [hb, if_neg (by decide), List.drop_zero, if_pos h, hc]
      show (matchPats (.lit [':'] :: [.plus (fun c => c != '@'),
        .lit "@".toList]) (':' :: cs)).isSome = true ↔ _
      rw [matchPats_lit_cons]
      rw [if_pos (by decide)]
      rw [matchPats_lit_nil]
      exact Iff.rfl
    · have hb : (c != ':') = true := by
        rw [bne]
        rw [Bool.not_eq_true']
        exact Bool.not_eq_true _ ▸ (by simpa using h)
      rw [hb, if_pos rfl, List.drop_succ_cons, if_neg h]
      exact Iff.rfl
  | b0 =>
    show (matchPats (.plus (fun c => c != '@') :: [.lit "@".toList])
      (c :: cs)).isSome = true ↔ _
    rw [matchPats_plus_cons]
    show (if (c != '@') then _ else false) = true ↔
      urlSem (if c != '@' then .b1 else .dead) cs
    by_cases h : c != '@'
    · rw [if_pos h, if_pos h]
      exact Iff.rfl
    · rw [if_neg h, if_neg h]
      simp [urlSem]
  | b1 =>
    show (matchPats [.lit "@".toList]
      ((c :: cs).drop (takeWhileLen (fun c => c != '@') (c :: cs)))).isSome
        = true ↔ _
    rw [takeWhileLen_cons]
    show _ ↔ urlSem (if c == '@' then .accept else .b1) cs
    by_cases h : c == '@'
    · have hc : c = '@' := beq_iff_eq.mp h
      have hb : (c != '@') = false := by
        rw [hc]
        rfl
      rw [hb, if_neg (by decide), List.drop_zero, if_pos h, hc]
      show (matchPats (.lit ['@'] :: []) ('@' :: cs)).isSome = true ↔ _
      rw [matchPats_lit_cons]
      rw [if_pos (by decide)]
      rw [matchPats_lit_nil]
      show (matchPats [] cs).isSome = true ↔ urlSem .accept cs
      simp [matchPats, urlSem]
    · have hb : (c != '@') = true := by
        simpa [bne] using h
      rw [hb, if_pos rfl, List.drop_succ_cons, if_neg h]
      exact Iff.rfl
  | accept => simp [urlSem, urlStep]
  | dead => simp [urlSem, urlStep]

/-- The URL automaton accepts exactly when the matcher succeeds. -/
theorem url_run_iff (cs : List Char) : ∀ s : UrlSt,
    runD urlStep s cs = UrlSt.accept ↔ urlSem s cs := by
  induction cs with
  | nil =>
    intro s
    cases s with
    | lit rem =>
      cases rem with
      | nil =>
        show UrlSt.lit [] = UrlSt.accept ↔
          (matchPats (.lit [] :: [.plus (fun c => c != ':'), .lit ":".toList,
            .plus (fun c => c != '@'), .lit "@".toList]) []).isSome = true
        rw [matchPats_lit_nil, matchPats_plus_nil]
        simp
      | cons p ps =>
        show UrlSt.lit (p :: ps) = UrlSt.accept ↔
          (none : Option Nat).isSome = true
        simp
    | a0 =>
      show UrlSt.a0 = UrlSt.accept ↔
        (matchPats (.plus (fun c => c != ':') :: [.lit ":".toList,
          .plus (fun c => c != '@'), .lit "@".toList]) []).isSome = true
      rw [matchPats_plus_nil]
      simp
    | a1 =>
      show UrlSt.a1 = UrlSt.accept ↔
        (matchPats [.lit ":".toList, .plus (fun c => c != '@'),
          .lit "@".toList] (List.drop _ [])).isSome = true
      rw [List.drop_nil, str_colon_toList]
      show _ ↔ (none : Option Nat).isSome = true
      simp
    | b0 =>
      show UrlSt.b0 = UrlSt.accept ↔
        (matchPats (.plus (fun c => c != '@') :: [.lit "@".toList]) []).isSome
          = true
      rw [matchPats_plus_nil]
      simp
    | b1 =>
      show UrlSt.b1 = UrlSt.accept ↔
        (matchPats [.lit "@".toList] (List.drop _ [])).isSome = true
      rw [List.drop_nil, str_at_toList]
      show _ ↔ (none : Option Nat).isSome = true
      simp
    | accept => simp [runD, urlSem]
    | dead => simp [runD, urlSem]
  | cons c cs ih =>
    intro s
    show runD urlStep (urlStep s c) cs = UrlSt.accept ↔ _
    rw [ih, urlSem_step]

/-! ### Matcher / automaton equivalence: api-key and AKIA families -/

theorem matchPats_optc_cons (chars : List Char) (R : List Pat)
    (c : Char) (cs : List Char) :
    (matchPats (.optc chars :: R) (c :: cs)).isSome =
      if chars.contains c then (matchPats R cs).isSome
      else (matchPats R (c :: cs)).isSome := by
  show (if chars.contains c then (matchPats R cs).map (· + 1)
    else matchPats R (c :: cs)).isSome = _
  by_cases h : chars.contains c
  · rw [if_pos h, if_pos h, isSome_omap]
  · rw [if_neg h, if_neg h]

/-- One-step agreement of the api-key automaton with the matcher. -/
theorem apiSem_step (s : ApiSt) (c : Char) (cs : List Char) :
    apiSem s (c :: cs) ↔ apiSem (apiStep s c) cs := by
  have hopt : ∀ cs2 : List Char, apiSem .opt cs2 ↔
      (matchPats (.optc ['_', '-'] :: [.lit "key".toList,
        .plus isSepChar, .plus isKwTailChar]) cs2).isSome = true :=
    fun _ => Iff.rfl
  have hkey : apiSem .opt (c :: cs) ↔
      apiSem (if ['_', '-'].contains c then .litK ['k', 'e', 'y']
        else if c.toLower == 'k' then .litK ['e', 'y'] else .dead) cs := by
    rw [hopt, matchPats_optc_cons]
    by_cases h : ['_', '-'].contains c
    · rw [if_pos h, if_pos h]
      exact Iff.rfl
    · rw [if_neg h, if_neg h]
      show (matchPats (.lit ['k', 'e', 'y'] :: [.plus isSepChar,
        .plus isKwTailChar]) (c :: cs)).isSome = true ↔ _
      rw [matchPats_lit_cons]
      by_cases hk : c.toLower == 'k'
      · rw [if_pos hk, if_pos hk]
        exact Iff.rfl
      · rw [if_neg hk, if_neg hk]
        simp [apiSem]
  cases s with
  | litA rem =>
    cases rem with
    | nil =>
      show (matchPats (.lit [] :: [.optc ['_', '-'], .lit "key".toList,
        .plus isSepChar, .plus isKwTailChar]) (c :: cs)).isSome = true ↔ _
      rw [matchPats_lit_nil]
      exact hkey
    | cons p ps =>
      show (matchPats (.lit (p :: ps) :: [.optc ['_', '-'], .lit "key".toList,
        .plus isSepChar, .plus isKwTailChar]) (c :: cs)).isSome = true ↔ _
      rw [matchPats_lit_cons]
      by_cases h : c.toLower == p
      · rw [if_pos h]
        show _ ↔ apiSem (if c.toLower == p then .litA ps else .dead) cs
        rw [if_pos h]
        exact Iff.rfl
      · rw [if_neg h]
        show _ ↔ apiSem (if c.toLower == p then .litA ps else .dead) cs
        rw [if_neg h]
        simp [apiSem]
  | opt => exact hkey
  | litK rem =>
    cases rem with
    | nil =>
      show (matchPats (.lit [] :: [.plus isSepChar, .plus isKwTailChar])
        (c :: cs)).isSome = true ↔ _
      rw [matchPats_lit_nil, matchPats_plus_cons]
      show (if isSepChar c then _ else false) = true ↔
        apiSem (if isSepChar c then .sep1 else .dead) cs
      by_cases h : isSepChar c
      · rw [if_pos h, if_pos h]
        exact Iff.rfl
      · rw [if_neg h, if_neg h]
        simp [apiSem]
    | cons p ps =>
      show (matchPats (.lit (p :: ps) :: [.plus isSepChar, .plus isKwTailChar])
        (c :: cs)).isSome = true ↔ _
      rw [matchPats_lit_cons]
      by_cases h : c.toLower == p
      · rw [if_pos h]
        show _ ↔ apiSem (if c.toLower == p then .litK ps else .dead) cs
        rw [if_pos h]
        exact Iff.rfl
      · rw [if_neg h]
        show _ ↔ apiSem (if c.toLower == p then .litK ps else .dead) cs
        rw [if_neg h]
        simp [apiSem]
  | sep0 =>
    show (matchPats (.plus isSepChar :: [.plus isKwTailChar])
      (c :: cs)).isSome = true ↔ _
    rw [matchPats_plus_cons]
    show (if isSepChar c then _ else false) = true ↔
      apiSem (if isSepChar c then .sep1 else .dead) cs
    by_cases h : isSepChar c
    · rw [if_pos h, if_pos h]
      exact Iff.rfl
    · rw [if_neg h, if_neg h]
      simp [apiSem]
  | sep1 =>
    show (matchPats [.plus isKwTailChar]
      ((c :: cs).drop (takeWhileLen isSepChar (c :: cs)))).isSome = true ↔ _
    rw [takeWhileLen_cons]
    show _ ↔ apiSem (if isSepChar c then .sep1 else
      if isKwTailChar c then .accept else .dead) cs
    by_cases h : isSepChar c
    · rw [if_pos h, List.drop_succ_cons, if_pos h]
      exact Iff.rfl
    · rw [if_neg h, List.drop_zero, matchPats_plus_cons, if_neg h]
      by_cases ht : isKwTailChar c
      · rw [if_pos ht, if_pos ht]
        show (matchPats [] (cs.drop (takeWhileLen isKwTailChar cs))).isSome
          = true ↔ apiSem .accept cs
        simp [matchPats, apiSem]
      · rw [if_neg ht, if_neg ht]
        simp [apiSem]
  | accept => simp [apiSem, apiStep]
  | dead => simp [apiSem, apiStep]

/-- The api-key automaton accepts exactly when the matcher succeeds. -/
theorem api_run_iff (cs : List Char) : ∀ s : ApiSt,
    runD apiStep s cs = ApiSt.accept ↔ apiSem s cs := by
  induction cs with
  | nil =>
    intro s
    cases s with
    | litA rem =>
      cases rem with
      | nil =>
        show ApiSt.litA [] = ApiSt.accept ↔
          (matchPats (.lit [] :: [.optc ['_', '-'], .lit "key".toList,
            .plus isSepChar, .plus isKwTailChar]) []).isSome = true
        rw [matchPats_lit_nil]
        show _ ↔ (matchPats (.lit "key".toList :: [.plus isSepChar,
          .plus isKwTailChar]) []).isSome = true
        show _ ↔ (none : Option Nat).isSome = true
        simp
      | cons p ps =>
        show ApiSt.litA (p :: ps) = ApiSt.accept ↔
          (none : Option Nat).isSome = true
        simp
    | opt =>
      show ApiSt.opt = ApiSt.accept ↔
        (matchPats (.optc ['_', '-'] :: [.lit "key".toList,
          .plus isSepChar, .plus isKwTailChar]) []).isSome = true
      show _ ↔ (matchPats (.lit "key".toList :: [.plus isSepChar,
        .plus isKwTailChar]) []).isSome = true
      show _ ↔ (none : Option Nat).isSome = true
      simp
    | litK rem =>
      cases rem with
      | nil =>
        show ApiSt.litK [] = ApiSt.accept ↔
          (matchPats (.lit [] :: [.plus isSepChar, .plus isKwTailChar])
            []).isSome = true
        rw [matchPats_lit_nil, matchPats_plus_nil]
        simp
      | cons p ps =>
        show ApiSt.litK (p :: ps) = ApiSt.accept ↔
          (none : Option Nat).isSome = true
        simp
    | sep0 =>
      show ApiSt.sep0 = ApiSt.accept ↔
        (matchPats (.plus isSepChar :: [.plus isKwTailChar]) []).isSome = true
      rw [matchPats_plus_nil]
      simp
    | sep1 =>
      show ApiSt.sep1 = ApiSt.accept ↔
        (matchPats [.plus isKwTailChar] (List.drop _ [])).isSome = true
      rw [List.drop_nil, matchPats_plus_nil]
      simp
    | accept => simp [runD, apiSem]
    | dead => simp [runD, apiSem]
  | cons c cs ih =>
    intro s
    show runD apiStep (apiStep s c) cs = ApiSt.accept ↔ _
    rw [ih, apiSem_step]

theorem matchPats_exactly (n : Nat) (cls : Char → Bool) (R : List Pat)
    (cs : List Char) :
    matchPats (.exactly n cls :: R) cs =
      if n ≤ cs.length ∧ (cs.take n).all cls
      then (matchPats R (cs.drop n)).map (· + n) else none := rfl

theorem exactly_sem (cs : List Char) (m : Nat) :
    (matchPats [.exactly 16 isAlnumChar] cs).isSome = true ↔
      (16 ≤ cs.length ∧ (cs.take 16).all isAlnumChar = true) := by
  rw [matchPats_exactly]
  by_cases h : 16 ≤ cs.length ∧ (cs.take 16).all isAlnumChar
  · rw [if_pos h, isSome_omap]
    show (matchPats [] (cs.drop 16)).isSome = true ↔ _
    simp [matchPats, h.1, h.2]
  · rw [if_neg h]
    simp only [Option.isSome_none, Bool.false_eq_true, false_iff]
    exact fun hc => h ⟨hc.1, hc.2⟩

/-- One-step agreement of the AKIA automaton with the matcher. -/
theorem akSem_step (s : AkSt) (c : Char) (cs : List Char) :
    akSem s (c :: cs) ↔ akSem (akStep s c) cs := by
  cases s with
  | lit rem =>
    cases rem with
    | nil =>
      show (matchPats (.lit [] :: [.exactly 16 isAlnumChar])
        (c :: cs)).isSome = true ↔ _
      rw [matchPats_lit_nil, exactly_sem _ 0]
      show (16 ≤ (c :: cs).length ∧
        ((c :: cs).take 16).all isAlnumChar = true) ↔
          akSem (if isAlnumChar c then .cnt ⟨1, by omega⟩ else .dead) cs
      by_cases h : isAlnumChar c
      · rw [if_pos h]
        show _ ↔ (16 - 1 ≤ cs.length ∧
          (cs.take (16 - 1)).all isAlnumChar = true)
        show (16 ≤ cs.length + 1 ∧
          (c :: cs.take 15).all isAlnumChar = true) ↔ _
        rw [List.all_cons, h, Bool.true_and]
        constructor
        · exact fun hx => ⟨by omega, hx.2⟩
        · exact fun hx => ⟨by omega, hx.2⟩
      · rw [if_neg h]
        show _ ↔ False
        simp only [iff_false]
        intro hx
        have := hx.2
        rw [show (c :: cs).take 16 = c :: cs.take 15 from rfl,
          List.all_cons, show isAlnumChar c = false from by simpa using h]
          at this
        simp at this
    | cons p ps =>
      show (matchPats (.lit (p :: ps) :: [.exactly 16 isAlnumChar])
        (c :: cs)).isSome = true ↔ _
      rw [matchPats_lit_cons]
      by_cases h : c.toLower == p
      · rw [if_pos h]
        show _ ↔ akSem (if c.toLower == p then .lit ps else .dead) cs
        rw [if_pos h]
        exact Iff.rfl
      · rw [if_neg h]
        show _ ↔ akSem (if c.toLower == p then .lit ps else .dead) cs
        rw [if_neg h]
        simp [akSem]
  | cnt k =>
    have hk : k.val < 16 := k.isLt
    show (16 - k.val ≤ (c :: cs).length ∧
      ((c :: cs).take (16 - k.val)).all isAlnumChar = true) ↔ _
    have htake : (c :: cs).take (16 - k.val) = c :: cs.take (16 - k.val - 1) := by
      have : 16 - k.val = (16 - k.val - 1) + 1 := by omega
      rw [this]
      rfl
    rw [htake, List.all_cons]
    by_cases h : isAlnumChar c
    · rw [h, Bool.true_and]
      rw [show akStep (AkSt.cnt k) c =
        (if h2 : k.val + 1 < 16 then AkSt.cnt ⟨k.val + 1, h2⟩
          else AkSt.accept) from by simp [akStep, h]]
      by_cases h2 : k.val + 1 < 16
      · rw [dif_pos h2]
        show _ ↔ (16 - (k.val + 1) ≤ cs.length ∧
          (cs.take (16 - (k.val + 1))).all isAlnumChar = true)
        have e1 : 16 - k.val - 1 = 16 - (k.val + 1) := by omega
        rw [e1]
        simp only [List.length_cons]
        constructor
        · exact fun hx => ⟨by omega, hx.2⟩
        · exact fun hx => ⟨by omega, hx.2⟩
      · rw [dif_neg h2]
        show _ ↔ True
        have e0 : 16 - k.val - 1 = 0 := by omega
        have e1 : 16 - k.val = 1 := by omega
        rw [e0, e1]
        simp
    · rw [show isAlnumChar c = false from by simpa using h]
      rw [show akStep (AkSt.cnt k) c = AkSt.dead from by simp [akStep, h]]
      show _ ↔ akSem .dead cs
      simp [akSem]
  | accept => simp [akSem, akStep]
  | dead => simp [akSem, akStep]

/-- The AKIA automaton accepts exactly when the matcher succeeds. -/
theorem ak_run_iff (cs : List Char) : ∀ s : AkSt,
    runD akStep s cs = AkSt.accept ↔ akSem s cs := by
  induction cs with
  | nil =>
    intro s
    cases s with
    | lit rem =>
      cases rem with
      | nil =>
        show AkSt.lit [] = AkSt.accept ↔
          (matchPats (.lit [] :: [.exactly 16 isAlnumChar]) []).isSome = true
        rw [matchPats_lit_nil, exactly_sem _ 0]
        simp
      | cons p ps =>
        show AkSt.lit (p :: ps) = AkSt.accept ↔
          (none : Option Nat).isSome = true
        simp
    | cnt k =>
      have hk : k.val < 16 := k.isLt
      show AkSt.cnt k = AkSt.accept ↔
        (16 - k.val ≤ ([] : List Char).length ∧
          (([] : List Char).take (16 - k.val)).all isAlnumChar = true)
      simp only [List.length_nil, Nat.le_zero]
      constructor
      · intro hx
        exact absurd hx (by simp)
      · intro hx
        omega
    | accept => simp [runD, akSem]
    | dead => simp [runD, akSem]
  | cons c cs ih =>
    intro s
    show runD akStep (akStep s c) cs = AkSt.accept ↔ _
    rw [ih, akSem_step]

/-! ### Scan decomposition into segments -/

theorem takeWhileLen_le (cls : Char → Bool) :
    ∀ cs : List Char, takeWhileLen cls cs ≤ cs.length := by
  intro cs
  induction cs with
  | nil => exact Nat.le_refl 0
  | cons c cs ih =>
    rw [takeWhileLen_cons]
    by_cases h : cls c
    · rw [if_pos h]
      simpa using ih
    · rw [if_neg h]
      exact Nat.zero_le _

theorem litLen_le : ∀ (ps cs : List Char) (n : Nat),
    litLen ps cs = some n → n ≤ cs.length := by
  intro ps
  induction ps with
  | nil =>
    intro cs n h
    have h2 : (some 0 : Option Nat) = some n := h
    have h3 := Option.some.inj h2
    omega
  | cons p ps ih =>
    intro cs n h
    cases cs with
    | nil => simp [litLen] at h
    | cons c cs =>
      rw [litLen_cons] at h
      by_cases hc : c.toLower == p
      · rw [if_pos hc] at h
        cases hl : litLen ps cs with
        | none => rw [hl] at h; simp at h
        | some m =>
          rw [hl] at h
          simp only [Option.map_some', Option.some.injEq] at h
          have := ih cs m hl
          simp only [List.length_cons]
          omega
      · rw [if_neg hc] at h
        simp at h

theorem matchPats_le : ∀ (P : List Pat) (cs : List Char) (n : Nat),
    matchPats P cs = some n → n ≤ cs.length := by
  intro P
  induction P with
  | nil =>
    intro cs n h
    have h2 : (some 0 : Option Nat) = some n := h
    have h3 := Option.some.inj h2
    omega
  | cons p ps ih =>
    intro cs n h
    cases p with
    | lit s =>
      have h2 : (match litLen s cs with
        | none => none
        | some k => (matchPats ps (cs.drop k)).map (· + k)) = some n := h
      cases hl : litLen s cs with
      | none =>
        rw [hl] at h2
        exact Option.noConfusion h2
      | some k =>
        rw [hl] at h2
        have h3 : (matchPats ps (cs.drop k)).map (· + k) = some n := h2
        cases hm : matchPats ps (cs.drop k) with
        | none =>
          rw [hm] at h3
          exact Option.noConfusion h3
        | some j =>
          rw [hm] at h3
          simp only [Option.map_some', Option.some.injEq] at h3
          have hb1 := litLen_le s cs k hl
          have hb2 := ih (cs.drop k) j hm
          rw [List.length_drop] at hb2
          omega
    | optc chars =>
      cases cs with
      | nil => exact ih [] n h
      | cons c rest =>
        have h2 : (if chars.contains c then
            (matchPats ps rest).map (· + 1)
          else matchPats ps (c :: rest)) = some n := h
        by_cases hc : chars.contains c
        · rw [if_pos hc] at h2
          cases hm : matchPats ps rest with
          | none =>
            rw [hm] at h2
            exact Option.noConfusion h2
          | some j =>
            rw [hm] at h2
            simp only [Option.map_some', Option.some.injEq] at h2
            have := ih rest j hm
            simp only [List.length_cons]
            omega
        · rw [if_neg hc] at h2
          exact ih (c :: rest) n h2
    | plus cls =>
      have h2 : (if takeWhileLen cls cs = 0 then none
        else (matchPats ps (cs.drop (takeWhileLen cls cs))).map
          (· + takeWhileLen cls cs)) = some n := h
      by_cases hz : takeWhileLen cls cs = 0
      · rw [if_pos hz] at h2
        exact Option.noConfusion h2
      · rw [if_neg hz] at h2
        cases hm : matchPats ps (cs.drop (takeWhileLen cls cs)) with
        | none =>
          rw [hm] at h2
          exact Option.noConfusion h2
        | some j =>
          rw [hm] at h2
          simp only [Option.map_some', Option.some.injEq] at h2
          have h1 := takeWhileLen_le cls cs
          have h3 := ih _ j hm
          rw [List.length_drop] at h3
          omega
    | exactly k cls =>
      rw [matchPats_exactly] at h
      by_cases hc : k ≤ cs.length ∧ (cs.take k).all cls
      · rw [if_pos hc] at h
        cases hm : matchPats ps (cs.drop k) with
        | none =>
          rw [hm] at h
          exact Option.noConfusion h
        | some j =>
          rw [hm] at h
          simp only [Option.map_some', Option.some.injEq] at h
          have h2 := ih _ j hm
          rw [List.length_drop] at h2
          omega
      · rw [if_neg hc] at h
        exact Option.noConfusion h

theorem scanSub_nil (m : List Char → Option Nat) (r : List Char) :
    scanSub m r [] = [] := by
  rw [scanSub]

theorem scanSub_cons (m : List Char → Option Nat) (r : List Char)
    (c : Char) (cs : List Char) :
    scanSub m r (c :: cs) =
      match m (c :: cs) with
      | some n =>
        if 1 ≤ n then r ++ scanSub m r ((c :: cs).drop n)
        else c :: scanSub m r cs
      | none => c :: scanSub m r cs := by
  rw [scanSub]
  cases m (c :: cs) with
  | none => rfl
  | some n =>
    show (if h : 1 ≤ n then _ else _) = (if 1 ≤ n then _ else _)
    by_cases h : 1 ≤ n
    · rw [dif_pos h, if_pos h]
    · rw [dif_neg h, if_neg h]

/-- Every scan of `scanSub` arises from a well-formed segment decomposition
of its input. -/
theorem scan_to_segs (m : List Char → Option Nat)
    (hb : ∀ cs n, m cs = some n → n ≤ cs.length) (r : List Char) :
    ∀ t, ∃ segs, ScanWf m segs ∧ flatI segs = t ∧
      scanSub m r t = flatR r segs := by
  have H : ∀ N t, t.length ≤ N → ∃ segs, ScanWf m segs ∧ flatI segs = t ∧
      scanSub m r t = flatR r segs := by
    intro N
    induction N with
    | zero =>
      intro t ht
      have : t = [] := List.length_eq_zero.mp (Nat.le_zero.mp ht)
      subst this
      exact ⟨[], ScanWf.nil, rfl, scanSub_nil m r⟩
    | succ N ih =>
      intro t ht
      cases t with
      | nil => exact ⟨[], ScanWf.nil, rfl, scanSub_nil m r⟩
      | cons c cs =>
        cases hm : m (c :: cs) with
        | none =>
          obtain ⟨segs, hwf, hfi, hfr⟩ := ih cs (by
            simp only [List.length_cons] at ht
            omega)
          refine ⟨.chr c :: segs, ?_, ?_, ?_⟩
          · exact ScanWf.chr c segs (by rw [hfi]; exact Or.inl hm) hwf
          · show c :: flatI segs = c :: cs
            rw [hfi]
          · show scanSub m r (c :: cs) = c :: flatR r segs
            rw [scanSub_cons, hm, ← hfr]
        | some n =>
          by_cases hn : 1 ≤ n
          · have hnle : n ≤ (c :: cs).length := hb _ n hm
            obtain ⟨segs, hwf, hfi, hfr⟩ := ih ((c :: cs).drop n) (by
              rw [List.length_drop]
              simp only [List.length_cons] at ht ⊢
              omega)
            refine ⟨.blk ((c :: cs).take n) :: segs, ?_, ?_, ?_⟩
            · refine ScanWf.blk _ segs ?_ ?_ hwf
              · rw [hfi, List.take_append_drop, hm, List.length_take]
                rw [Nat.min_eq_left hnle]
              · rw [List.length_take, Nat.min_eq_left hnle]
                exact hn
            · show (c :: cs).take n ++ flatI segs = c :: cs
              rw [hfi, List.take_append_drop]
            · show scanSub m r (c :: cs) = r ++ flatR r segs
              rw [scanSub_cons, hm]
              show (if 1 ≤ n then r ++ scanSub m r ((c :: cs).drop n)
                else c :: scanSub m r cs) = r ++ flatR r segs
              rw [if_pos hn, ← hfr]
          · have hn0 : n = 0 := by omega
            subst hn0
            obtain ⟨segs, hwf, hfi, hfr⟩ := ih cs (by
              simp only [List.length_cons] at ht
              omega)
            refine ⟨.chr c :: segs, ?_, ?_, ?_⟩
            · exact ScanWf.chr c segs (by rw [hfi]; exact Or.inr hm) hwf
            · show c :: flatI segs = c :: cs
              rw [hfi]
            · show scanSub m r (c :: cs) = c :: flatR r segs
              rw [scanSub_cons, hm]
              show (if 1 ≤ 0 then r ++ scanSub m r ((c :: cs).drop 0)
                else c :: scanSub m r cs) = c :: flatR r segs
              rw [if_neg (by omega), ← hfr]
  intro t
  exact H t.length t (Nat.le_refl _)

/-! ### The transfer lemma -/

/-- If a simulation relation `Sim` between automaton states is preserved by
single characters and by whole blocks (replacement on the left against the
matched text on the right), then acceptance on the scan output forces
acceptance on the scan input. -/
theorem seg_transfer {σ : Type} (step : σ → Char → σ) (acc : σ)
    (m : List Char → Option Nat) (r : List Char)
    (Sim : σ → σ → Prop)
    (hC0 : ∀ s t, Sim s t → s = acc → t = acc)
    (hC1 : ∀ s t c, Sim s t → Sim (step s c) (step t c))
    (hC2 : ∀ s t jm X, Sim s t → m (jm ++ X) = some jm.length →
      1 ≤ jm.length → Sim (runD step s r) (runD step t jm)) :
    ∀ segs, ScanWf m segs → ∀ s t, Sim s t →
      runD step s (flatR r segs) = acc → runD step t (flatI segs) = acc := by
  intro segs hwf
  induction hwf with
  | nil =>
    intro s t hsim hacc
    exact hC0 s t hsim hacc
  | chr c rest hm hwfr ih =>
    intro s t hsim hacc
    show runD step t (c :: flatI rest) = acc
    show runD step (step t c) (flatI rest) = acc
    refine ih (step s c) (step t c) (hC1 s t c hsim) ?_
    exact hacc
  | blk jm rest hm hlen hwfr ih =>
    intro s t hsim hacc
    show runD step t (jm ++ flatI rest) = acc
    rw [runD_append]
    refine ih (runD step s r) (runD step t jm)
      (hC2 s t jm (flatI rest) hsim hm hlen) ?_
    rw [show flatR r (.blk jm :: rest) = r ++ flatR r rest from rfl,
      runD_append] at hacc
    exact hacc

/-! ### Extraction lemmas for matched text -/

/-- A literal match pins down the consumed text up to case. -/
theorem litLen_spec : ∀ (ps cs : List Char) (n : Nat),
    litLen ps cs = some n →
      n = ps.length ∧ (cs.take n).map Char.toLower = ps := by
  intro ps
  induction ps with
  | nil =>
    intro cs n h
    have h2 : (some 0 : Option Nat) = some n := h
    have h3 := Option.some.inj h2
    subst h3
    exact ⟨rfl, rfl⟩
  | cons p ps ih =>
    intro cs n h
    cases cs with
    | nil => exact Option.noConfusion h
    | cons c cs =>
      rw [litLen_cons] at h
      by_cases hc : c.toLower == p
      · rw [if_pos hc] at h
        cases hl : litLen ps cs with
        | none =>
          rw [hl] at h
          exact Option.noConfusion h
        | some m =>
          rw [hl] at h
          simp only [Option.map_some', Option.some.injEq] at h
          obtain ⟨hm1, hm2⟩ := ih cs m hl
          subst h
          refine ⟨by simp [hm1], ?_⟩
          rw [show (c :: cs).take (m + 1) = c :: cs.take m from rfl]
          rw [List.map_cons, hm2, beq_iff_eq.mp hc]
      · rw [if_neg hc] at h
        exact Option.noConfusion h

/-- The maximal class run consists of class characters. -/
theorem takeWhileLen_spec (cls : Char → Bool) : ∀ cs : List Char,
    ∀ c ∈ cs.take (takeWhileLen cls cs), cls c = true := by
  intro cs
  induction cs with
  | nil => intro c hc; simp at hc
  | cons c0 cs ih =>
    rw [takeWhileLen_cons]
    by_cases h : cls c0
    · rw [if_pos h]
      intro c hc
      rw [show (c0 :: cs).take (takeWhileLen cls cs + 1)
        = c0 :: cs.take (takeWhileLen cls cs) from rfl] at hc
      rcases List.mem_cons.mp hc with h1 | h1
      · rw [h1]; exact h
      · exact ih c h1
    · rw [if_neg h]
      intro c hc
      simp at hc

/-- The character after the maximal class run is outside the class. -/
theorem takeWhileLen_stop (cls : Char → Bool) : ∀ cs : List Char,
    ∀ c, (cs.drop (takeWhileLen cls cs)).head? = some c → cls c = false := by
  intro cs
  induction cs with
  | nil => intro c hc; simp at hc
  | cons c0 cs ih =>
    rw [takeWhileLen_cons]
    by_cases h : cls c0
    · rw [if_pos h]
      intro c hc
      rw [List.drop_succ_cons] at hc
      exact ih c hc
    · rw [if_neg h]
      intro c hc
      simp only [List.drop_zero, List.head?_cons, Option.some.injEq] at hc
      subst hc
      simpa using h

/-- Characters whose lower case is not a letter are fixed points of
lower-casing from both sides. -/
theorem toLower_eq_nonletter {c d : Char}
    (hd : d.toNat < 97 ∨ 122 < d.toNat) (h : c.toLower = d) : c = d := by
  rcases toLower_cases c with h1 | ⟨h65, h90, h3⟩
  · rw [← h1, h]
  · rw [h] at h3
    omega

/-! ### Structure of matched text, per pattern family -/

/-- Decomposition of a keyword-family match. -/
theorem kw_decomp (K : List Char) (tcl : Char → Bool) (cs : List Char)
    (n : Nat)
    (h : matchPats [.lit K, .plus isSepChar, .plus tcl] cs = some n) :
    ∃ kpre S T rest, cs = kpre ++ S ++ T ++ rest ∧
      kpre.map Char.toLower = K ∧
      S ≠ [] ∧ (∀ c ∈ S, isSepChar c = true) ∧
      T ≠ [] ∧ (∀ c ∈ T, tcl c = true) ∧
      n = kpre.length + S.length + T.length := by
  have h2 : (match litLen K cs with
    | none => none
    | some k =>
      (matchPats [.plus isSepChar, .plus tcl] (cs.drop k)).map (· + k))
      = some n := h
  cases hl : litLen K cs with
  | none =>
    rw [hl] at h2
    exact Option.noConfusion h2
  | some k =>
    rw [hl] at h2
    have h2b : (matchPats [.plus isSepChar, .plus tcl]
      (cs.drop k)).map (· + k) = some n := h2
    obtain ⟨hk, hkci⟩ := litLen_spec K cs k hl
    have hkle := litLen_le K cs k hl
    cases hm : matchPats [.plus isSepChar, .plus tcl] (cs.drop k) with
    | none =>
      rw [hm] at h2b
      exact Option.noConfusion h2b
    | some j =>
      rw [hm] at h2b
      simp only [Option.map_some', Option.some.injEq] at h2b
      set cs1 := cs.drop k with hcs1
      have h3 : (if takeWhileLen isSepChar cs1 = 0 then none
        else (matchPats [.plus tcl]
          (cs1.drop (takeWhileLen isSepChar cs1))).map
            (· + takeWhileLen isSepChar cs1)) = some j := hm
      by_cases ha : takeWhileLen isSepChar cs1 = 0
      · rw [if_pos ha] at h3
        exact Option.noConfusion h3
      · rw [if_neg ha] at h3
        set a := takeWhileLen isSepChar cs1 with hadef
        set cs2 := cs1.drop a with hcs2
        cases hm2 : matchPats [.plus tcl] cs2 with
        | none =>
          rw [hm2] at h3
          exact Option.noConfusion h3
        | some j2 =>
          rw [hm2] at h3
          simp only [Option.map_some', Option.some.injEq] at h3
          have h4 : (if takeWhileLen tcl cs2 = 0 then none
            else (matchPats ([] : List Pat)
              (cs2.drop (takeWhileLen tcl cs2))).map
                (· + takeWhileLen tcl cs2)) = some j2 := hm2
          by_cases hT : takeWhileLen tcl cs2 = 0
          · rw [if_pos hT] at h4
            exact Option.noConfusion h4
          · rw [if_neg hT] at h4
            set t := takeWhileLen tcl cs2 with htdef
            have h5 : (some (0 + t) : Option Nat) = some j2 := h4
            have hj2 : j2 = t := by
              have := Option.some.inj h5
              omega
            refine ⟨cs.take k, cs1.take a, cs2.take t,
              cs2.drop t, ?_, hkci, ?_, ?_, ?_, ?_, ?_⟩
            · rw [List.append_assoc, List.append_assoc]
              rw [hcs2, hcs1]
              rw [List.take_append_drop, List.take_append_drop,
                List.take_append_drop]
            · intro hnil
              have := takeWhileLen_le isSepChar cs1
              have hlen : (cs1.take a).length = 0 := by rw [hnil]; rfl
              rw [List.length_take] at hlen
              omega
            · exact takeWhileLen_spec isSepChar cs1
            · intro hnil
              have := takeWhileLen_le tcl cs2
              have hlen : (cs2.take t).length = 0 := by rw [hnil]; rfl
              rw [List.length_take] at hlen
              omega
            · exact takeWhileLen_spec tcl cs2
            · have la : (cs1.take a).length = a := by
                rw [List.length_take, Nat.min_eq_left (takeWhileLen_le _ _)]
              have lt : (cs2.take t).length = t := by
                rw [List.length_take, Nat.min_eq_left (takeWhileLen_le _ _)]
              have lk : (cs.take k).length = k := by
                rw [List.length_take, Nat.min_eq_left hkle]
              rw [la, lt, lk]
              omega

/-- Every pattern list starting with a literal pins down the lower-cased
prefix of any match. -/
theorem lit_head_ci (s : List Char) (R : List Pat) (cs : List Char)
    (n : Nat) (h : matchPats (.lit s :: R) cs = some n) :
    s.length ≤ n ∧ (cs.take s.length).map Char.toLower = s := by
  have h2 : (match litLen s cs with
    | none => none
    | some k => (matchPats R (cs.drop k)).map (· + k)) = some n := h
  cases hl : litLen s cs with
  | none =>
    rw [hl] at h2
    exact Option.noConfusion h2
  | some k =>
    rw [hl] at h2
    have h2b : (matchPats R (cs.drop k)).map (· + k) = some n := h2
    obtain ⟨hk, hkci⟩ := litLen_spec s cs k hl
    cases hm : matchPats R (cs.drop k) with
    | none =>
      rw [hm] at h2b
      exact Option.noConfusion h2b
    | some j =>
      rw [hm] at h2b
      simp only [Option.map_some', Option.some.injEq] at h2b
      subst hk
      exact ⟨by omega, hkci⟩

/-- Decomposition of a URL-credential match. -/
theorem url_decomp (L : List Char) (cs : List Char) (n : Nat)
    (h : matchPats [.lit L, .plus (fun c => c != ':'), .lit ":".toList,
      .plus (fun c => c != '@'), .lit "@".toList] cs = some n) :
    ∃ Lc A B rest, cs = Lc ++ A ++ ':' :: B ++ '@' :: rest ∧
      Lc.map Char.toLower = L ∧
      A ≠ [] ∧ (∀ c ∈ A, (c != ':') = true) ∧
      B ≠ [] ∧ (∀ c ∈ B, (c != '@') = true) ∧
      n = Lc.length + A.length + 1 + B.length + 1 := by
  have h2 : (match litLen L cs with
    | none => none
    | some k =>
      (matchPats [.plus (fun c => c != ':'), .lit ":".toList,
        .plus (fun c => c != '@'), .lit "@".toList] (cs.drop k)).map (· + k))
      = some n := h
  cases hl : litLen L cs with
  | none =>
    rw [hl] at h2
    exact Option.noConfusion h2
  | some k =>
    rw [hl] at h2
    have h2b : (matchPats [.plus (fun c => c != ':'), .lit ":".toList,
      .plus (fun c => c != '@'), .lit "@".toList]
        (cs.drop k)).map (· + k) = some n := h2
    obtain ⟨hk, hkci⟩ := litLen_spec L cs k hl
    have hkle := litLen_le L cs k hl
    set cs1 := cs.drop k with hcs1
    cases hm : matchPats [.plus (fun c => c != ':'), .lit ":".toList,
      .plus (fun c => c != '@'), .lit "@".toList] cs1 with
    | none =>
      rw [hm] at h2b
      exact Option.noConfusion h2b
    | some j =>
      rw [hm] at h2b
      simp only [Option.map_some', Option.some.injEq] at h2b
      have h3 : (if takeWhileLen (fun c => c != ':') cs1 = 0 then none
        else (matchPats [.lit ":".toList, .plus (fun c => c != '@'),
          .lit "@".toList]
          (cs1.drop (takeWhileLen (fun c => c != ':') cs1))).map
            (· + takeWhileLen (fun c => c != ':') cs1)) = some j := hm
      by_cases ha : takeWhileLen (fun c => c != ':') cs1 = 0
      · rw [if_pos ha] at h3
        exact Option.noConfusion h3
      · rw [if_neg ha] at h3
        set a := takeWhileLen (fun c => c != ':') cs1 with hadef
        set cs2 := cs1.drop a with hcs2
        cases hm2 : matchPats [.lit ":".toList, .plus (fun c => c != '@'),
          .lit "@".toList] cs2 with
        | none =>
          rw [hm2] at h3
          exact Option.noConfusion h3
        | some j2 =>
          rw [hm2] at h3
          simp only [Option.map_some', Option.some.injEq] at h3
          have h4 : (match litLen ":".toList cs2 with
            | none => none
            | some k2 =>
              (matchPats [.plus (fun c => c != '@'), .lit "@".toList]
                (cs2.drop k2)).map (· + k2)) = some j2 := hm2
          cases hl2 : litLen ":".toList cs2 with
          | none =>
            rw [hl2] at h4
            exact Option.noConfusion h4
          | some k2 =>
            rw [hl2] at h4
            have h4b : (matchPats [.plus (fun c => c != '@'),
              .lit "@".toList] (cs2.drop k2)).map (· + k2) = some j2 := h4
            obtain ⟨hk2, hk2ci⟩ := litLen_spec ":".toList cs2 k2 hl2
            have hk2v : k2 = 1 := hk2
            subst hk2v
            cases hcs2e : cs2 with
            | nil =>
              rw [hcs2e] at hk2ci
              exact absurd hk2ci (by decide)
            | cons c1 cs3 =>
              have hc1 : c1.toLower = ':' := by
                rw [hcs2e] at hk2ci
                have hk2ci2 : ((c1 :: cs3).take 1).map Char.toLower
                  = [':'] := hk2ci
                simp only [List.take_succ_cons, List.take_zero,
                  List.map_cons, List.map_nil] at hk2ci2
                exact List.cons.inj hk2ci2 |>.1
              have hc1e : c1 = ':' :=
                toLower_eq_nonletter (by left; decide) hc1
              rw [hcs2e] at h4b
              rw [List.drop_succ_cons, List.drop_zero] at h4b
              cases hm3 : matchPats [.plus (fun c => c != '@'),
                .lit "@".toList] cs3 with
              | none =>
                rw [hm3] at h4b
                exact Option.noConfusion h4b
              | some j3 =>
                rw [hm3] at h4b
                simp only [Option.map_some', Option.some.injEq] at h4b
                have h5 : (if takeWhileLen (fun c => c != '@') cs3 = 0
                  then none
                  else (matchPats [.lit "@".toList]
                    (cs3.drop (takeWhileLen (fun c => c != '@') cs3))).map
                      (· + takeWhileLen (fun c => c != '@') cs3))
                        = some j3 := hm3
                by_cases hbb : takeWhileLen (fun c => c != '@') cs3 = 0
                · rw [if_pos hbb] at h5
                  exact Option.noConfusion h5
                · rw [if_neg hbb] at h5
                  set b := takeWhileLen (fun c => c != '@') cs3 with hbdef
                  set cs4 := cs3.drop b with hcs4
                  cases hm4 : matchPats [.lit "@".toList] cs4 with
                  | none =>
                    rw [hm4] at h5
                    exact Option.noConfusion h5
                  | some j4 =>
                    rw [hm4] at h5
                    simp only [Option.map_some', Option.some.injEq] at h5
                    obtain ⟨hj4, hj4ci⟩ :=
                      lit_head_ci "@".toList [] cs4 j4 hm4
                    have hj4v : j4 = 1 := by
                      have h6 : (match litLen "@".toList cs4 with
                        | none => none
                        | some k4 => (matchPats ([] : List Pat)
                          (cs4.drop k4)).map (· + k4)) = some j4 := hm4
                      cases hl4 : litLen "@".toList cs4 with
                      | none =>
                        rw [hl4] at h6
                        exact Option.noConfusion h6
                      | some k4 =>
                        rw [hl4] at h6
                        have h6b : (matchPats ([] : List Pat)
                          (cs4.drop k4)).map (· + k4) = some j4 := h6
                        have h6c : (some (0 + k4) : Option Nat)
                          = some j4 := h6b
                        have hk4 := (litLen_spec "@".toList cs4 k4 hl4).1
                        have hk4b : k4 = 1 := by rw [hk4]; rfl
                        have := Option.some.inj h6c
                        omega
                    subst hj4v
                    cases hcs4e : cs4 with
                    | nil =>
                      rw [hcs4e] at hj4ci
                      exact absurd hj4ci (by decide)
                    | cons c2 rest =>
                      have hc2 : c2.toLower = '@' := by
                        rw [hcs4e] at hj4ci
                        have hj4ci2 : ((c2 :: rest).take 1).map Char.toLower
                          = ['@'] := hj4ci
                        simp only [List.take_succ_cons, List.take_zero,
                          List.map_cons, List.map_nil] at hj4ci2
                        exact List.cons.inj hj4ci2 |>.1
                      have hc2e : c2 = '@' :=
                        toLower_eq_nonletter (by left; decide) hc2
                      refine ⟨cs.take k, cs1.take a, cs3.take b, rest,
                        ?_, hkci, ?_, ?_, ?_, ?_, ?_⟩
                      · have e1 : cs3 = cs3.take b ++ '@' :: rest := by
                          rw [← hc2e, ← hcs4e, hcs4, List.take_append_drop]
                        have e2 : cs1 = cs1.take a ++ ':' :: cs3 := by
                          rw [← hc1e, ← hcs2e, hcs2, List.take_append_drop]
                        have e3 : cs = cs.take k ++ cs1 := by
                          rw [hcs1, List.take_append_drop]
                        calc cs = cs.take k ++ cs1 := e3
                          _ = cs.take k ++ (cs1.take a ++ ':' :: cs3) := by
                              rw [← e2]
                          _ = cs.take k ++ (cs1.take a ++ ':' ::
                              (cs3.take b ++ '@' :: rest)) := by
                              rw [← e1]
                          _ = cs.take k ++ cs1.take a ++ ':' ::
                              cs3.take b ++ '@' :: rest := by
                              simp [List.cons_append, List.append_assoc]
                      · intro hnil
                        have := takeWhileLen_le
                          (fun c => c != ':') cs1
                        have hlen : (cs1.take a).length = 0 := by
                          rw [hnil]; rfl
                        rw [List.length_take] at hlen
                        omega
                      · exact takeWhileLen_spec (fun c => c != ':') cs1
                      · intro hnil
                        have := takeWhileLen_le (fun c => c != '@') cs3
                        have hlen : (cs3.take b).length = 0 := by
                          rw [hnil]; rfl
                        rw [List.length_take] at hlen
                        omega
                      · exact takeWhileLen_spec (fun c => c != '@') cs3
                      · have la : (cs1.take a).length = a := by
                          rw [List.length_take,
                            Nat.min_eq_left (takeWhileLen_le _ _)]
                        have lb : (cs3.take b).length = b := by
                          rw [List.length_take,
                            Nat.min_eq_left (takeWhileLen_le _ _)]
                        have lk : (cs.take k).length = k := by
                          rw [List.length_take, Nat.min_eq_left hkle]
                        rw [la, lb, lk, hk]
                        omega

/-- Decomposition of an AKIA match. -/
theorem ak_decomp (cs : List Char) (n : Nat)
    (h : matchPats [.lit "akia".toList, .exactly 16 isAlnumChar] cs
      = some n) :
    ∃ Lc D rest, cs = Lc ++ D ++ rest ∧
      Lc.map Char.toLower = "akia".toList ∧
      D.length = 16 ∧ (∀ c ∈ D, isAlnumChar c = true) ∧ n = 20 := by
  have h2 : (match litLen "akia".toList cs with
    | none => none
    | some k =>
      (matchPats [.exactly 16 isAlnumChar] (cs.drop k)).map (· + k))
      = some n := h
  cases hl : litLen "akia".toList cs with
  | none =>
    rw [hl] at h2
    exact Option.noConfusion h2
  | some k =>
    rw [hl] at h2
    have h2b : (matchPats [.exactly 16 isAlnumChar]
      (cs.drop k)).map (· + k) = some n := h2
    obtain ⟨hk, hkci⟩ := litLen_spec "akia".toList cs k hl
    have hkv : k = 4 := by rw [hk]; rfl
    subst hkv
    set cs1 := cs.drop 4 with hcs1
    cases hm : matchPats [.exactly 16 isAlnumChar] cs1 with
    | none =>
      rw [hm] at h2b
      exact Option.noConfusion h2b
    | some j =>
      rw [hm] at h2b
      simp only [Option.map_some', Option.some.injEq] at h2b
      rw [matchPats_exactly] at hm
      by_cases hc : 16 ≤ cs1.length ∧ (cs1.take 16).all isAlnumChar
      · rw [if_pos hc] at hm
        have h5 : (some (0 + 16) : Option Nat) = some j := hm
        have hj : j = 16 := by
          have := Option.some.inj h5
          omega
        refine ⟨cs.take 4, cs1.take 16, cs1.drop 16, ?_, hkci, ?_, ?_, ?_⟩
        · rw [List.append_assoc, hcs1, List.take_append_drop,
            List.take_append_drop]
        · rw [List.length_take, Nat.min_eq_left hc.1]
        · intro c hcmem
          exact List.all_eq_true.mp hc.2 c hcmem
        · omega
      · rw [if_neg hc] at hm
        exact Option.noConfusion hm

/-! ### Case-insensitivity of the automata -/

theorem runD_eq_lower {σ : Type} (step : σ → Char → σ)
    (hstep : ∀ s c, step s (Char.toLower c) = step s c) :
    ∀ (cs : List Char) (s : σ),
      runD step s cs = runD step s (cs.map Char.toLower) := by
  intro cs
  induction cs with
  | nil => intro s; rfl
  | cons c cs ih =>
    intro s
    show runD step (step s c) cs = runD step (step s (Char.toLower c))
      (cs.map Char.toLower)
    rw [hstep, ← ih]

theorem runD_congr_lower {σ : Type} (step : σ → Char → σ)
    (hstep : ∀ s c, step s (Char.toLower c) = step s c)
    (cs cs' : List Char) (hci : cs.map Char.toLower = cs'.map Char.toLower)
    (s : σ) : runD step s cs = runD step s cs' := by
  rw [runD_eq_lower step hstep cs s, runD_eq_lower step hstep cs' s, hci]

theorem kwStep_lower (tcl : Char → Bool)
    (htcl : ∀ c, tcl c.toLower = tcl c) :
    ∀ (s : KwSt) (c : Char), kwStep tcl s c.toLower = kwStep tcl s c := by
  intro s c
  cases s with
  | lit rem =>
    cases rem with
    | nil =>
      show (if isSepChar c.toLower then _ else _) = _
      rw [isSepChar_toLower]
      rfl
    | cons p ps =>
      show (if c.toLower.toLower == p then _ else _) = _
      rw [toLower_toLower]
      rfl
  | sep0 =>
    show (if isSepChar c.toLower then _ else _) = _
    rw [isSepChar_toLower]
    rfl
  | sep1 =>
    show (if isSepChar c.toLower then _ else if tcl c.toLower then _ else _)
      = _
    rw [isSepChar_toLower, htcl]
    rfl
  | accept => rfl
  | dead => rfl

theorem beq_colon_toLower (c : Char) : (c.toLower == ':') = (c == ':') := by
  rw [Bool.eq_iff_iff, beq_iff_eq, beq_iff_eq]
  constructor
  · intro h
    exact toLower_eq_nonletter (by left; decide) h
  · intro h
    rw [h]
    rfl

theorem beq_at_toLower (c : Char) : (c.toLower == '@') = (c == '@') := by
  rw [Bool.eq_iff_iff, beq_iff_eq, beq_iff_eq]
  constructor
  · intro h
    exact toLower_eq_nonletter (by left; decide) h
  · intro h
    rw [h]
    rfl

theorem urlStep_lower :
    ∀ (s : UrlSt) (c : Char), urlStep s c.toLower = urlStep s c := by
  intro s c
  cases s with
  | lit rem =>
    cases rem with
    | nil =>
      show (if c.toLower != ':' then _ else _) = _
      rw [bne_colon_toLower]
      rfl
    | cons p ps =>
      show (if c.toLower.toLower == p then _ else _) = _
      rw [toLower_toLower]
      rfl
  | a0 =>
    show (if c.toLower != ':' then _ else _) = _
    rw [bne_colon_toLower]
    rfl
  | a1 =>
    show (if c.toLower == ':' then _ else _) = _
    rw [beq_colon_toLower]
    rfl
  | b0 =>
    show (if c.toLower != '@' then _ else _) = _
    rw [bne_at_toLower]
    rfl
  | b1 =>
    show (if c.toLower == '@' then _ else _) = _
    rw [beq_at_toLower]
    rfl
  | accept => rfl
  | dead => rfl

theorem beq_k_toLower (c : Char) : (c.toLower.toLower == 'k')
    = (c.toLower == 'k') := by
  rw [toLower_toLower]

theorem apiStep_lower :
    ∀ (s : ApiSt) (c : Char), apiStep s c.toLower = apiStep s c := by
  intro s c
  cases s with
  | litA rem =>
    cases rem with
    | nil =>
      show (if ['_', '-'].contains c.toLower then _
        else if c.toLower.toLower == 'k' then _ else _) = _
      rw [optc_contains_toLower, toLower_toLower]
      rfl
    | cons p ps =>
      show (if c.toLower.toLower == p then _ else _) = _
      rw [toLower_toLower]
      rfl
  | opt =>
    show (if ['_', '-'].contains c.toLower then _
      else if c.toLower.toLower == 'k' then _ else _) = _
    rw [optc_contains_toLower, toLower_toLower]
    rfl
  | litK rem =>
    cases rem with
    | nil =>
      show (if isSepChar c.toLower then _ else _) = _
      rw [isSepChar_toLower]
      rfl
    | cons p ps =>
      show (if c.toLower.toLower == p then _ else _) = _
      rw [toLower_toLower]
      rfl
  | sep0 =>
    show (if isSepChar c.toLower then _ else _) = _
    rw [isSepChar_toLower]
    rfl
  | sep1 =>
    show (if isSepChar c.toLower then _
      else if isKwTailChar c.toLower then _ else _) = _
    rw [isSepChar_toLower, isKwTailChar_toLower]
    rfl
  | accept => rfl
  | dead => rfl

theorem akStep_lower :
    ∀ (s : AkSt) (c : Char), akStep s c.toLower = akStep s c := by
  intro s c
  cases s with
  | lit rem =>
    cases rem with
    | nil =>
      show (if isAlnumChar c.toLower then _ else _) = _
      rw [isAlnumChar_toLower]
      rfl
    | cons p ps =>
      show (if c.toLower.toLower == p then _ else _) = _
      rw [toLower_toLower]
      rfl
  | cnt k =>
    show (if isAlnumChar c.toLower then _ else _) = _
    rw [isAlnumChar_toLower]
    rfl
  | accept => rfl
  | dead => rfl

/-- Transfer along a scan for a finite-window automaton: if the automaton
accepts the scan output from a tracked state, it accepts the scan input. -/
theorem window_transfer {σ : Type} (step : σ → Char → σ) (acc dd : σ)
    (States : List σ) (m : List Char → Option Nat) (r L1 : List Char)
    (haccstep : ∀ c, step acc c = acc)
    (hddstep : ∀ c, step dd c = dd)
    (hne : acc ≠ dd)
    (hclosure : ∀ s ∈ States, ∀ c, step s c ∈ States)
    (hlower : ∀ s c, step s (Char.toLower c) = step s c)
    (hL1 : ∀ jm X, m (jm ++ X) = some jm.length → 1 ≤ jm.length →
      L1.length ≤ jm.length ∧
        (jm.take L1.length).map Char.toLower = L1)
    (hcheck : ∀ s ∈ States, runD step s r = dd ∨
      ∃ p ∈ List.range (L1.length + 1), runD step s (r.take p) = acc ∧
        (r.take p).map Char.toLower = L1.take p) :
    ∀ segs, ScanWf m segs → ∀ s ∈ States,
      runD step s (flatR r segs) = acc → runD step s (flatI segs) = acc := by
  intro segs hwf s hs hacc2
  refine seg_transfer step acc m r (winSim States acc dd) ?_ ?_ ?_
    segs hwf s s (Or.inl ⟨rfl, hs⟩) hacc2
  · intro s1 t1 hsim hs1
    rcases hsim with ⟨heq, _⟩ | hdd | hta
    · rw [← heq, hs1]
    · rw [hdd] at hs1
      exact absurd hs1.symm hne
    · exact hta
  · intro s1 t1 c hsim
    rcases hsim with ⟨heq, hmem⟩ | hdd | hta
    · subst heq
      exact Or.inl ⟨rfl, hclosure s1 hmem c⟩
    · subst hdd
      right; left
      exact hddstep c
    · subst hta
      right; right
      exact haccstep c
  · intro s1 t1 jm X hsim hmatch hlen
    rcases hsim with ⟨heq, hmem⟩ | hdd | hta
    · subst heq
      rcases hcheck s1 hmem with hdd2 | ⟨p, hp, hacc3, hci⟩
      · right; left
        exact hdd2
      · right; right
        obtain ⟨hlenle, hjmci⟩ := hL1 jm X hmatch hlen
        have hple : p ≤ L1.length := by
          have := List.mem_range.mp hp
          omega
        have e1 : (jm.take p).map Char.toLower = (r.take p).map Char.toLower := by
          rw [hci]
          have e2 : jm.take p = (jm.take L1.length).take p := by
            rw [List.take_take, Nat.min_eq_left hple]
          rw [e2, List.map_take, hjmci]
        have e3 : runD step s1 (jm.take p) = runD step s1 (r.take p) :=
          runD_congr_lower step hlower _ _ e1 s1
        have e4 : runD step s1 jm = acc := by
          rw [← List.take_append_drop p jm, runD_append, e3, hacc3]
          exact runD_fixed step acc haccstep _
        exact e4
    · subst hdd
      right; left
      exact runD_fixed step _ hddstep r
    · subst hta
      right; right
      exact runD_fixed step _ haccstep jm

theorem kwStates_closure (K : List Char) (tcl : Char → Bool) :
    ∀ s ∈ kwStates K, ∀ c, kwStep tcl s c ∈ kwStates K := by
  intro s hs c
  have hfix : ∀ t : KwSt, t ∈ [KwSt.sep0, .sep1, .accept, .dead] →
      t ∈ kwStates K := by
    intro t ht
    exact List.mem_append_right _ ht
  rcases List.mem_append.mp hs with hlit | hfixed
  · obtain ⟨rem, hrem, hrw⟩ := List.mem_map.mp hlit
    subst hrw
    cases rem with
    | nil =>
      show (if isSepChar c then KwSt.sep1 else .dead) ∈ _
      by_cases h : isSepChar c
      · rw [if_pos h]; exact hfix _ (by simp)
      · rw [if_neg h]; exact hfix _ (by simp)
    | cons p ps =>
      show (if c.toLower == p then KwSt.lit ps else .dead) ∈ _
      by_cases h : c.toLower == p
      · rw [if_pos h]
        refine List.mem_append_left _ (List.mem_map.mpr ⟨ps, ?_, rfl⟩)
        rw [List.mem_tails] at hrem ⊢
        exact (List.suffix_cons p ps).trans hrem
      · rw [if_neg h]; exact hfix _ (by simp)
  · simp only [List.mem_cons, List.not_mem_nil, or_false] at hfixed
    rcases hfixed with h | h | h | h <;> subst h
    · show (if isSepChar c then KwSt.sep1 else .dead) ∈ _
      by_cases h : isSepChar c
      · rw [if_pos h]; exact hfix _ (by simp)
      · rw [if_neg h]; exact hfix _ (by simp)
    · show (if isSepChar c then KwSt.sep1
        else if tcl c then KwSt.accept else .dead) ∈ _
      by_cases h : isSepChar c
      · rw [if_pos h]; exact hfix _ (by simp)
      · rw [if_neg h]
        by_cases h2 : tcl c
        · rw [if_pos h2]; exact hfix _ (by simp)
        · rw [if_neg h2]; exact hfix _ (by simp)
    · exact hfix KwSt.accept (by simp)
    · exact hfix KwSt.dead (by simp)

theorem urlStates_closure (L : List Char) :
    ∀ s ∈ urlStates L, ∀ c, urlStep s c ∈ urlStates L := by
  intro s hs c
  have hfix : ∀ t : UrlSt, t ∈ [UrlSt.a0, .a1, .b0, .b1, .accept, .dead] →
      t ∈ urlStates L := by
    intro t ht
    exact List.mem_append_right _ ht
  rcases List.mem_append.mp hs with hlit | hfixed
  · obtain ⟨rem, hrem, hrw⟩ := List.mem_map.mp hlit
    subst hrw
    cases rem with
    | nil =>
      show (if c != ':' then UrlSt.a1 else .dead) ∈ _
      by_cases h : c != ':'
      · rw [if_pos h]; exact hfix _ (by simp)
      · rw [if_neg h]; exact hfix _ (by simp)
    | cons p ps =>
      show (if c.toLower == p then UrlSt.lit ps else .dead) ∈ _
      by_cases h : c.toLower == p
      · rw [if_pos h]
        refine List.mem_append_left _ (List.mem_map.mpr ⟨ps, ?_, rfl⟩)
        rw [List.mem_tails] at hrem ⊢
        exact (List.suffix_cons p ps).trans hrem
      · rw [if_neg h]; exact hfix _ (by simp)
  · simp only [List.mem_cons, List.not_mem_nil, or_false] at hfixed
    rcases hfixed with h | h | h | h | h | h <;> subst h
    · show (if c != ':' then UrlSt.a1 else .dead) ∈ _
      by_cases h : c != ':'
      · rw [if_pos h]; exact hfix _ (by simp)
      · rw [if_neg h]; exact hfix _ (by simp)
    · show (if c == ':' then UrlSt.b0 else .a1) ∈ _
      by_cases h : c == ':'
      · rw [if_pos h]; exact hfix _ (by simp)
      · rw [if_neg h]; exact hfix _ (by simp)
    · show (if c != '@' then UrlSt.b1 else .dead) ∈ _
      by_cases h : c != '@'
      · rw [if_pos h]; exact hfix _ (by simp)
      · rw [if_neg h]; exact hfix _ (by simp)
    · show (if c == '@' then UrlSt.accept else .b1) ∈ _
      by_cases h : c == '@'
      · rw [if_pos h]; exact hfix _ (by simp)
      · rw [if_neg h]; exact hfix _ (by simp)
    · exact hfix UrlSt.accept (by simp)
    · exact hfix UrlSt.dead (by simp)

theorem apiStates_closure :
    ∀ s ∈ apiStates, ∀ c, apiStep s c ∈ apiStates := by
  intro s hs c
  have hK : ∀ rem, rem <:+ "key".toList → ApiSt.litK rem ∈ apiStates := by
    intro rem hrem
    refine List.mem_append_left _ (List.mem_append_right _ ?_)
    exact List.mem_map.mpr ⟨rem, List.mem_tails _ _ |>.mpr hrem, rfl⟩
  have hfix : ∀ t : ApiSt, t ∈ [ApiSt.sep0, .sep1, .accept, .dead] →
      t ∈ apiStates := by
    intro t ht
    exact List.mem_append_right _ ht
  have hopt : ∀ c2 : Char,
      (if ['_', '-'].contains c2 then ApiSt.litK ['k', 'e', 'y']
        else if c2.toLower == 'k' then ApiSt.litK ['e', 'y'] else .dead)
        ∈ apiStates := by
    intro c2
    by_cases h : ['_', '-'].contains c2
    · rw [if_pos h]
      exact hK _ (by decide)
    · rw [if_neg h]
      by_cases h2 : c2.toLower == 'k'
      · rw [if_pos h2]
        exact hK _ (by decide)
      · rw [if_neg h2]; exact hfix _ (by simp)
  rcases List.mem_append.mp hs with hs1 | hfixed
  · rcases List.mem_append.mp hs1 with hs2 | hs3
    · rcases List.mem_append.mp hs2 with hlitA | hoptm
      · obtain ⟨rem, hrem, hrw⟩ := List.mem_map.mp hlitA
        subst hrw
        cases rem with
        | nil => exact hopt c
        | cons p ps =>
          show (if c.toLower == p then ApiSt.litA ps else .dead) ∈ _
          by_cases h : c.toLower == p
          · rw [if_pos h]
            refine List.mem_append_left _ (List.mem_append_left _
              (List.mem_append_left _ (List.mem_map.mpr ⟨ps, ?_, rfl⟩)))
            rw [List.mem_tails] at hrem ⊢
            exact (List.suffix_cons p ps).trans hrem
          · rw [if_neg h]; exact hfix _ (by simp)
      · simp only [List.mem_cons, List.not_mem_nil, or_false] at hoptm
        subst hoptm
        exact hopt c
    · obtain ⟨rem, hrem, hrw⟩ := List.mem_map.mp hs3
      subst hrw
      cases rem with
      | nil =>
        show (if isSepChar c then ApiSt.sep1 else .dead) ∈ _
        by_cases h : isSepChar c
        · rw [if_pos h]; exact hfix _ (by simp)
        · rw [if_neg h]; exact hfix _ (by simp)
      | cons p ps =>
        show (if c.toLower == p then ApiSt.litK ps else .dead) ∈ _
        by_cases h : c.toLower == p
        · rw [if_pos h]
          refine hK ps ?_
          rw [List.mem_tails] at hrem
          exact (List.suffix_cons p ps).trans hrem
        · rw [if_neg h]; exact hfix _ (by simp)
  · simp only [List.mem_cons, List.not_mem_nil, or_false] at hfixed
    rcases hfixed with h | h | h | h <;> subst h
    · show (if isSepChar c then ApiSt.sep1 else .dead) ∈ _
      by_cases h : isSepChar c
      · rw [if_pos h]; exact hfix _ (by simp)
      · rw [if_neg h]; exact hfix _ (by simp)
    · show (if isSepChar c then ApiSt.sep1
        else if isKwTailChar c then ApiSt.accept else .dead) ∈ _
      by_cases h : isSepChar c
      · rw [if_pos h]; exact hfix _ (by simp)
      · rw [if_neg h]
        by_cases h2 : isKwTailChar c
        · rw [if_pos h2]; exact hfix _ (by simp)
        · rw [if_neg h2]; exact hfix _ (by simp)
    · exact hfix ApiSt.accept (by simp)
    · exact hfix ApiSt.dead (by simp)

theorem akStates_closure :
    ∀ s ∈ akStates, ∀ c, akStep s c ∈ akStates := by
  intro s hs c
  have hfix : ∀ t : AkSt, t ∈ [AkSt.accept, .dead] → t ∈ akStates := by
    intro t ht
    exact List.mem_append_right _ ht
  have hcnt : ∀ k : Fin 16, AkSt.cnt k ∈ akStates := by
    intro k
    refine List.mem_append_left _ (List.mem_append_right _ ?_)
    exact List.mem_map.mpr ⟨k, List.mem_finRange k, rfl⟩
  rcases List.mem_append.mp hs with hs1 | hfixed
  · rcases List.mem_append.mp hs1 with hlit | hcntm
    · obtain ⟨rem, hrem, hrw⟩ := List.mem_map.mp hlit
      subst hrw
      cases rem with
      | nil =>
        show (if isAlnumChar c then AkSt.cnt ⟨1, by omega⟩ else .dead) ∈ _
        by_cases h : isAlnumChar c
        · rw [if_pos h]; exact hcnt _
        · rw [if_neg h]; exact hfix _ (by simp)
      | cons p ps =>
        show (if c.toLower == p then AkSt.lit ps else .dead) ∈ _
        by_cases h : c.toLower == p
        · rw [if_pos h]
          refine List.mem_append_left _ (List.mem_append_left _
            (List.mem_map.mpr ⟨ps, ?_, rfl⟩))
          rw [List.mem_tails] at hrem ⊢
          exact (List.suffix_cons p ps).trans hrem
        · rw [if_neg h]; exact hfix _ (by simp)
    · obtain ⟨k, hk, hrw⟩ := List.mem_map.mp hcntm
      subst hrw
      show (if isAlnumChar c then
        if h : k.val + 1 < 16 then AkSt.cnt ⟨k.val + 1, h⟩ else .accept
        else .dead) ∈ _
      by_cases h : isAlnumChar c
      · rw [if_pos h]
        by_cases h2 : k.val + 1 < 16
        · rw [dif_pos h2]; exact hcnt _
        · rw [dif_neg h2]; exact hfix _ (by simp)
      · rw [if_neg h]; exact hfix _ (by simp)
  · simp only [List.mem_cons, List.not_mem_nil, or_false] at hfixed
    rcases hfixed with h | h <;> subst h
    · exact hfix AkSt.accept (by simp)
    · exact hfix AkSt.dead (by simp)

theorem CleanPos_drop (m : List Char → Option Nat) (r cs : List Char)
    (hc : CleanPos m r cs) (d : Nat) : CleanPos m r (cs.drop d) := by
  intro k
  rw [List.drop_drop]
  exact hc (d + k)

/-- A position-wise clean text is a fixed point of the scanner. -/
theorem CleanPos_scan_id (m : List Char → Option Nat) (r : List Char)
    (hr : 1 ≤ r.length) :
    ∀ cs, CleanPos m r cs → scanSub m r cs = cs := by
  have H : ∀ N cs, cs.length ≤ N → CleanPos m r cs →
      scanSub m r cs = cs := by
    intro N
    induction N with
    | zero =>
      intro cs h hc
      have : cs = [] := List.length_eq_zero.mp (Nat.le_zero.mp h)
      subst this
      exact scanSub_nil m r
    | succ N ih =>
      intro cs h hc
      cases cs with
      | nil => exact scanSub_nil m r
      | cons c cs2 =>
        rcases hc 0 with hnone | ⟨hsome, htake⟩
        · rw [List.drop_zero] at hnone
          rw [scanSub_cons, hnone]
          have hrec : scanSub m r cs2 = cs2 := by
            refine ih cs2 ?_ ?_
            · simp only [List.length_cons] at h
              omega
            · have := CleanPos_drop m r (c :: cs2) hc 1
              exact this
          rw [hrec]
        · rw [List.drop_zero] at hsome htake
          rw [scanSub_cons, hsome]
          show (if 1 ≤ r.length
            then r ++ scanSub m r ((c :: cs2).drop r.length)
            else c :: scanSub m r cs2) = c :: cs2
          rw [if_pos hr]
          have hminle : r.length ≤ (c :: cs2).length := by
            have h2 := congrArg List.length htake
            rw [List.length_take] at h2
            have h3 := Nat.min_le_right r.length (c :: cs2).length
            rw [h2] at h3
            exact h3
          have hrec : scanSub m r ((c :: cs2).drop r.length)
              = (c :: cs2).drop r.length := by
            refine ih _ ?_ ?_
            · rw [List.length_drop]
              simp only [List.length_cons] at h hminle ⊢
              omega
            · exact CleanPos_drop m r (c :: cs2) hc r.length
          rw [hrec]
          nth_rewrite 1 [← htake]
          rw [List.take_append_drop]
  intro cs
  exact H cs.length cs (Nat.le_refl _)

/-! ### Preservation of cleanliness under a later substitution:
finite-window automata -/

theorem window_preserve {σ : Type} (step : σ → Char → σ) (s0 acc dd : σ)
    (States : List σ) (mi mj : List Char → Option Nat)
    (rI rJ L1j : List Char)
    (haccstep : ∀ c, step acc c = acc)
    (hddstep : ∀ c, step dd c = dd)
    (hne : acc ≠ dd)
    (hs0ne : s0 ≠ acc)
    (hs0 : s0 ∈ States)
    (hclosure : ∀ s ∈ States, ∀ c, step s c ∈ States)
    (hlower : ∀ s c, step s (Char.toLower c) = step s c)
    (hiff : ∀ cs, (mi cs).isSome = true ↔ runD step s0 cs = acc)
    (hL1 : ∀ jm X, mj (jm ++ X) = some jm.length → 1 ≤ jm.length →
      L1j.length ≤ jm.length ∧ (jm.take L1j.length).map Char.toLower = L1j)
    (hcheck : ∀ s ∈ States, runD step s rJ = dd ∨
      ∃ p ∈ List.range (L1j.length + 1), runD step s (rJ.take p) = acc ∧
        (rJ.take p).map Char.toLower = L1j.take p)
    (hdeadJ : ∀ d, d < rJ.length → runD step s0 (rJ.drop d) = dd)
    (hdeadI : runD step s0 rI = dd) :
    ∀ segs, ScanWf mj segs → CleanPos mi rI (flatI segs) →
      CleanPos mi rI (flatR rJ segs) := by
  have hnotacc : ∀ X : List Char, ∀ s1 : σ, runD step s1 X = dd →
      ∀ Y, runD step s1 (X ++ Y) ≠ acc := by
    intro X s1 hX Y
    rw [runD_append, hX, runD_fixed step dd hddstep]
    exact fun hc => hne hc.symm
  have hmi_none : ∀ X : List Char, runD step s0 X ≠ acc → mi X = none := by
    intro X hX
    cases hmi : mi X with
    | none => rfl
    | some v =>
      exfalso
      exact hX ((hiff X).mp (by rw [hmi]; rfl))
  intro segs hwf
  induction hwf with
  | nil =>
    intro _ k
    left
    rw [show flatR rJ ([] : List Seg) = [] from rfl, List.drop_nil]
    refine hmi_none [] ?_
    show s0 ≠ acc
    exact hs0ne
  | chr c rest hm hwfr ih =>
    intro hclean k
    cases k with
    | zero =>
      rw [List.drop_zero]
      have hclean0 : mi (c :: flatI rest) = none ∨
          (mi (c :: flatI rest) = some rI.length ∧
            (c :: flatI rest).take rI.length = rI) := hclean 0
      rcases hclean0 with hnone | ⟨hsome, htake⟩
      · left
        show mi (flatR rJ (.chr c :: rest)) = none
        refine hmi_none _ ?_
        intro hacc2
        have htr := window_transfer step acc dd States mj rJ L1j
          haccstep hddstep hne hclosure hlower hL1 hcheck
          (.chr c :: rest) (ScanWf.chr c rest hm hwfr) s0 hs0 hacc2
        have hthis : (mi (c :: flatI rest)).isSome = true :=
          (hiff _).mpr htr
        rw [hnone] at hthis
        exact Bool.noConfusion hthis
      · exfalso
        have hisome : (mi (c :: flatI rest)).isSome = true := by
          rw [hsome]; rfl
        have hacc2 := (hiff _).mp hisome
        have hsplit : c :: flatI rest
            = rI ++ (c :: flatI rest).drop rI.length := by
          nth_rewrite 1 [← List.take_append_drop rI.length
            (c :: flatI rest)]
          rw [htake]
        rw [hsplit] at hacc2
        exact hnotacc rI s0 hdeadI _ hacc2
    | succ k =>
      rw [show flatR rJ (Seg.chr c :: rest) = c :: flatR rJ rest from rfl,
        List.drop_succ_cons]
      refine ih ?_ k
      have := CleanPos_drop mi rI (flatI (.chr c :: rest)) hclean 1
      rw [show flatI (Seg.chr c :: rest) = c :: flatI rest from rfl,
        List.drop_one, List.tail_cons] at this
      exact this
  | blk jm rest hmj2 hlen1 hwfr ih =>
    intro hclean k
    rw [show flatR rJ (Seg.blk jm :: rest) = rJ ++ flatR rJ rest from rfl]
    by_cases hk : k < rJ.length
    · left
      rw [List.drop_append_of_le_length (by omega)]
      refine hmi_none _ ?_
      exact hnotacc (rJ.drop k) s0 (hdeadJ k hk) _
    · have hkk : k = rJ.length + (k - rJ.length) := by omega
      rw [hkk, List.drop_append]
      refine ih ?_ (k - rJ.length)
      have := CleanPos_drop mi rI (flatI (.blk jm :: rest)) hclean jm.length
      rw [show flatI (Seg.blk jm :: rest) = jm ++ flatI rest from rfl,
        List.drop_left] at this
      exact this

/-- Self-cleanliness of a single finite-window substitution pass. -/
theorem window_self {σ : Type} (step : σ → Char → σ) (s0 acc dd : σ)
    (States : List σ) (mi : List Char → Option Nat)
    (rI L1 : List Char)
    (haccstep : ∀ c, step acc c = acc)
    (hddstep : ∀ c, step dd c = dd)
    (hne : acc ≠ dd)
    (hs0ne : s0 ≠ acc)
    (hs0 : s0 ∈ States)
    (hclosure : ∀ s ∈ States, ∀ c, step s c ∈ States)
    (hlower : ∀ s c, step s (Char.toLower c) = step s c)
    (hiff : ∀ cs, (mi cs).isSome = true ↔ runD step s0 cs = acc)
    (hpos : ∀ cs n, mi cs = some n → 1 ≤ n)
    (hL1 : ∀ jm X, mi (jm ++ X) = some jm.length → 1 ≤ jm.length →
      L1.length ≤ jm.length ∧ (jm.take L1.length).map Char.toLower = L1)
    (hcheck : ∀ s ∈ States, runD step s rI = dd ∨
      ∃ p ∈ List.range (L1.length + 1), runD step s (rI.take p) = acc ∧
        (rI.take p).map Char.toLower = L1.take p)
    (hdeadJ : ∀ d, d < rI.length → runD step s0 (rI.drop d) = dd) :
    ∀ segs, ScanWf mi segs → CleanPos mi rI (flatR rI segs) := by
  have hnotacc : ∀ X : List Char, ∀ s1 : σ, runD step s1 X = dd →
      ∀ Y, runD step s1 (X ++ Y) ≠ acc := by
    intro X s1 hX Y
    rw [runD_append, hX, runD_fixed step dd hddstep]
    exact fun hc => hne hc.symm
  have hmi_none : ∀ X : List Char, runD step s0 X ≠ acc → mi X = none := by
    intro X hX
    cases hmi : mi X with
    | none => rfl
    | some v =>
      exfalso
      exact hX ((hiff X).mp (by rw [hmi]; rfl))
  intro segs hwf
  induction hwf with
  | nil =>
    intro k
    left
    rw [show flatR rI ([] : List Seg) = [] from rfl, List.drop_nil]
    refine hmi_none [] hs0ne
  | chr c rest hm hwfr ih =>
    intro k
    cases k with
    | zero =>
      rw [List.drop_zero]
      have hnone : mi (c :: flatI rest) = none := by
        rcases hm with hn | h0
        · exact hn
        · exfalso
          have := hpos _ 0 h0
          omega
      left
      show mi (flatR rI (.chr c :: rest)) = none
      refine hmi_none _ ?_
      intro hacc2
      have htr := window_transfer step acc dd States mi rI L1
        haccstep hddstep hne hclosure hlower hL1 hcheck
        (.chr c :: rest) (ScanWf.chr c rest hm hwfr) s0 hs0 hacc2
      have hthis : (mi (c :: flatI rest)).isSome = true :=
        (hiff _).mpr htr
      rw [hnone] at hthis
      exact Bool.noConfusion hthis
    | succ k =>
      rw [show flatR rI (Seg.chr c :: rest) = c :: flatR rI rest from rfl,
        List.drop_succ_cons]
      exact ih k
  | blk jm rest hmj2 hlen1 hwfr ih =>
    intro k
    rw [show flatR rI (Seg.blk jm :: rest) = rI ++ flatR rI rest from rfl]
    by_cases hk : k < rI.length
    · left
      rw [List.drop_append_of_le_length (by omega)]
      refine hmi_none _ ?_
      exact hnotacc (rI.drop k) s0 (hdeadJ k hk) _
    · have hkk : k = rI.length + (k - rI.length) := by omega
      rw [hkk, List.drop_append]
      exact ih (k - rI.length)

theorem lit_head_ci_jm (s : List Char) (R : List Pat) :
    ∀ jm X, matchPats (.lit s :: R) (jm ++ X) = some jm.length →
      1 ≤ jm.length →
      s.length ≤ jm.length ∧ (jm.take s.length).map Char.toLower = s := by
  intro jm X h hlen
  obtain ⟨h1, h2⟩ := lit_head_ci s R (jm ++ X) jm.length h
  refine ⟨h1, ?_⟩
  rw [List.take_append_of_le_length h1] at h2
  exact h2

theorem clean_password_after_token :
    ∀ segs, ScanWf (matchPats (kwPattern "token")) segs →
      CleanPos (matchPats (kwPattern "password")) "password=***".toList
        (flatI segs) →
      CleanPos (matchPats (kwPattern "password")) "password=***".toList
        (flatR "token=***".toList segs) :=
  window_preserve (kwStep isKwTailChar) (.lit "password".toList)
    .accept .dead (kwStates "password".toList)
    (matchPats (kwPattern "password")) (matchPats (kwPattern "token"))
    "password=***".toList "token=***".toList "token".toList
    (fun _ => rfl) (fun _ => rfl) (by decide) (by decide) (by decide)
    (kwStates_closure _ _)
    (kwStep_lower _ isKwTailChar_toLower)
    (fun cs => (kw_run_iff isKwTailChar cs (.lit "password".toList)).symm)
    (lit_head_ci_jm "token".toList _)
    (by decide)
    (by decide)
    (by decide)

/-! ### URL automaton run lemmas -/

theorem run_url_accept (cs : List Char) :
    runD urlStep .accept cs = .accept :=
  runD_fixed urlStep .accept (fun _ => rfl) cs

theorem run_url_dead (cs : List Char) :
    runD urlStep .dead cs = .dead :=
  runD_fixed urlStep .dead (fun _ => rfl) cs

theorem run_b1_mem : ∀ cs : List Char, '@' ∈ cs →
    runD urlStep .b1 cs = .accept := by
  intro cs
  induction cs with
  | nil => intro h; simp at h
  | cons c cs ih =>
    intro h
    show runD urlStep (urlStep .b1 c) cs = .accept
    by_cases hc : c == '@'
    · rw [show urlStep .b1 c = .accept from by
        show (if c == '@' then UrlSt.accept else .b1) = _
        rw [if_pos hc]]
      exact run_url_accept cs
    · rw [show urlStep .b1 c = .b1 from by
        show (if c == '@' then UrlSt.accept else .b1) = _
        rw [if_neg hc]]
      refine ih ?_
      rcases List.mem_cons.mp h with h1 | h1
      · exact absurd (beq_iff_eq.mpr h1.symm) hc
      · exact h1

theorem run_b1_no_at : ∀ cs : List Char, (∀ c ∈ cs, (c == '@') = false) →
    runD urlStep .b1 cs = .b1 := by
  intro cs
  induction cs with
  | nil => intro _; rfl
  | cons c cs ih =>
    intro h
    show runD urlStep (urlStep .b1 c) cs = .b1
    rw [show urlStep .b1 c = .b1 from by
      show (if c == '@' then UrlSt.accept else .b1) = _
      rw [if_neg (by rw [h c (by simp)]; exact Bool.noConfusion)]]
    exact ih (fun c2 hc2 => h c2 (List.mem_cons_of_mem c hc2))

theorem run_a1_no_colon : ∀ cs : List Char, (∀ c ∈ cs, (c == ':') = false) →
    runD urlStep .a1 cs = .a1 := by
  intro cs
  induction cs with
  | nil => intro _; rfl
  | cons c cs ih =>
    intro h
    show runD urlStep (urlStep .a1 c) cs = .a1
    rw [show urlStep .a1 c = .a1 from by
      show (if c == ':' then UrlSt.b0 else .a1) = _
      rw [if_neg (by rw [h c (by simp)]; exact Bool.noConfusion)]]
    exact ih (fun c2 hc2 => h c2 (List.mem_cons_of_mem c hc2))

/-! ### Character-class disequalities -/

theorem sep_ne_colon_eq : ∀ c, isSepChar c = true → (c == ':') = true →
    c = ':' := by
  intro c _ h2
  exact beq_iff_eq.mp h2

theorem sep_ne_at (c : Char) (h : isSepChar c = true) :
    (c == '@') = false := by
  by_cases hc : c == '@'
  · have := beq_iff_eq.mp hc
    subst this
    rw [isSepChar_iff] at h
    have : Char.toNat '@' = 64 := rfl
    omega
  · simpa using hc

theorem awsTail_ne_colon (c : Char) (h : isAwsTailChar c = true) :
    (c == ':') = false := by
  by_cases hc : c == ':'
  · have := beq_iff_eq.mp hc
    subst this
    rw [isAwsTailChar_iff] at h
    have : Char.toNat ':' = 58 := rfl
    omega
  · simpa using hc

theorem awsTail_ne_at (c : Char) (h : isAwsTailChar c = true) :
    (c == '@') = false := by
  by_cases hc : c == '@'
  · have := beq_iff_eq.mp hc
    subst this
    rw [isAwsTailChar_iff] at h
    have : Char.toNat '@' = 64 := rfl
    omega
  · simpa using hc

theorem alnum_ne_colon (c : Char) (h : isAlnumChar c = true) :
    (c == ':') = false := by
  by_cases hc : c == ':'
  · have := beq_iff_eq.mp hc
    subst this
    rw [isAlnumChar_iff] at h
    have : Char.toNat ':' = 58 := rfl
    omega
  · simpa using hc

theorem alnum_ne_at (c : Char) (h : isAlnumChar c = true) :
    (c == '@') = false := by
  by_cases hc : c == '@'
  · have := beq_iff_eq.mp hc
    subst this
    rw [isAlnumChar_iff] at h
    have : Char.toNat '@' = 64 := rfl
    omega
  · simpa using hc

/-- Characters whose lower case appears in a list of basic lower-case
letters are distinct from a fixed symbol. -/
theorem mem_lower_ne (c : Char) (ls : List Char) (d : Char)
    (hmem : c.toLower ∈ ls)
    (hd : d.toLower = d) (hnd : d ∉ ls) : (c == d) = false := by
  by_cases hc : c == d
  · have := beq_iff_eq.mp hc
    subst this
    rw [hd] at hmem
    exact absurd hmem hnd
  · simpa using hc

/-! ### Matched-text decompositions restricted to the match itself -/

theorem append_take_eq (Y rest jm X : List Char) (h : jm ++ X = Y ++ rest)
    (hlen : Y.length = jm.length) : jm = Y := by
  have h1 := List.take_left jm X
  rw [h, ← hlen] at h1
  rw [List.take_left Y rest] at h1
  exact h1.symm

theorem url_jm_decomp (L : List Char) (jm X : List Char)
    (h : matchPats [.lit L, .plus (fun c => c != ':'), .lit ":".toList,
      .plus (fun c => c != '@'), .lit "@".toList] (jm ++ X)
        = some jm.length) :
    ∃ Lc A B, jm = Lc ++ A ++ ':' :: B ++ ['@'] ∧
      Lc.map Char.toLower = L ∧
      A ≠ [] ∧ (∀ c ∈ A, (c != ':') = true) ∧
      B ≠ [] ∧ (∀ c ∈ B, (c != '@') = true) := by
  obtain ⟨Lc, A, B, rest, hcs, hLc, hA, hAn, hB, hBn, hn⟩ :=
    url_decomp L (jm ++ X) jm.length h
  refine ⟨Lc, A, B, ?_, hLc, hA, hAn, hB, hBn⟩
  refine append_take_eq (Lc ++ A ++ ':' :: B ++ ['@']) rest jm X ?_ ?_
  · rw [hcs]
    simp [List.append_assoc, List.cons_append]
  · simp only [List.length_append, List.length_cons, List.length_nil]
    omega

theorem kw_jm_decomp (K : List Char) (tcl : Char → Bool) (jm X : List Char)
    (h : matchPats [.lit K, .plus isSepChar, .plus tcl] (jm ++ X)
      = some jm.length) :
    ∃ kpre S T, jm = kpre ++ S ++ T ∧ kpre.map Char.toLower = K ∧
      S ≠ [] ∧ (∀ c ∈ S, isSepChar c = true) ∧
      T ≠ [] ∧ (∀ c ∈ T, tcl c = true) := by
  obtain ⟨kpre, S, T, rest, hcs, hci, hS, hSall, hT, hTall, hn⟩ :=
    kw_decomp K tcl (jm ++ X) jm.length h
  refine ⟨kpre, S, T, ?_, hci, hS, hSall, hT, hTall⟩
  refine append_take_eq (kpre ++ S ++ T) rest jm X ?_ ?_
  · rw [hcs]
  · simp only [List.length_append]
    omega

theorem ak_jm_decomp (jm X : List Char)
    (h : matchPats [.lit "akia".toList, .exactly 16 isAlnumChar] (jm ++ X)
      = some jm.length) :
    ∃ Lc D, jm = Lc ++ D ∧ Lc.map Char.toLower = "akia".toList ∧
      D.length = 16 ∧ (∀ c ∈ D, isAlnumChar c = true) := by
  obtain ⟨Lc, D, rest, hcs, hci, hD, hDall, hn⟩ :=
    ak_decomp (jm ++ X) jm.length h
  refine ⟨Lc, D, ?_, hci, hD, hDall⟩
  refine append_take_eq (Lc ++ D) rest jm X ?_ ?_
  · rw [hcs]
  · have hLc : Lc.length = 4 := by
      have := congrArg List.length hci
      simp only [List.length_map] at this
      rw [this]
      rfl
    simp only [List.length_append]
    omega

/-- Splitting the case-insensitive scheme prefix of a URL match. -/
theorem lc_split (Ls Lc : List Char)
    (hLc : Lc.map Char.toLower = Ls ++ [':', '/', '/']) :
    ∃ Sc, Lc = Sc ++ [':', '/', '/'] ∧ Sc.map Char.toLower = Ls := by
  rcases List.map_eq_append_iff.mp hLc with ⟨Sc, Z, hsplit, hS, hZ⟩
  refine ⟨Sc, ?_, hS⟩
  cases Z with
  | nil => exact absurd hZ (by simp)
  | cons z1 Z1 =>
    cases Z1 with
    | nil => exact absurd hZ (by simp)
    | cons z2 Z2 =>
      cases Z2 with
      | nil => exact absurd hZ (by simp)
      | cons z3 Z3 =>
        cases Z3 with
        | cons z4 Z4 => exact absurd hZ (by simp)
        | nil =>
          simp only [List.map_cons, List.map_nil, List.cons.injEq,
            and_true] at hZ
          obtain ⟨h1, h2, h3⟩ := hZ
          have e1 : z1 = ':' := toLower_eq_nonletter (by left; decide) h1
          have e2 : z2 = '/' := toLower_eq_nonletter (by left; decide) h2
          have e3 : z3 = '/' := toLower_eq_nonletter (by left; decide) h3
          rw [hsplit, e1, e2, e3]

theorem bne_true_beq_false {c d : Char} (h : (c != d) = true) :
    (c == d) = false := by
  cases hb : c == d with
  | false => rfl
  | true =>
    have h2 : (!(c == d)) = true := h
    rw [hb] at h2
    exact Bool.noConfusion h2

theorem beq_false_bne_true {c d : Char} (h : (c == d) = false) :
    (c != d) = true := by
  rw [bne, h]
  rfl

/-- Running the lit state over its case-insensitive text exhausts it. -/
theorem run_lit_ci : ∀ (Lc : List Char) (L : List Char),
    Lc.map Char.toLower = L → runD urlStep (.lit L) Lc = .lit [] := by
  intro Lc
  induction Lc with
  | nil =>
    intro L hL
    rw [← hL]
    rfl
  | cons c Lc ih =>
    intro L hL
    rw [← hL]
    show runD urlStep
      (urlStep (.lit (c.toLower :: Lc.map Char.toLower)) c) Lc = _
    rw [show urlStep (.lit (c.toLower :: Lc.map Char.toLower)) c
        = .lit (Lc.map Char.toLower) from by
      show (if c.toLower == c.toLower then UrlSt.lit (Lc.map Char.toLower)
        else .dead) = _
      rw [if_pos (beq_iff_eq.mpr rfl)]]
    exact ih _ rfl

theorem letters_ne_colon_at (c : Char) (ls : List Char)
    (hmem : c.toLower ∈ ls)
    (hrange : ∀ x ∈ ls, 97 ≤ x.toNat ∧ x.toNat ≤ 122) :
    (c == ':') = false ∧ (c == '@') = false := by
  constructor
  · by_cases hc : c == ':'
    · have := beq_iff_eq.mp hc
      subst this
      have h1 : Char.toLower ':' = ':' := rfl
      rw [h1] at hmem
      have := hrange ':' hmem
      have h2 : Char.toNat ':' = 58 := rfl
      omega
    · simpa using hc
  · by_cases hc : c == '@'
    · have := beq_iff_eq.mp hc
      subst this
      have h1 : Char.toLower '@' = '@' := rfl
      rw [h1] at hmem
      have := hrange '@' hmem
      have h2 : Char.toNat '@' = 64 := rfl
      omega
    · simpa using hc

/-- A URL-credential match drives the URL automaton to acceptance from any
of its live states. -/
theorem url_jm_accept (L Ls : List Char)
    (hL : L = Ls ++ [':', '/', '/'])
    (hletters : ∀ x ∈ Ls, 97 ≤ x.toNat ∧ x.toNat ≤ 122)
    (hLsne : Ls ≠ [])
    (jm : List Char) (Lc A B : List Char)
    (hjm : jm = Lc ++ A ++ ':' :: B ++ ['@'])
    (hLc : Lc.map Char.toLower = L)
    (hA : A ≠ []) (hAn : ∀ c ∈ A, (c != ':') = true)
    (hB : B ≠ []) (hBn : ∀ c ∈ B, (c != '@') = true) :
    runD urlStep .a0 jm = .accept ∧ runD urlStep .a1 jm = .accept ∧
    runD urlStep .b0 jm = .accept ∧ runD urlStep .b1 jm = .accept ∧
    runD urlStep (.lit L) jm = .accept := by
  obtain ⟨Sc, hLcs, hSc⟩ := lc_split Ls Lc (by rw [hLc, hL])
  have hScfacts : ∀ c ∈ Sc, (c == ':') = false ∧ (c == '@') = false := by
    intro c hc
    refine letters_ne_colon_at c Ls ?_ hletters
    rw [← hSc]
    exact List.mem_map_of_mem Char.toLower hc
  have hatmem : '@' ∈ jm := by
    rw [hjm]
    simp
  have hb1 : runD urlStep .b1 jm = .accept := run_b1_mem jm hatmem
  have hjm2 : jm = Sc ++ (':' :: '/' :: '/' ::
      (A ++ ':' :: B ++ ['@'])) := by
    rw [hjm, hLcs]
    simp [List.append_assoc]
  have hcore : ∀ Sc2 : List Char, (∀ c ∈ Sc2, (c == ':') = false) →
      runD urlStep .a1 (Sc2 ++ ':' :: '/' :: '/' ::
        (A ++ ':' :: B ++ ['@'])) = .accept := by
    intro Sc2 hSc2
    rw [runD_append, run_a1_no_colon Sc2 hSc2]
    show runD urlStep (urlStep .a1 ':') ('/' :: '/' ::
      (A ++ ':' :: B ++ ['@'])) = .accept
    rw [show urlStep .a1 ':' = .b0 from by
      show (if ':' == ':' then UrlSt.b0 else .a1) = _
      rw [if_pos (by decide)]]
    show runD urlStep (urlStep .b0 '/') ('/' ::
      (A ++ ':' :: B ++ ['@'])) = .accept
    rw [show urlStep .b0 '/' = .b1 from by
      show (if '/' != '@' then UrlSt.b1 else .dead) = _
      rw [if_pos (by decide)]]
    show runD urlStep (urlStep .b1 '/') (A ++ ':' :: B ++ ['@']) = .accept
    rw [show urlStep .b1 '/' = .b1 from by
      show (if '/' == '@' then UrlSt.accept else .b1) = _
      rw [if_neg (by decide)]]
    refine run_b1_mem _ ?_
    simp
  have ha1 : runD urlStep .a1 jm = .accept := by
    rw [hjm2]
    exact hcore Sc (fun c hc => (hScfacts c hc).1)
  have hScne : Sc ≠ [] := by
    intro hcon
    rw [hcon] at hSc
    exact hLsne hSc.symm
  have ha0 : runD urlStep .a0 jm = .accept := by
    cases hsc : Sc with
    | nil => exact absurd hsc hScne
    | cons s0 Sc2 =>
      rw [hjm2, hsc]
      show runD urlStep (urlStep .a0 s0) (Sc2 ++ ':' :: '/' :: '/' ::
        (A ++ ':' :: B ++ ['@'])) = .accept
      rw [show urlStep .a0 s0 = .a1 from by
        show (if s0 != ':' then UrlSt.a1 else .dead) = _
        rw [if_pos (beq_false_bne_true
          ((hScfacts s0 (by rw [hsc]; simp)).1))]]
      exact hcore Sc2 (fun c hc => (hScfacts c (by rw [hsc]; simp [hc])).1)
  have hb0 : runD urlStep .b0 jm = .accept := by
    cases hsc : Sc with
    | nil => exact absurd hsc hScne
    | cons s0 Sc2 =>
      rw [hjm2, hsc]
      show runD urlStep (urlStep .b0 s0) (Sc2 ++ ':' :: '/' :: '/' ::
        (A ++ ':' :: B ++ ['@'])) = .accept
      rw [show urlStep .b0 s0 = .b1 from by
        show (if s0 != '@' then UrlSt.b1 else .dead) = _
        rw [if_pos (beq_false_bne_true
          ((hScfacts s0 (by rw [hsc]; simp)).2))]]
      refine run_b1_mem _ ?_
      simp
  have hlit : runD urlStep (.lit L) jm = .accept := by
    have hjm3 : jm = Lc ++ (A ++ ':' :: B ++ ['@']) := by
      rw [hjm]
      simp [List.append_assoc]
    rw [hjm3, runD_append, run_lit_ci Lc L hLc]
    cases hAe : A with
    | nil => exact absurd hAe hA
    | cons a0 A2 =>
      show runD urlStep (urlStep (.lit []) a0)
        (A2 ++ ':' :: B ++ ['@']) = .accept
      rw [show urlStep (.lit []) a0 = .a1 from by
        show (if a0 != ':' then UrlSt.a1 else .dead) = _
        rw [if_pos (hAn a0 (by rw [hAe]; simp))]]
      rw [runD_append, runD_append, run_a1_no_colon A2
        (fun c hc => bne_true_beq_false (hAn c (by rw [hAe]; simp [hc])))]
      show runD urlStep (runD urlStep (urlStep .a1 ':') B) ['@'] = .accept
      rw [show urlStep .a1 ':' = .b0 from by
        show (if ':' == ':' then UrlSt.b0 else .a1) = _
        rw [if_pos (by decide)]]
      cases hBe : B with
      | nil => exact absurd hBe hB
      | cons b0 B2 =>
        show runD urlStep (runD urlStep (urlStep .b0 b0) B2) ['@'] = .accept
        rw [show urlStep .b0 b0 = .b1 from by
          show (if b0 != '@' then UrlSt.b1 else .dead) = _
          rw [if_pos (hBn b0 (by rw [hBe]; simp))]]
        rw [run_b1_no_at B2
          (fun c hc => bne_true_beq_false (hBn c (by rw [hBe]; simp [hc])))]
        rfl
  exact ⟨ha0, ha1, hb0, hb1, hlit⟩

/-- Membership of the lower case in a colon-and-at-free list rules the
symbols out. -/
theorem lower_mem_ne (c : Char) (ls : List Char)
    (hmem : c.toLower ∈ ls)
    (hrange : ∀ x ∈ ls, x.toNat ≠ 58 ∧ x.toNat ≠ 64) :
    (c == ':') = false ∧ (c == '@') = false := by
  constructor
  · by_cases hc : c == ':'
    · have := beq_iff_eq.mp hc
      subst this
      have h1 : Char.toLower ':' = ':' := rfl
      rw [h1] at hmem
      have := hrange ':' hmem
      have h2 : Char.toNat ':' = 58 := rfl
      omega
    · simpa using hc
  · by_cases hc : c == '@'
    · have := beq_iff_eq.mp hc
      subst this
      have h1 : Char.toLower '@' = '@' := rfl
      rw [h1] at hmem
      have := hrange '@' hmem
      have h2 : Char.toNat '@' = 64 := rfl
      omega
    · simpa using hc

/-- Transfer for a URL automaton across a scan by another URL pattern. -/
theorem urlA_transfer (Li Lj Ls rJ : List Char)
    (mj : List Char → Option Nat)
    (hLj : Lj = Ls ++ [':', '/', '/'])
    (hletters : ∀ x ∈ Ls, 97 ≤ x.toNat ∧ x.toNat ≤ 122)
    (hLsne : Ls ≠ [])
    (hmjdecomp : ∀ jm X, mj (jm ++ X) = some jm.length → 1 ≤ jm.length →
      ∃ Lc A B, jm = Lc ++ A ++ ':' :: B ++ ['@'] ∧
        Lc.map Char.toLower = Lj ∧
        A ≠ [] ∧ (∀ c ∈ A, (c != ':') = true) ∧
        B ≠ [] ∧ (∀ c ∈ B, (c != '@') = true))
    (hlit : ∀ rem ∈ Li.tails, rem ≠ [] →
      runD urlStep (.lit rem) rJ = .dead ∨ (rem = Li ∧ Li = Lj)) :
    ∀ segs, ScanWf mj segs → ∀ s ∈ urlStates Li,
      runD urlStep s (flatR rJ segs) = .accept →
      runD urlStep s (flatI segs) = .accept := by
  intro segs hwf s hs hacc2
  refine seg_transfer urlStep .accept mj rJ
    (winSim (urlStates Li) .accept .dead) ?_ ?_ ?_
    segs hwf s s (Or.inl ⟨rfl, hs⟩) hacc2
  · intro s1 t1 hsim hs1
    rcases hsim with ⟨heq, _⟩ | hdd | hta
    · rw [← heq, hs1]
    · rw [hdd] at hs1
      exact absurd hs1 (by decide)
    · exact hta
  · intro s1 t1 ch hsim
    rcases hsim with ⟨heq, hmem⟩ | hdd | hta
    · subst heq
      exact Or.inl ⟨rfl, urlStates_closure Li s1 hmem ch⟩
    · subst hdd
      right; left
      rfl
    · subst hta
      right; right
      rfl
  · intro s1 t1 jm X hsim hmatch hlen
    rcases hsim with ⟨heq, hmem⟩ | hdd | hta
    · subst heq
      obtain ⟨Lc, A, B, hjm, hLc, hA, hAn, hB, hBn⟩ :=
        hmjdecomp jm X hmatch hlen
      obtain ⟨ha0, ha1, hb0, hb1, hlitacc⟩ :=
        url_jm_accept Lj Ls hLj hletters hLsne jm Lc A B hjm hLc
          hA hAn hB hBn
      rcases List.mem_append.mp hmem with hlitm | hfixed
      · obtain ⟨rem, hrem, hrw⟩ := List.mem_map.mp hlitm
        subst hrw
        by_cases hrem0 : rem = []
        · subst hrem0
          right; right
          have hjmne : jm ≠ [] := by
            intro hcon
            rw [hcon] at hlen
            exact absurd hlen (by decide)
          cases hjme : jm with
          | nil => exact absurd hjme hjmne
          | cons c0 jm2 =>
            have he : runD urlStep (.lit []) (c0 :: jm2)
                = runD urlStep .a0 (c0 :: jm2) := rfl
            rw [he, ← hjme]
            exact ha0
        · by_cases hd : runD urlStep (.lit rem) rJ = .dead
          · rw [hd]
            right; left
            rfl
          · rcases hlit rem hrem hrem0 with hd2 | ⟨he1, he2⟩
            · exact absurd hd2 hd
            · subst he1
              right; right
              rw [he2]
              exact hlitacc
      · simp only [List.mem_cons, List.not_mem_nil, or_false] at hfixed
        rcases hfixed with h | h | h | h | h | h <;> subst h
        · right; right; exact ha0
        · right; right; exact ha1
        · right; right; exact hb0
        · right; right; exact hb1
        · right; right
          exact runD_fixed urlStep .accept (fun _ => rfl) jm
        · right; left
          exact runD_fixed urlStep .dead (fun _ => rfl) rJ
    · subst hdd
      right; left
      exact runD_fixed urlStep .dead (fun _ => rfl) rJ
    · subst hta
      right; right
      exact runD_fixed urlStep .accept (fun _ => rfl) jm

/-- Transfer for a URL automaton across the AKIA scan. -/
theorem urlB_transfer (Li : List Char) (mj : List Char → Option Nat)
    (hmjdecomp : ∀ jm X, mj (jm ++ X) = some jm.length → 1 ≤ jm.length →
      ∃ Lc D, jm = Lc ++ D ∧ Lc.map Char.toLower = "akia".toList ∧
        D.length = 16 ∧ (∀ c ∈ D, isAlnumChar c = true))
    (hlit : ∀ rem ∈ Li.tails, rem ≠ [] →
      runD urlStep (.lit rem) "AKIA***".toList = .dead) :
    ∀ segs, ScanWf mj segs → ∀ s ∈ urlStates Li,
      runD urlStep s (flatR "AKIA***".toList segs) = .accept →
      runD urlStep s (flatI segs) = .accept := by
  intro segs hwf s hs hacc2
  refine seg_transfer urlStep .accept mj "AKIA***".toList
    (winSim (urlStates Li) .accept .dead) ?_ ?_ ?_
    segs hwf s s (Or.inl ⟨rfl, hs⟩) hacc2
  · intro s1 t1 hsim hs1
    rcases hsim with ⟨heq, _⟩ | hdd | hta
    · rw [← heq, hs1]
    · rw [hdd] at hs1
      exact absurd hs1 (by decide)
    · exact hta
  · intro s1 t1 ch hsim
    rcases hsim with ⟨heq, hmem⟩ | hdd | hta
    · subst heq
      exact Or.inl ⟨rfl, urlStates_closure Li s1 hmem ch⟩
    · subst hdd
      right; left
      rfl
    · subst hta
      right; right
      rfl
  · intro s1 t1 jm X hsim hmatch hlen
    rcases hsim with ⟨heq, hmem⟩ | hdd | hta
    · subst heq
      obtain ⟨Lc, D, hjm, hLc, hD, hDall⟩ := hmjdecomp jm X hmatch hlen
      have hfacts : ∀ c ∈ jm, (c == ':') = false ∧ (c == '@') = false := by
        intro c hc
        rw [hjm] at hc
        rcases List.mem_append.mp hc with h1 | h1
        · refine lower_mem_ne c "akia".toList ?_ (by decide)
          rw [← hLc]
          exact List.mem_map_of_mem Char.toLower h1
        · exact ⟨alnum_ne_colon c (hDall c h1), alnum_ne_at c (hDall c h1)⟩
      have hjmne : jm ≠ [] := by
        intro hcon
        rw [hcon] at hlen
        exact absurd hlen (by decide)
      rcases List.mem_append.mp hmem with hlitm | hfixed
      · obtain ⟨rem, hrem, hrw⟩ := List.mem_map.mp hlitm
        subst hrw
        by_cases hrem0 : rem = []
        · subst hrem0
          have hu : runD urlStep (.lit []) "AKIA***".toList = .a1 := by
            decide
          have ht : runD urlStep (.lit []) jm = .a1 := by
            cases hjme : jm with
            | nil => exact absurd hjme hjmne
            | cons j0 jm2 =>
              show runD urlStep (urlStep (.lit []) j0) jm2 = _
              rw [show urlStep (.lit []) j0 = .a1 from by
                show (if j0 != ':' then UrlSt.a1 else .dead) = _
                rw [if_pos (beq_false_bne_true
                  ((hfacts j0 (by rw [hjme]; simp)).1))]]
              exact run_a1_no_colon jm2
                (fun c hc => (hfacts c (by rw [hjme]; simp [hc])).1)
          left
          rw [hu, ht]
          exact ⟨rfl, by simp [urlStates]⟩
        · rw [hlit rem hrem hrem0]
          right; left
          rfl
      · simp only [List.mem_cons, List.not_mem_nil, or_false] at hfixed
        rcases hfixed with h | h | h | h | h | h <;> subst h
        · have hu : runD urlStep .a0 "AKIA***".toList = .a1 := by decide
          have ht : runD urlStep .a0 jm = .a1 := by
            cases hjme : jm with
            | nil => exact absurd hjme hjmne
            | cons j0 jm2 =>
              show runD urlStep (urlStep .a0 j0) jm2 = _
              rw [show urlStep .a0 j0 = .a1 from by
                show (if j0 != ':' then UrlSt.a1 else .dead) = _
                rw [if_pos (beq_false_bne_true
                  ((hfacts j0 (by rw [hjme]; simp)).1))]]
              exact run_a1_no_colon jm2
                (fun c hc => (hfacts c (by rw [hjme]; simp [hc])).1)
          left
          rw [hu, ht]
          exact ⟨rfl, by simp [urlStates]⟩
        · have hu : runD urlStep .a1 "AKIA***".toList = .a1 := by decide
          have ht : runD urlStep .a1 jm = .a1 :=
            run_a1_no_colon jm (fun c hc => (hfacts c hc).1)
          left
          rw [hu, ht]
          exact ⟨rfl, by simp [urlStates]⟩
        · have hu : runD urlStep .b0 "AKIA***".toList = .b1 := by decide
          have ht : runD urlStep .b0 jm = .b1 := by
            cases hjme : jm with
            | nil => exact absurd hjme hjmne
            | cons j0 jm2 =>
              show runD urlStep (urlStep .b0 j0) jm2 = _
              rw [show urlStep .b0 j0 = .b1 from by
                show (if j0 != '@' then UrlSt.b1 else .dead) = _
                rw [if_pos (beq_false_bne_true
                  ((hfacts j0 (by rw [hjme]; simp)).2))]]
              exact run_b1_no_at jm2
                (fun c hc => (hfacts c (by rw [hjme]; simp [hc])).2)
          left
          rw [hu, ht]
          exact ⟨rfl, by simp [urlStates]⟩
        · have hu : runD urlStep .b1 "AKIA***".toList = .b1 := by decide
          have ht : runD urlStep .b1 jm = .b1 :=
            run_b1_no_at jm (fun c hc => (hfacts c hc).2)
          left
          rw [hu, ht]
          exact ⟨rfl, by simp [urlStates]⟩
        · right; right
          exact runD_fixed urlStep .accept (fun _ => rfl) jm
        · right; left
          exact runD_fixed urlStep .dead (fun _ => rfl) _
    · subst hdd
      right; left
      exact runD_fixed urlStep .dead (fun _ => rfl) _
    · subst hta
      right; right
      exact runD_fixed urlStep .accept (fun _ => rfl) jm

theorem run_b0_sep_tail (T : List Char)
    (hT : ∀ c ∈ T, isAwsTailChar c = true) (hTne : T ≠ []) :
    ∀ S : List Char, (∀ c ∈ S, isSepChar c = true) →
      runD urlStep .b0 (S ++ T) = .b1 := by
  intro S hS
  cases S with
  | nil =>
    cases hTe : T with
    | nil => exact absurd hTe hTne
    | cons t0 T2 =>
      show runD urlStep (urlStep .b0 t0) T2 = _
      rw [show urlStep .b0 t0 = .b1 from by
        show (if t0 != '@' then UrlSt.b1 else .dead) = _
        rw [if_pos (beq_false_bne_true
          (awsTail_ne_at t0 (hT t0 (by rw [hTe]; simp))))]]
      exact run_b1_no_at T2
        (fun c hc => awsTail_ne_at c (hT c (by rw [hTe]; simp [hc])))
  | cons c2 S2 =>
    show runD urlStep (urlStep .b0 c2) (S2 ++ T) = _
    rw [show urlStep .b0 c2 = .b1 from by
      show (if c2 != '@' then UrlSt.b1 else .dead) = _
      rw [if_pos (beq_false_bne_true
        (sep_ne_at c2 (hS c2 (by simp))))]]
    refine run_b1_no_at (S2 ++ T) ?_
    intro c hc
    rcases List.mem_append.mp hc with h1 | h1
    · exact sep_ne_at c (hS c (by simp [h1]))
    · exact awsTail_ne_at c (hT c h1)

theorem run_a1_sep_tail (T : List Char)
    (hT : ∀ c ∈ T, isAwsTailChar c = true) (hTne : T ≠ []) :
    ∀ S : List Char, (∀ c ∈ S, isSepChar c = true) →
      runD urlStep .a1 (S ++ T) = .a1 ∨
        runD urlStep .a1 (S ++ T) = .b1 := by
  intro S
  induction S with
  | nil =>
    intro _
    left
    rw [List.nil_append]
    exact run_a1_no_colon T (fun c hc => awsTail_ne_colon c (hT c hc))
  | cons c S2 ih =>
    intro hS
    have hred : runD urlStep .a1 (c :: S2 ++ T) =
        runD urlStep (urlStep .a1 c) (S2 ++ T) := rfl
    by_cases hc : c == ':'
    · right
      rw [hred, show urlStep .a1 c = .b0 from by
        show (if c == ':' then UrlSt.b0 else .a1) = _
        rw [if_pos hc]]
      exact run_b0_sep_tail T hT hTne S2
        (fun c2 hc2 => hS c2 (by simp [hc2]))
    · rw [hred, show urlStep .a1 c = .a1 from by
        show (if c == ':' then UrlSt.b0 else .a1) = _
        rw [if_neg hc]]
      exact ih (fun c2 hc2 => hS c2 (by simp [hc2]))

/-- Transfer for a URL automaton across the aws-secret scan. -/
theorem urlC_transfer (Li : List Char) (mj : List Char → Option Nat)
    (hmjdecomp : ∀ jm X, mj (jm ++ X) = some jm.length → 1 ≤ jm.length →
      ∃ kpre S T, jm = kpre ++ S ++ T ∧
        kpre.map Char.toLower = "aws_secret_access_key".toList ∧
        S ≠ [] ∧ (∀ c ∈ S, isSepChar c = true) ∧
        T ≠ [] ∧ (∀ c ∈ T, isAwsTailChar c = true))
    (hlit : ∀ rem ∈ Li.tails, rem ≠ [] →
      runD urlStep (.lit rem) "aws_secret_access_key=***".toList
        = .dead) :
    ∀ segs, ScanWf mj segs → ∀ s ∈ urlStates Li,
      runD urlStep s (flatR "aws_secret_access_key=***".toList segs)
        = .accept →
      runD urlStep s (flatI segs) = .accept := by
  intro segs hwf s hs hacc2
  refine seg_transfer urlStep .accept mj "aws_secret_access_key=***".toList
    (awsSim Li) ?_ ?_ ?_ segs hwf s s (Or.inl ⟨rfl, hs⟩) hacc2
  · intro s1 t1 hsim hs1
    rcases hsim with ⟨heq, _⟩ | hdd | hta | ⟨he1, _⟩ | ⟨he1, _⟩
    · rw [← heq, hs1]
    · rw [hdd] at hs1
      exact absurd hs1 (by decide)
    · exact hta
    · rw [he1] at hs1
      exact absurd hs1 (by decide)
    · rw [he1] at hs1
      exact absurd hs1 (by decide)
  · intro s1 t1 ch hsim
    rcases hsim with ⟨heq, hmem⟩ | hdd | hta | ⟨he1, he2⟩ | ⟨he1, he2⟩
    · subst heq
      exact Or.inl ⟨rfl, urlStates_closure Li s1 hmem ch⟩
    · subst hdd
      right; left
      rfl
    · subst hta
      right; right; left
      rfl
    · subst he1
      subst he2
      by_cases hc : ch == ':'
      · rw [show urlStep .a1 ch = .b0 from by
          show (if ch == ':' then UrlSt.b0 else .a1) = _
          rw [if_pos hc]]
        by_cases ha : ch == '@'
        · rw [show urlStep .b1 ch = .accept from by
            show (if ch == '@' then UrlSt.accept else .b1) = _
            rw [if_pos ha]]
          right; right; left
          rfl
        · rw [show urlStep .b1 ch = .b1 from by
            show (if ch == '@' then UrlSt.accept else .b1) = _
            rw [if_neg ha]]
          right; right; right; right
          exact ⟨rfl, rfl⟩
      · rw [show urlStep .a1 ch = .a1 from by
          show (if ch == ':' then UrlSt.b0 else .a1) = _
          rw [if_neg hc]]
        by_cases ha : ch == '@'
        · rw [show urlStep .b1 ch = .accept from by
            show (if ch == '@' then UrlSt.accept else .b1) = _
            rw [if_pos ha]]
          right; right; left
          rfl
        · rw [show urlStep .b1 ch = .b1 from by
            show (if ch == '@' then UrlSt.accept else .b1) = _
            rw [if_neg ha]]
          right; right; right; left
          exact ⟨rfl, rfl⟩
    · subst he1
      subst he2
      by_cases ha : ch == '@'
      · rw [show urlStep .b0 ch = .dead from by
          show (if ch != '@' then UrlSt.b1 else .dead) = _
          rw [if_neg (by rw [bne, ha]; exact Bool.noConfusion)]]
        right; left
        rfl
      · rw [show urlStep .b0 ch = .b1 from by
          show (if ch != '@' then UrlSt.b1 else .dead) = _
          rw [if_pos (beq_false_bne_true (by simpa using ha))]]
        rw [show urlStep .b1 ch = .b1 from by
          show (if ch == '@' then UrlSt.accept else .b1) = _
          rw [if_neg ha]]
        left
        exact ⟨rfl, by simp [urlStates]⟩
  · intro s1 t1 jm X hsim hmatch hlen
    have hrJ := "aws_secret_access_key=***".toList
    obtain ⟨kpre, S, T, hjm, hkci, hS, hSall, hT, hTall⟩ :=
      hmjdecomp jm X hmatch hlen
    have hkfacts : ∀ c ∈ kpre, (c == ':') = false ∧ (c == '@') = false := by
      intro c hc
      refine lower_mem_ne c "aws_secret_access_key".toList ?_ (by decide)
      rw [← hkci]
      exact List.mem_map_of_mem Char.toLower hc
    have hnoat : ∀ c ∈ jm, (c == '@') = false := by
      intro c hc
      rw [hjm] at hc
      rcases List.mem_append.mp hc with h1 | h1
      · rcases List.mem_append.mp h1 with h2 | h2
        · exact (hkfacts c h2).2
        · exact sep_ne_at c (hSall c h2)
      · exact awsTail_ne_at c (hTall c h1)
    have hkprene : kpre ≠ [] := by
      intro hcon
      rw [hcon] at hkci
      exact absurd hkci.symm (by decide)
    have hchain_a1 : runD urlStep .a1 jm = .a1 ∨
        runD urlStep .a1 jm = .b1 := by
      have hsplit : jm = kpre ++ (S ++ T) := by
        rw [hjm, List.append_assoc]
      rw [hsplit, runD_append,
        run_a1_no_colon kpre (fun c hc => (hkfacts c hc).1)]
      exact run_a1_sep_tail T hTall hT S hSall
    have hchain_b1 : runD urlStep .b1 jm = .b1 :=
      run_b1_no_at jm hnoat
    rcases hsim with ⟨heq, hmem⟩ | hdd | hta | ⟨he1, he2⟩ | ⟨he1, he2⟩
    · subst heq
      rcases List.mem_append.mp hmem with hlitm | hfixed
      · obtain ⟨rem, hrem, hrw⟩ := List.mem_map.mp hlitm
        subst hrw
        by_cases hrem0 : rem = []
        · subst hrem0
          have hu : runD urlStep (.lit [])
              "aws_secret_access_key=***".toList = .a1 := by decide
          have ht : runD urlStep (.lit []) jm = .a1 ∨
              runD urlStep (.lit []) jm = .b1 := by
            cases hke : kpre with
            | nil => exact absurd hke hkprene
            | cons k0 kpre2 =>
              have hjm2 : jm = k0 :: (kpre2 ++ (S ++ T)) := by
                rw [hjm, hke]
                simp [List.append_assoc]
              have hred : runD urlStep (.lit [])
                  (k0 :: (kpre2 ++ (S ++ T))) =
                  runD urlStep (urlStep (.lit []) k0)
                    (kpre2 ++ (S ++ T)) := rfl
              rw [hjm2, hred]
              rw [show urlStep (.lit []) k0 = .a1 from by
                show (if k0 != ':' then UrlSt.a1 else .dead) = _
                rw [if_pos (beq_false_bne_true
                  ((hkfacts k0 (by rw [hke]; simp)).1))]]
              rw [runD_append, run_a1_no_colon kpre2
                (fun c hc => (hkfacts c (by rw [hke]; simp [hc])).1)]
              exact run_a1_sep_tail T hTall hT S hSall
          rw [hu]
          rcases ht with ht | ht
          · rw [ht]
            left
            exact ⟨rfl, by simp [urlStates]⟩
          · rw [ht]
            right; right; right; left
            exact ⟨rfl, rfl⟩
        · rw [hlit rem hrem hrem0]
          right; left
          rfl
      · simp only [List.mem_cons, List.not_mem_nil, or_false] at hfixed
        rcases hfixed with h | h | h | h | h | h <;> subst h
        · have hu : runD urlStep .a0
              "aws_secret_access_key=***".toList = .a1 := by decide
          have ht : runD urlStep .a0 jm = .a1 ∨
              runD urlStep .a0 jm = .b1 := by
            cases hke : kpre with
            | nil => exact absurd hke hkprene
            | cons k0 kpre2 =>
              have hjm2 : jm = k0 :: (kpre2 ++ (S ++ T)) := by
                rw [hjm, hke]
                simp [List.append_assoc]
              have hred : runD urlStep .a0 (k0 :: (kpre2 ++ (S ++ T))) =
                  runD urlStep (urlStep .a0 k0) (kpre2 ++ (S ++ T)) := rfl
              rw [hjm2, hred]
              rw [show urlStep .a0 k0 = .a1 from by
                show (if k0 != ':' then UrlSt.a1 else .dead) = _
                rw [if_pos (beq_false_bne_true
                  ((hkfacts k0 (by rw [hke]; simp)).1))]]
              rw [runD_append, run_a1_no_colon kpre2
                (fun c hc => (hkfacts c (by rw [hke]; simp [hc])).1)]
              exact run_a1_sep_tail T hTall hT S hSall
          rw [hu]
          rcases ht with ht | ht
          · rw [ht]
            left
            exact ⟨rfl, by simp [urlStates]⟩
          · rw [ht]
            right; right; right; left
            exact ⟨rfl, rfl⟩
        · have hu : runD urlStep .a1
              "aws_secret_access_key=***".toList = .a1 := by decide
          rw [hu]
          rcases hchain_a1 with ht | ht
          · rw [ht]
            left
            exact ⟨rfl, by simp [urlStates]⟩
          · rw [ht]
            right; right; right; left
            exact ⟨rfl, rfl⟩
        · have hu : runD urlStep .b0
              "aws_secret_access_key=***".toList = .b1 := by decide
          have ht : runD urlStep .b0 jm = .b1 := by
            cases hke : kpre with
            | nil => exact absurd hke hkprene
            | cons k0 kpre2 =>
              have hjm2 : jm = k0 :: (kpre2 ++ (S ++ T)) := by
                rw [hjm, hke]
                simp [List.append_assoc]
              rw [hjm2]
              show runD urlStep (urlStep .b0 k0) (kpre2 ++ (S ++ T)) = _
              rw [show urlStep .b0 k0 = .b1 from by
                show (if k0 != '@' then UrlSt.b1 else .dead) = _
                rw [if_pos (beq_false_bne_true
                  ((hkfacts k0 (by rw [hke]; simp)).2))]]
              refine run_b1_no_at _ ?_
              intro c hc
              refine hnoat c ?_
              rw [hjm2]
              simp [hc]
          rw [hu, ht]
          left
          exact ⟨rfl, by simp [urlStates]⟩
        · have hu : runD urlStep .b1
              "aws_secret_access_key=***".toList = .b1 := by decide
          rw [hu, hchain_b1]
          left
          exact ⟨rfl, by simp [urlStates]⟩
        · right; right; left
          exact runD_fixed urlStep .accept (fun _ => rfl) jm
        · right; left
          exact runD_fixed urlStep .dead (fun _ => rfl) _
    · subst hdd
      right; left
      exact runD_fixed urlStep .dead (fun _ => rfl) _
    · subst hta
      right; right; left
      exact runD_fixed urlStep .accept (fun _ => rfl) jm
    · subst he1
      subst he2
      have hu : runD urlStep .a1
          "aws_secret_access_key=***".toList = .a1 := by decide
      rw [hu, hchain_b1]
      right; right; right; left
      exact ⟨rfl, rfl⟩
    · subst he1
      subst he2
      have hu : runD urlStep .b0
          "aws_secret_access_key=***".toList = .b1 := by decide
      rw [hu, hchain_b1]
      left
      exact ⟨rfl, by simp [urlStates]⟩

/-! ### Copying of a clean prefix through a scan -/

theorem copied_pref (mj : List Char → Option Nat) (rJ : List Char) :
    ∀ segs, ScanWf mj segs → ∀ pre : List Char,
      (∀ d, d < pre.length → ∀ X, mj (pre.drop d ++ X) = none) →
      pre <+: flatI segs → pre <+: flatR rJ segs := by
  intro segs hwf
  induction hwf with
  | nil =>
    intro pre _ hpre
    have hp : pre = [] := List.prefix_nil.mp hpre
    subst hp
    exact List.nil_prefix
  | chr c rest hm hwfr ih =>
    intro pre hnom hpre
    cases pre with
    | nil => exact List.nil_prefix
    | cons p0 pre2 =>
      have hpre2 : p0 = c ∧ pre2 <+: flatI rest := by
        rw [show flatI (Seg.chr c :: rest) = c :: flatI rest from rfl,
          List.cons_prefix_cons] at hpre
        exact hpre
      have h2 : pre2 <+: flatR rJ rest := by
        refine ih pre2 ?_ hpre2.2
        intro d hd X
        have h := hnom (d + 1) (by simp only [List.length_cons]; omega) X
        rw [List.drop_succ_cons] at h
        exact h
      rw [show flatR rJ (Seg.chr c :: rest) = c :: flatR rJ rest from rfl]
      rw [hpre2.1]
      exact List.cons_prefix_cons.mpr ⟨rfl, h2⟩
  | blk jm rest hmj2 hlen1 hwfr ih =>
    intro pre hnom hpre
    cases pre with
    | nil => exact List.nil_prefix
    | cons p0 pre2 =>
      exfalso
      obtain ⟨t, ht⟩ := hpre
      have h := hnom 0 (by simp only [List.length_cons]; omega) t
      rw [List.drop_zero] at h
      rw [ht] at h
      have hx : mj (jm ++ flatI rest) = none := h
      rw [hmj2] at hx
      exact Option.noConfusion hx

/-! ### Exact matching of the URL replacement -/

theorem litLen_of_ci : ∀ (cs X : List Char),
    litLen (cs.map Char.toLower) (cs ++ X) = some cs.length := by
  intro cs
  induction cs with
  | nil => intro X; rfl
  | cons c cs2 ih =>
    intro X
    show (if c.toLower == c.toLower
      then (litLen (cs2.map Char.toLower) (cs2 ++ X)).map (· + 1)
      else none) = _
    rw [if_pos (by simp), ih X, Option.map_some']
    rfl

theorem matchPats_lit_val (s : List Char) (R : List Pat) (cs : List Char)
    (n : Nat) (h : litLen s cs = some n) :
    matchPats (.lit s :: R) cs = (matchPats R (cs.drop n)).map (· + n) := by
  show (match litLen s cs with
    | none => none
    | some n => (matchPats R (cs.drop n)).map (· + n)) = _
  rw [h]

theorem matchPats_plus_val (cls : Char → Bool) (R : List Pat)
    (cs : List Char) (n : Nat) (h : takeWhileLen cls cs = n)
    (hn : n ≠ 0) :
    matchPats (.plus cls :: R) cs = (matchPats R (cs.drop n)).map (· + n) := by
  show (if takeWhileLen cls cs = 0 then none
    else (matchPats R (cs.drop (takeWhileLen cls cs))).map
      (· + takeWhileLen cls cs)) = _
  rw [h, if_neg hn]

/-- The URL replacement text is matched exactly by the URL pattern,
whatever follows it. -/
theorem url_match_exact (L : List Char) (hL : L.map Char.toLower = L)
    (X : List Char) :
    matchPats [.lit L, .plus (fun c => c != ':'), .lit ":".toList,
      .plus (fun c => c != '@'), .lit "@".toList]
      (L ++ '*' :: '*' :: '*' :: ':' :: '*' :: '*' :: '*' :: '@' :: X)
      = some (8 + L.length) := by
  have hlit1 : litLen L
      (L ++ '*' :: '*' :: '*' :: ':' :: '*' :: '*' :: '*' :: '@' :: X)
      = some L.length := by
    have h := litLen_of_ci L
      ('*' :: '*' :: '*' :: ':' :: '*' :: '*' :: '*' :: '@' :: X)
    rw [hL] at h
    exact h
  rw [matchPats_lit_val L _ _ L.length hlit1, List.drop_left]
  have htwl1 : takeWhileLen (fun c => c != ':')
      ('*' :: '*' :: '*' :: ':' :: '*' :: '*' :: '*' :: '@' :: X) = 3 := rfl
  rw [matchPats_plus_val _ _ _ 3 htwl1 (by decide)]
  rw [show ('*' :: '*' :: '*' :: ':' :: '*' :: '*' :: '*' :: '@' :: X).drop 3
    = ':' :: '*' :: '*' :: '*' :: '@' :: X from rfl]
  have hlit2 : litLen ":".toList (':' :: '*' :: '*' :: '*' :: '@' :: X)
      = some 1 := rfl
  rw [matchPats_lit_val _ _ _ 1 hlit2]
  rw [show (':' :: '*' :: '*' :: '*' :: '@' :: X).drop 1
    = '*' :: '*' :: '*' :: '@' :: X from rfl]
  have htwl2 : takeWhileLen (fun c => c != '@')
      ('*' :: '*' :: '*' :: '@' :: X) = 3 := rfl
  rw [matchPats_plus_val _ _ _ 3 htwl2 (by decide)]
  rw [show ('*' :: '*' :: '*' :: '@' :: X).drop 3 = '@' :: X from rfl]
  have hlit3 : litLen "@".toList ('@' :: X) = some 1 := rfl
  rw [matchPats_lit_val _ _ _ 1 hlit3]
  rw [show ('@' :: X).drop 1 = X from rfl]
  rw [show matchPats [] X = some 0 from rfl]
  simp only [Option.map_some']

/-! ### Cleanliness of URL patterns across scans -/

/-- Preservation of URL-pattern cleanliness under a later substitution. -/
theorem url_preserve (Li : List Char) (mi mj : List Char → Option Nat)
    (rI rJ : List Char)
    (hiff : ∀ cs, (mi cs).isSome = true ↔
      runD urlStep (.lit Li) cs = .accept)
    (hexact : ∀ X, mi (rI ++ X) = some rI.length)
    (hnomI : ∀ d, d < rI.length → ∀ X, mj (rI.drop d ++ X) = none)
    (hdeadJ : ∀ d, d < rJ.length →
      runD urlStep (.lit Li) (rJ.drop d) = .dead)
    (htransfer : ∀ segs, ScanWf mj segs →
      runD urlStep (.lit Li) (flatR rJ segs) = .accept →
      runD urlStep (.lit Li) (flatI segs) = .accept) :
    ∀ segs, ScanWf mj segs → CleanPos mi rI (flatI segs) →
      CleanPos mi rI (flatR rJ segs) := by
  have hnotacc : ∀ X : List Char, runD urlStep (.lit Li) X = .dead →
      ∀ Y, runD urlStep (.lit Li) (X ++ Y) ≠ .accept := by
    intro X hX Y
    rw [runD_append, hX, run_url_dead]
    exact fun hc => UrlSt.noConfusion hc
  have hmi_none : ∀ X : List Char,
      runD urlStep (.lit Li) X ≠ .accept → mi X = none := by
    intro X hX
    cases hmi : mi X with
    | none => rfl
    | some v =>
      exfalso
      exact hX ((hiff X).mp (by rw [hmi]; rfl))
  intro segs hwf
  induction hwf with
  | nil =>
    intro _ k
    left
    rw [show flatR rJ ([] : List Seg) = [] from rfl, List.drop_nil]
    refine hmi_none [] ?_
    intro hc
    exact UrlSt.noConfusion hc
  | chr c rest hm hwfr ih =>
    intro hclean k
    cases k with
    | zero =>
      rw [List.drop_zero]
      have hclean0 : mi (c :: flatI rest) = none ∨
          (mi (c :: flatI rest) = some rI.length ∧
            (c :: flatI rest).take rI.length = rI) := hclean 0
      rcases hclean0 with hnone | ⟨hsome, htake⟩
      · left
        show mi (flatR rJ (.chr c :: rest)) = none
        refine hmi_none _ ?_
        intro hacc2
        have htr := htransfer (.chr c :: rest)
          (ScanWf.chr c rest hm hwfr) hacc2
        have hthis : (mi (c :: flatI rest)).isSome = true :=
          (hiff _).mpr htr
        rw [hnone] at hthis
        exact Bool.noConfusion hthis
      · right
        have hprefI : rI <+: flatI (.chr c :: rest) := by
          show rI <+: c :: flatI rest
          refine ⟨(c :: flatI rest).drop rI.length, ?_⟩
          nth_rewrite 1 [← htake]
          rw [List.take_append_drop]
        have hprefR : rI <+: flatR rJ (.chr c :: rest) :=
          copied_pref mj rJ (.chr c :: rest)
            (ScanWf.chr c rest hm hwfr) rI hnomI hprefI
        obtain ⟨Y, hY⟩ := hprefR
        constructor
        · show mi (flatR rJ (.chr c :: rest)) = some rI.length
          rw [← hY]
          exact hexact Y
        · show (flatR rJ (.chr c :: rest)).take rI.length = rI
          rw [← hY, List.take_left]
    | succ k =>
      rw [show flatR rJ (Seg.chr c :: rest) = c :: flatR rJ rest from rfl,
        List.drop_succ_cons]
      refine ih ?_ k
      have hdc := CleanPos_drop mi rI (flatI (.chr c :: rest)) hclean 1
      rw [show flatI (Seg.chr c :: rest) = c :: flatI rest from rfl,
        List.drop_one, List.tail_cons] at hdc
      exact hdc
  | blk jm rest hmj2 hlen1 hwfr ih =>
    intro hclean k
    rw [show flatR rJ (Seg.blk jm :: rest) = rJ ++ flatR rJ rest from rfl]
    by_cases hk : k < rJ.length
    · left
      rw [List.drop_append_of_le_length (by omega)]
      refine hmi_none _ ?_
      exact hnotacc (rJ.drop k) (hdeadJ k hk) _
    · have hkk : k = rJ.length + (k - rJ.length) := by omega
      rw [hkk, List.drop_append]
      refine ih ?_ (k - rJ.length)
      have hdc := CleanPos_drop mi rI (flatI (.blk jm :: rest)) hclean
        jm.length
      rw [show flatI (Seg.blk jm :: rest) = jm ++ flatI rest from rfl,
        List.drop_left] at hdc
      exact hdc

/-- Self-cleanliness of a URL substitution pass. -/
theorem url_self (Li : List Char) (mi : List Char → Option Nat)
    (rI : List Char)
    (hiff : ∀ cs, (mi cs).isSome = true ↔
      runD urlStep (.lit Li) cs = .accept)
    (hpos : ∀ cs n, mi cs = some n → 1 ≤ n)
    (hexact : ∀ X, mi (rI ++ X) = some rI.length)
    (hdeadMid : ∀ d, 1 ≤ d → d < rI.length →
      runD urlStep (.lit Li) (rI.drop d) = .dead)
    (htransfer : ∀ segs, ScanWf mi segs →
      runD urlStep (.lit Li) (flatR rI segs) = .accept →
      runD urlStep (.lit Li) (flatI segs) = .accept) :
    ∀ segs, ScanWf mi segs → CleanPos mi rI (flatR rI segs) := by
  have hnotacc : ∀ X : List Char, runD urlStep (.lit Li) X = .dead →
      ∀ Y, runD urlStep (.lit Li) (X ++ Y) ≠ .accept := by
    intro X hX Y
    rw [runD_append, hX, run_url_dead]
    exact fun hc => UrlSt.noConfusion hc
  have hmi_none : ∀ X : List Char,
      runD urlStep (.lit Li) X ≠ .accept → mi X = none := by
    intro X hX
    cases hmi : mi X with
    | none => rfl
    | some v =>
      exfalso
      exact hX ((hiff X).mp (by rw [hmi]; rfl))
  intro segs hwf
  induction hwf with
  | nil =>
    intro k
    left
    rw [show flatR rI ([] : List Seg) = [] from rfl, List.drop_nil]
    refine hmi_none [] ?_
    intro hc
    exact UrlSt.noConfusion hc
  | chr c rest hm hwfr ih =>
    intro k
    cases k with
    | zero =>
      rw [List.drop_zero]
      have hnone : mi (c :: flatI rest) = none := by
        rcases hm with hn | h0
        · exact hn
        · exfalso
          have hp := hpos _ 0 h0
          omega
      left
      show mi (flatR rI (.chr c :: rest)) = none
      refine hmi_none _ ?_
      intro hacc2
      have htr := htransfer (.chr c :: rest)
        (ScanWf.chr c rest hm hwfr) hacc2
      have hthis : (mi (c :: flatI rest)).isSome = true :=
        (hiff _).mpr htr
      rw [hnone] at hthis
      exact Bool.noConfusion hthis
    | succ k =>
      rw [show flatR rI (Seg.chr c :: rest) = c :: flatR rI rest from rfl,
        List.drop_succ_cons]
      exact ih k
  | blk jm rest hmj2 hlen1 hwfr ih =>
    intro k
    rw [show flatR rI (Seg.blk jm :: rest) = rI ++ flatR rI rest from rfl]
    by_cases hk0 : k = 0
    · subst hk0
      right
      rw [List.drop_zero]
      exact ⟨hexact _, List.take_left rI _⟩
    · by_cases hk : k < rI.length
      · left
        rw [List.drop_append_of_le_length (by omega)]
        refine hmi_none _ ?_
        exact hnotacc (rI.drop k) (hdeadMid k (by omega) hk) _
      · have hkk : k = rI.length + (k - rI.length) := by omega
        rw [hkk, List.drop_append]
        exact ih (k - rI.length)

/-! ### From segment-level lemmas to scan-level lemmas -/

theorem lit_head_pos (s : List Char) (hs : s ≠ []) (R : List Pat) :
    ∀ cs n, matchPats (.lit s :: R) cs = some n → 1 ≤ n := by
  intro cs n h
  have h1 := (lit_head_ci s R cs n h).1
  have h2 : 0 < s.length := List.length_pos.mpr hs
  omega

theorem none_of_dead {σ : Type} (step : σ → Char → σ) (s0 acc dd : σ)
    (hddstep : ∀ c, step dd c = dd) (hne : acc ≠ dd)
    (mj : List Char → Option Nat)
    (hiffj : ∀ cs, (mj cs).isSome = true ↔ runD step s0 cs = acc)
    (P X : List Char) (hd : runD step s0 P = dd) : mj (P ++ X) = none := by
  cases hmj : mj (P ++ X) with
  | none => rfl
  | some v =>
    exfalso
    have h := (hiffj _).mp (by rw [hmj]; rfl)
    rw [runD_append, hd, runD_fixed step dd hddstep] at h
    exact hne h.symm

theorem preserve_scan (mi mj : List Char → Option Nat) (rI rJ : List Char)
    (hbj : ∀ cs n, mj cs = some n → n ≤ cs.length)
    (hP : ∀ segs, ScanWf mj segs → CleanPos mi rI (flatI segs) →
      CleanPos mi rI (flatR rJ segs)) :
    ∀ t, CleanPos mi rI t → CleanPos mi rI (scanSub mj rJ t) := by
  intro t hc
  obtain ⟨segs, hwf, hflat, hscan⟩ := scan_to_segs mj hbj rJ t
  rw [hscan]
  refine hP segs hwf ?_
  rw [hflat]
  exact hc

theorem self_scan (mi : List Char → Option Nat) (rI : List Char)
    (hbi : ∀ cs n, mi cs = some n → n ≤ cs.length)
    (hP : ∀ segs, ScanWf mi segs → CleanPos mi rI (flatR rI segs)) :
    ∀ t, CleanPos mi rI (scanSub mi rI t) := by
  intro t
  obtain ⟨segs, hwf, hflat, hscan⟩ := scan_to_segs mi hbi rI t
  rw [hscan]
  exact hP segs hwf

/-! ### Per-family cleanliness wrappers -/

theorem kw_self_clean (K : List Char) (tcl : Char → Bool) (rI : List Char)
    (hK : K ≠ [])
    (htcl : ∀ c, tcl (Char.toLower c) = tcl c)
    (hcheck : ∀ s ∈ kwStates K, runD (kwStep tcl) s rI = .dead ∨
      ∃ p ∈ List.range (K.length + 1),
        runD (kwStep tcl) s (rI.take p) = .accept ∧
        (rI.take p).map Char.toLower = K.take p)
    (hdead : ∀ d, d < rI.length →
      runD (kwStep tcl) (.lit K) (rI.drop d) = .dead) :
    ∀ t, CleanPos (matchPats [.lit K, .plus isSepChar, .plus tcl]) rI
      (scanSub (matchPats [.lit K, .plus isSepChar, .plus tcl]) rI t) := by
  refine self_scan _ rI (matchPats_le _) ?_
  refine window_self (kwStep tcl) (.lit K) .accept .dead (kwStates K)
    _ rI K (fun _ => rfl) (fun _ => rfl) (by decide)
    (fun h => KwSt.noConfusion h) ?_ (kwStates_closure K tcl)
    (kwStep_lower tcl htcl)
    (fun cs => (kw_run_iff tcl cs (.lit K)).symm)
    (lit_head_pos K hK _) (lit_head_ci_jm K _) hcheck hdead
  exact List.mem_append.mpr (Or.inl (List.mem_map.mpr
    ⟨K, (List.mem_tails K K).mpr (List.suffix_refl K), rfl⟩))

theorem kw_preserve_clean (K : List Char) (tcl : Char → Bool)
    (rI : List Char)
    (htcl : ∀ c, tcl (Char.toLower c) = tcl c)
    (hdeadI : runD (kwStep tcl) (.lit K) rI = .dead)
    (mj : List Char → Option Nat) (rJ L1j : List Char)
    (hbj : ∀ cs n, mj cs = some n → n ≤ cs.length)
    (hL1 : ∀ jm X, mj (jm ++ X) = some jm.length → 1 ≤ jm.length →
      L1j.length ≤ jm.length ∧ (jm.take L1j.length).map Char.toLower = L1j)
    (hcheck : ∀ s ∈ kwStates K, runD (kwStep tcl) s rJ = .dead ∨
      ∃ p ∈ List.range (L1j.length + 1),
        runD (kwStep tcl) s (rJ.take p) = .accept ∧
        (rJ.take p).map Char.toLower = L1j.take p)
    (hdeadJ : ∀ d, d < rJ.length →
      runD (kwStep tcl) (.lit K) (rJ.drop d) = .dead) :
    ∀ t, CleanPos (matchPats [.lit K, .plus isSepChar, .plus tcl]) rI t →
      CleanPos (matchPats [.lit K, .plus isSepChar, .plus tcl]) rI
        (scanSub mj rJ t) := by
  refine preserve_scan _ mj rI rJ hbj ?_
  refine window_preserve (kwStep tcl) (.lit K) .accept .dead (kwStates K)
    _ mj rI rJ L1j (fun _ => rfl) (fun _ => rfl) (by decide)
    (fun h => KwSt.noConfusion h) ?_ (kwStates_closure K tcl)
    (kwStep_lower tcl htcl)
    (fun cs => (kw_run_iff tcl cs (.lit K)).symm)
    hL1 hcheck hdeadJ hdeadI
  exact List.mem_append.mpr (Or.inl (List.mem_map.mpr
    ⟨K, (List.mem_tails K K).mpr (List.suffix_refl K), rfl⟩))

theorem api_self_clean (rI : List Char)
    (hcheck : ∀ s ∈ apiStates, runD apiStep s rI = .dead ∨
      ∃ p ∈ List.range ("api".toList.length + 1),
        runD apiStep s (rI.take p) = .accept ∧
        (rI.take p).map Char.toLower = "api".toList.take p)
    (hdead : ∀ d, d < rI.length →
      runD apiStep (.litA "api".toList) (rI.drop d) = .dead) :
    ∀ t, CleanPos (matchPats [.lit "api".toList, .optc ['_', '-'],
        .lit "key".toList, .plus isSepChar, .plus isKwTailChar]) rI
      (scanSub (matchPats [.lit "api".toList, .optc ['_', '-'],
        .lit "key".toList, .plus isSepChar, .plus isKwTailChar]) rI t) := by
  refine self_scan _ rI (matchPats_le _) ?_
  refine window_self apiStep (.litA "api".toList) .accept .dead apiStates
    _ rI "api".toList (fun _ => rfl) (fun _ => rfl) (by decide)
    (fun h => ApiSt.noConfusion h) (by decide) apiStates_closure
    apiStep_lower
    (fun cs => (api_run_iff cs (.litA "api".toList)).symm)
    (lit_head_pos "api".toList (by decide) _)
    (lit_head_ci_jm "api".toList _) hcheck hdead

theorem api_preserve_clean (rI : List Char)
    (hdeadI : runD apiStep (.litA "api".toList) rI = .dead)
    (mj : List Char → Option Nat) (rJ L1j : List Char)
    (hbj : ∀ cs n, mj cs = some n → n ≤ cs.length)
    (hL1 : ∀ jm X, mj (jm ++ X) = some jm.length → 1 ≤ jm.length →
      L1j.length ≤ jm.length ∧ (jm.take L1j.length).map Char.toLower = L1j)
    (hcheck : ∀ s ∈ apiStates, runD apiStep s rJ = .dead ∨
      ∃ p ∈ List.range (L1j.length + 1),
        runD apiStep s (rJ.take p) = .accept ∧
        (rJ.take p).map Char.toLower = L1j.take p)
    (hdeadJ : ∀ d, d < rJ.length →
      runD apiStep (.litA "api".toList) (rJ.drop d) = .dead) :
    ∀ t, CleanPos (matchPats [.lit "api".toList, .optc ['_', '-'],
        .lit "key".toList, .plus isSepChar, .plus isKwTailChar]) rI t →
      CleanPos (matchPats [.lit "api".toList, .optc ['_', '-'],
        .lit "key".toList, .plus isSepChar, .plus isKwTailChar]) rI
        (scanSub mj rJ t) := by
  refine preserve_scan _ mj rI rJ hbj ?_
  refine window_preserve apiStep (.litA "api".toList) .accept .dead
    apiStates _ mj rI rJ L1j (fun _ => rfl) (fun _ => rfl) (by decide)
    (fun h => ApiSt.noConfusion h) (by decide) apiStates_closure
    apiStep_lower
    (fun cs => (api_run_iff cs (.litA "api".toList)).symm)
    hL1 hcheck hdeadJ hdeadI

theorem ak_self_clean (rI : List Char)
    (hcheck : ∀ s ∈ akStates, runD akStep s rI = .dead ∨
      ∃ p ∈ List.range ("akia".toList.length + 1),
        runD akStep s (rI.take p) = .accept ∧
        (rI.take p).map Char.toLower = "akia".toList.take p)
    (hdead : ∀ d, d < rI.length →
      runD akStep (.lit "akia".toList) (rI.drop d) = .dead) :
    ∀ t, CleanPos (matchPats [.lit "akia".toList,
        .exactly 16 isAlnumChar]) rI
      (scanSub (matchPats [.lit "akia".toList,
        .exactly 16 isAlnumChar]) rI t) := by
  refine self_scan _ rI (matchPats_le _) ?_
  refine window_self akStep (.lit "akia".toList) .accept .dead akStates
    _ rI "akia".toList (fun _ => rfl) (fun _ => rfl) (by decide)
    (fun h => AkSt.noConfusion h) (by decide) akStates_closure
    akStep_lower
    (fun cs => (ak_run_iff cs (.lit "akia".toList)).symm)
    (lit_head_pos "akia".toList (by decide) _)
    (lit_head_ci_jm "akia".toList _) hcheck hdead

theorem ak_preserve_clean (rI : List Char)
    (hdeadI : runD akStep (.lit "akia".toList) rI = .dead)
    (mj : List Char → Option Nat) (rJ L1j : List Char)
    (hbj : ∀ cs n, mj cs = some n → n ≤ cs.length)
    (hL1 : ∀ jm X, mj (jm ++ X) = some jm.length → 1 ≤ jm.length →
      L1j.length ≤ jm.length ∧ (jm.take L1j.length).map Char.toLower = L1j)
    (hcheck : ∀ s ∈ akStates, runD akStep s rJ = .dead ∨
      ∃ p ∈ List.range (L1j.length + 1),
        runD akStep s (rJ.take p) = .accept ∧
        (rJ.take p).map Char.toLower = L1j.take p)
    (hdeadJ : ∀ d, d < rJ.length →
      runD akStep (.lit "akia".toList) (rJ.drop d) = .dead) :
    ∀ t, CleanPos (matchPats [.lit "akia".toList,
        .exactly 16 isAlnumChar]) rI t →
      CleanPos (matchPats [.lit "akia".toList,
        .exactly 16 isAlnumChar]) rI (scanSub mj rJ t) := by
  refine preserve_scan _ mj rI rJ hbj ?_
  refine window_preserve akStep (.lit "akia".toList) .accept .dead
    akStates _ mj rI rJ L1j (fun _ => rfl) (fun _ => rfl) (by decide)
    (fun h => AkSt.noConfusion h) (by decide) akStates_closure
    akStep_lower
    (fun cs => (ak_run_iff cs (.lit "akia".toList)).symm)
    hL1 hcheck hdeadJ hdeadI

theorem sanitizeChars_eq_t11 (cs : List Char) : sanitizeChars cs = t11 cs :=
  rfl

theorem clean1 : ∀ cs, CleanPos (matchPats (kwPattern "password"))
    "password=***".toList (t11 cs) :=
  fun cs =>
  have hself := kw_self_clean "password".toList isKwTailChar
    "password=***".toList (by decide) isKwTailChar_toLower (by decide) (by decide)
  have hp2 := kw_preserve_clean "password".toList isKwTailChar
    "password=***".toList isKwTailChar_toLower (by decide)
    (matchPats [.lit "token".toList, .plus isSepChar, .plus isKwTailChar])
    "token=***".toList "token".toList
    (matchPats_le _) (lit_head_ci_jm "token".toList _)
    (by decide) (by decide)
  have hp3 := kw_preserve_clean "password".toList isKwTailChar
    "password=***".toList isKwTailChar_toLower (by decide)
    (matchPats [.lit "key".toList, .plus isSepChar, .plus isKwTailChar])
    "key=***".toList "key".toList
    (matchPats_le _) (lit_head_ci_jm "key".toList _)
    (by decide) (by decide)
  have hp4 := kw_preserve_clean "password".toList isKwTailChar
    "password=***".toList isKwTailChar_toLower (by decide)
    (matchPats [.lit "secret".toList, .plus isSepChar, .plus isKwTailChar])
    "secret=***".toList "secret".toList
    (matchPats_le _) (lit_head_ci_jm "secret".toList _)
    (by decide) (by decide)
  have hp5 := kw_preserve_clean "password".toList isKwTailChar
    "password=***".toList isKwTailChar_toLower (by decide)
    (matchPats [.lit "api".toList, .optc ['_', '-'], .lit "key".toList,
      .plus isSepChar, .plus isKwTailChar])
    "api_key=***".toList "api".toList
    (matchPats_le _) (lit_head_ci_jm "api".toList _)
    (by decide) (by decide)
  have hp6 := kw_preserve_clean "password".toList isKwTailChar
    "password=***".toList isKwTailChar_toLower (by decide)
    (matchPats [.lit "postgresql://".toList, .plus (fun c => c != ':'),
      .lit ":".toList, .plus (fun c => c != '@'), .lit "@".toList])
    "postgresql://***:***@".toList "postgresql://".toList
    (matchPats_le _) (lit_head_ci_jm "postgresql://".toList _)
    (by decide) (by decide)
  have hp7 := kw_preserve_clean "password".toList isKwTailChar
    "password=***".toList isKwTailChar_toLower (by decide)
    (matchPats [.lit "mysql://".toList, .plus (fun c => c != ':'),
      .lit ":".toList, .plus (fun c => c != '@'), .lit "@".toList])
    "mysql://***:***@".toList "mysql://".toList
    (matchPats_le _) (lit_head_ci_jm "mysql://".toList _)
    (by decide) (by decide)
  have hp8 := kw_preserve_clean "password".toList isKwTailChar
    "password=***".toList isKwTailChar_toLower (by decide)
    (matchPats [.lit "mongodb://".toList, .plus (fun c => c != ':'),
      .lit ":".toList, .plus (fun c => c != '@'), .lit "@".toList])
    "mongodb://***:***@".toList "mongodb://".toList
    (matchPats_le _) (lit_head_ci_jm "mongodb://".toList _)
    (by decide) (by decide)
  have hp9 := kw_preserve_clean "password".toList isKwTailChar
    "password=***".toList isKwTailChar_toLower (by decide)
    (matchPats [.lit "redis://".toList, .plus (fun c => c != ':'),
      .lit ":".toList, .plus (fun c => c != '@'), .lit "@".toList])
    "redis://***:***@".toList "redis://".toList
    (matchPats_le _) (lit_head_ci_jm "redis://".toList _)
    (by decide) (by decide)
  have hp10 := kw_preserve_clean "password".toList isKwTailChar
    "password=***".toList isKwTailChar_toLower (by decide)
    (matchPats [.lit "akia".toList, .exactly 16 isAlnumChar])
    "AKIA***".toList "akia".toList
    (matchPats_le _) (lit_head_ci_jm "akia".toList _)
    (by decide) (by decide)
  have hp11 := kw_preserve_clean "password".toList isKwTailChar
    "password=***".toList isKwTailChar_toLower (by decide)
    (matchPats [.lit "aws_secret_access_key".toList, .plus isSepChar, .plus isAwsTailChar])
    "aws_secret_access_key=***".toList "aws_secret_access_key".toList
    (matchPats_le _) (lit_head_ci_jm "aws_secret_access_key".toList _)
    (by decide) (by decide)
  hp11 _ (hp10 _ (hp9 _ (hp8 _ (hp7 _ (hp6 _ (hp5 _ (hp4 _ (hp3 _ (hp2 _ (hself cs))))))))))

theorem clean2 : ∀ cs, CleanPos (matchPats (kwPattern "token"))
    "token=***".toList (t11 cs) := by
  intro cs
  have hself := kw_self_clean "token".toList isKwTailChar
    "token=***".toList (by decide) isKwTailChar_toLower (by decide) (by decide)
  have hp3 := kw_preserve_clean "token".toList isKwTailChar
    "token=***".toList isKwTailChar_toLower (by decide)
    (matchPats [.lit "key".toList, .plus isSepChar, .plus isKwTailChar])
    "key=***".toList "key".toList
    (matchPats_le _) (lit_head_ci_jm "key".toList _)
    (by decide) (by decide)
  have hp4 := kw_preserve_clean "token".toList isKwTailChar
    "token=***".toList isKwTailChar_toLower (by decide)
    (matchPats [.lit "secret".toList, .plus isSepChar, .plus isKwTailChar])
    "secret=***".toList "secret".toList
    (matchPats_le _) (lit_head_ci_jm "secret".toList _)
    (by decide) (by decide)
  have hp5 := kw_preserve_clean "token".toList isKwTailChar
    "token=***".toList isKwTailChar_toLower (by decide)
    (matchPats [.lit "api".toList, .optc ['_', '-'], .lit "key".toList,
      .plus isSepChar, .plus isKwTailChar])
    "api_key=***".toList "api".toList
    (matchPats_le _) (lit_head_ci_jm "api".toList _)
    (by decide) (by decide)
  have hp6 := kw_preserve_clean "token".toList isKwTailChar
    "token=***".toList isKwTailChar_toLower (by decide)
    (matchPats [.lit "postgresql://".toList, .plus (fun c => c != ':'),
      .lit ":".toList, .plus (fun c => c != '@'), .lit "@".toList])
    "postgresql://***:***@".toList "postgresql://".toList
    (matchPats_le _) (lit_head_ci_jm "postgresql://".toList _)
    (by decide) (by decide)
  have hp7 := kw_preserve_clean "token".toList isKwTailChar
    "token=***".toList isKwTailChar_toLower (by decide)
    (matchPats [.lit "mysql://".toList, .plus (fun c => c != ':'),
      .lit ":".toList, .plus (fun c => c != '@'), .lit "@".toList])
    "mysql://***:***@".toList "mysql://".toList
    (matchPats_le _) (lit_head_ci_jm "mysql://".toList _)
    (by decide) (by decide)
  have hp8 := kw_preserve_clean "token".toList isKwTailChar
    "token=***".toList isKwTailChar_toLower (by decide)
    (matchPats [.lit "mongodb://".toList, .plus (fun c => c != ':'),
      .lit ":".toList, .plus (fun c => c != '@'), .lit "@".toList])
    "mongodb://***:***@".toList "mongodb://".toList
    (matchPats_le _) (lit_head_ci_jm "mongodb://".toList _)
    (by decide) (by decide)
  have hp9 := kw_preserve_clean "token".toList isKwTailChar
    "token=***".toList isKwTailChar_toLower (by decide)
    (matchPats [.lit "redis://".toList, .plus (fun c => c != ':'),
      .lit ":".toList, .plus (fun c => c != '@'), .lit "@".toList])
    "redis://***:***@".toList "redis://".toList
    (matchPats_le _) (lit_head_ci_jm "redis://".toList _)
    (by decide) (by decide)
  have hp10 := kw_preserve_clean "token".toList isKwTailChar
    "token=***".toList isKwTailChar_toLower (by decide)
    (matchPats [.lit "akia".toList, .exactly 16 isAlnumChar])
    "AKIA***".toList "akia".toList
    (matchPats_le _) (lit_head_ci_jm "akia".toList _)
    (by decide) (by decide)
  have hp11 := kw_preserve_clean "token".toList isKwTailChar
    "token=***".toList isKwTailChar_toLower (by decide)
    (matchPats [.lit "aws_secret_access_key".toList, .plus isSepChar, .plus isAwsTailChar])
    "aws_secret_access_key=***".toList "aws_secret_access_key".toList
    (matchPats_le _) (lit_head_ci_jm "aws_secret_access_key".toList _)
    (by decide) (by decide)
  exact hp11 _ (hp10 _ (hp9 _ (hp8 _ (hp7 _ (hp6 _ (hp5 _ (hp4 _ (hp3 _ (hself (t1 cs))))))))))

theorem clean3 : ∀ cs, CleanPos (matchPats (kwPattern "key"))
    "key=***".toList (t11 cs) := by
  intro cs
  have hself := kw_self_clean "key".toList isKwTailChar
    "key=***".toList (by decide) isKwTailChar_toLower (by decide) (by decide)
  have hp4 := kw_preserve_clean "key".toList isKwTailChar
    "key=***".toList isKwTailChar_toLower (by decide)
    (matchPats [.lit "secret".toList, .plus isSepChar, .plus isKwTailChar])
    "secret=***".toList "secret".toList
    (matchPats_le _) (lit_head_ci_jm "secret".toList _)
    (by decide) (by decide)
  have hp5 := kw_preserve_clean "key".toList isKwTailChar
    "key=***".toList isKwTailChar_toLower (by decide)
    (matchPats [.lit "api".toList, .optc ['_', '-'], .lit "key".toList,
      .plus isSepChar, .plus isKwTailChar])
    "api_key=***".toList "api".toList
    (matchPats_le _) (lit_head_ci_jm "api".toList _)
    (by decide) (by decide)
  have hp6 := kw_preserve_clean "key".toList isKwTailChar
    "key=***".toList isKwTailChar_toLower (by decide)
    (matchPats [.lit "postgresql://".toList, .plus (fun c => c != ':'),
      .lit ":".toList, .plus (fun c => c != '@'), .lit "@".toList])
    "postgresql://***:***@".toList "postgresql://".toList
    (matchPats_le _) (lit_head_ci_jm "postgresql://".toList _)
    (by decide) (by decide)
  have hp7 := kw_preserve_clean "key".toList isKwTailChar
    "key=***".toList isKwTailChar_toLower (by decide)
    (matchPats [.lit "mysql://".toList, .plus (fun c => c != ':'),
      .lit ":".toList, .plus (fun c => c != '@'), .lit "@".toList])
    "mysql://***:***@".toList "mysql://".toList
    (matchPats_le _) (lit_head_ci_jm "mysql://".toList _)
    (by decide) (by decide)
  have hp8 := kw_preserve_clean "key".toList isKwTailChar
    "key=***".toList isKwTailChar_toLower (by decide)
    (matchPats [.lit "mongodb://".toList, .plus (fun c => c != ':'),
      .lit ":".toList, .plus (fun c => c != '@'), .lit "@".toList])
    "mongodb://***:***@".toList "mongodb://".toList
    (matchPats_le _) (lit_head_ci_jm "mongodb://".toList _)
    (by decide) (by decide)
  have hp9 := kw_preserve_clean "key".toList isKwTailChar
    "key=***".toList isKwTailChar_toLower (by decide)
    (matchPats [.lit "redis://".toList, .plus (fun c => c != ':'),
      .lit ":".toList, .plus (fun c => c != '@'), .lit "@".toList])
    "redis://***:***@".toList "redis://".toList
    (matchPats_le _) (lit_head_ci_jm "redis://".toList _)
    (by decide) (by decide)
  have hp10 := kw_preserve_clean "key".toList isKwTailChar
    "key=***".toList isKwTailChar_toLower (by decide)
    (matchPats [.lit "akia".toList, .exactly 16 isAlnumChar])
    "AKIA***".toList "akia".toList
    (matchPats_le _) (lit_head_ci_jm "akia".toList _)
    (by decide) (by decide)
  have hp11 := kw_preserve_clean "key".toList isKwTailChar
    "key=***".toList isKwTailChar_toLower (by decide)
    (matchPats [.lit "aws_secret_access_key".toList, .plus isSepChar, .plus isAwsTailChar])
    "aws_secret_access_key=***".toList "aws_secret_access_key".toList
    (matchPats_le _) (lit_head_ci_jm "aws_secret_access_key".toList _)
    (by decide) (by decide)
  exact hp11 _ (hp10 _ (hp9 _ (hp8 _ (hp7 _ (hp6 _ (hp5 _ (hp4 _ (hself (t2 cs)))))))))

theorem clean4 : ∀ cs, CleanPos (matchPats (kwPattern "secret"))
    "secret=***".toList (t11 cs) := by
  intro cs
  have hself := kw_self_clean "secret".toList isKwTailChar
    "secret=***".toList (by decide) isKwTailChar_toLower (by decide) (by decide)
  have hp5 := kw_preserve_clean "secret".toList isKwTailChar
    "secret=***".toList isKwTailChar_toLower (by decide)
    (matchPats [.lit "api".toList, .optc ['_', '-'], .lit "key".toList,
      .plus isSepChar, .plus isKwTailChar])
    "api_key=***".toList "api".toList
    (matchPats_le _) (lit_head_ci_jm "api".toList _)
    (by decide) (by decide)
  have hp6 := kw_preserve_clean "secret".toList isKwTailChar
    "secret=***".toList isKwTailChar_toLower (by decide)
    (matchPats [.lit "postgresql://".toList, .plus (fun c => c != ':'),
      .lit ":".toList, .plus (fun c => c != '@'), .lit "@".toList])
    "postgresql://***:***@".toList "postgresql://".toList
    (matchPats_le _) (lit_head_ci_jm "postgresql://".toList _)
    (by decide) (by decide)
  have hp7 := kw_preserve_clean "secret".toList isKwTailChar
    "secret=***".toList isKwTailChar_toLower (by decide)
    (matchPats [.lit "mysql://".toList, .plus (fun c => c != ':'),
      .lit ":".toList, .plus (fun c => c != '@'), .lit "@".toList])
    "mysql://***:***@".toList "mysql://".toList
    (matchPats_le _) (lit_head_ci_jm "mysql://".toList _)
    (by decide) (by decide)
  have hp8 := kw_preserve_clean "secret".toList isKwTailChar
    "secret=***".toList isKwTailChar_toLower (by decide)
    (matchPats [.lit "mongodb://".toList, .plus (fun c => c != ':'),
      .lit ":".toList, .plus (fun c => c != '@'), .lit "@".toList])
    "mongodb://***:***@".toList "mongodb://".toList
    (matchPats_le _) (lit_head_ci_jm "mongodb://".toList _)
    (by decide) (by decide)
  have hp9 := kw_preserve_clean "secret".toList isKwTailChar
    "secret=***".toList isKwTailChar_toLower (by decide)
    (matchPats [.lit "redis://".toList, .plus (fun c => c != ':'),
      .lit ":".toList, .plus (fun c => c != '@'), .lit "@".toList])
    "redis://***:***@".toList "redis://".toList
    (matchPats_le _) (lit_head_ci_jm "redis://".toList _)
    (by decide) (by decide)
  have hp10 := kw_preserve_clean "secret".toList isKwTailChar
    "secret=***".toList isKwTailChar_toLower (by decide)
    (matchPats [.lit "akia".toList, .exactly 16 isAlnumChar])
    "AKIA***".toList "akia".toList
    (matchPats_le _) (lit_head_ci_jm "akia".toList _)
    (by decide) (by decide)
  have hp11 := kw_preserve_clean "secret".toList isKwTailChar
    "secret=***".toList isKwTailChar_toLower (by decide)
    (matchPats [.lit "aws_secret_access_key".toList, .plus isSepChar, .plus isAwsTailChar])
    "aws_secret_access_key=***".toList "aws_secret_access_key".toList
    (matchPats_le _) (lit_head_ci_jm "aws_secret_access_key".toList _)
    (by decide) (by decide)
  exact hp11 _ (hp10 _ (hp9 _ (hp8 _ (hp7 _ (hp6 _ (hp5 _ (hself (t3 cs))))))))

theorem clean5 : ∀ cs, CleanPos (matchPats apiKeyPattern)
    "api_key=***".toList (t11 cs) := by
  intro cs
  have hself := api_self_clean "api_key=***".toList (by decide) (by decide)
  have hp6 := api_preserve_clean "api_key=***".toList (by decide)
    (matchPats [.lit "postgresql://".toList, .plus (fun c => c != ':'),
      .lit ":".toList, .plus (fun c => c != '@'), .lit "@".toList])
    "postgresql://***:***@".toList "postgresql://".toList
    (matchPats_le _) (lit_head_ci_jm "postgresql://".toList _)
    (by decide) (by decide)
  have hp7 := api_preserve_clean "api_key=***".toList (by decide)
    (matchPats [.lit "mysql://".toList, .plus (fun c => c != ':'),
      .lit ":".toList, .plus (fun c => c != '@'), .lit "@".toList])
    "mysql://***:***@".toList "mysql://".toList
    (matchPats_le _) (lit_head_ci_jm "mysql://".toList _)
    (by decide) (by decide)
  have hp8 := api_preserve_clean "api_key=***".toList (by decide)
    (matchPats [.lit "mongodb://".toList, .plus (fun c => c != ':'),
      .lit ":".toList, .plus (fun c => c != '@'), .lit "@".toList])
    "mongodb://***:***@".toList "mongodb://".toList
    (matchPats_le _) (lit_head_ci_jm "mongodb://".toList _)
    (by decide) (by decide)
  have hp9 := api_preserve_clean "api_key=***".toList (by decide)
    (matchPats [.lit "redis://".toList, .plus (fun c => c != ':'),
      .lit ":".toList, .plus (fun c => c != '@'), .lit "@".toList])
    "redis://***:***@".toList "redis://".toList
    (matchPats_le _) (lit_head_ci_jm "redis://".toList _)
    (by decide) (by decide)
  have hp10 := api_preserve_clean "api_key=***".toList (by decide)
    (matchPats [.lit "akia".toList, .exactly 16 isAlnumChar])
    "AKIA***".toList "akia".toList
    (matchPats_le _) (lit_head_ci_jm "akia".toList _)
    (by decide) (by decide)
  have hp11 := api_preserve_clean "api_key=***".toList (by decide)
    (matchPats [.lit "aws_secret_access_key".toList, .plus isSepChar, .plus isAwsTailChar])
    "aws_secret_access_key=***".toList "aws_secret_access_key".toList
    (matchPats_le _) (lit_head_ci_jm "aws_secret_access_key".toList _)
    (by decide) (by decide)
  exact hp11 _ (hp10 _ (hp9 _ (hp8 _ (hp7 _ (hp6 _ (hself (t4 cs)))))))

theorem clean10 : ∀ cs, CleanPos (matchPats akiaPattern)
    "AKIA***".toList (t11 cs) := by
  intro cs
  have hself := ak_self_clean "AKIA***".toList (by decide) (by decide)
  have hp11 := ak_preserve_clean "AKIA***".toList (by decide)
    (matchPats [.lit "aws_secret_access_key".toList, .plus isSepChar,
      .plus isAwsTailChar])
    "aws_secret_access_key=***".toList "aws_secret_access_key".toList
    (matchPats_le _)
    (lit_head_ci_jm "aws_secret_access_key".toList _)
    (by decide) (by decide)
  exact hp11 _ (hself (t9 cs))

theorem clean11 : ∀ cs, CleanPos (matchPats awsPattern)
    "aws_secret_access_key=***".toList (t11 cs) := by
  intro cs
  have hself := kw_self_clean "aws_secret_access_key".toList isAwsTailChar
    "aws_secret_access_key=***".toList (by decide) isAwsTailChar_toLower
    (by decide) (by decide)
  exact hself (t10 cs)

theorem clean6 : ∀ cs, CleanPos (matchPats (urlPattern "postgresql"))
    "postgresql://***:***@".toList (t11 cs) := by
  intro cs
  have hself := self_scan (matchPats [.lit "postgresql://".toList, .plus (fun c => c != ':'),
      .lit ":".toList, .plus (fun c => c != '@'), .lit "@".toList]) "postgresql://***:***@".toList (matchPats_le _)
    (url_self "postgresql://".toList (matchPats [.lit "postgresql://".toList, .plus (fun c => c != ':'),
      .lit ":".toList, .plus (fun c => c != '@'), .lit "@".toList]) "postgresql://***:***@".toList
      (fun cs => (url_run_iff cs (.lit "postgresql://".toList)).symm)
      (lit_head_pos "postgresql://".toList (by decide) _)
      (fun X => url_match_exact "postgresql://".toList (by decide) X)
      (by decide)
      (fun segs hwf => urlA_transfer "postgresql://".toList "postgresql://".toList
        "postgresql".toList "postgresql://***:***@".toList (matchPats [.lit "postgresql://".toList, .plus (fun c => c != ':'),
      .lit ":".toList, .plus (fun c => c != '@'), .lit "@".toList])
        (by decide) (by decide) (by decide)
        (fun jm X h hl => url_jm_decomp "postgresql://".toList jm X h)
        (by decide) segs hwf (.lit "postgresql://".toList) (by decide)))
  have hnd7 : ∀ d, d < "postgresql://***:***@".toList.length →
      runD urlStep (.lit "mysql://".toList) ("postgresql://***:***@".toList.drop d) = .dead := by
    decide
  have hp7 := preserve_scan (matchPats [.lit "postgresql://".toList, .plus (fun c => c != ':'),
      .lit ":".toList, .plus (fun c => c != '@'), .lit "@".toList]) (matchPats [.lit "mysql://".toList, .plus (fun c => c != ':'),
      .lit ":".toList, .plus (fun c => c != '@'), .lit "@".toList])
    "postgresql://***:***@".toList "mysql://***:***@".toList (matchPats_le _)
    (url_preserve "postgresql://".toList (matchPats [.lit "postgresql://".toList, .plus (fun c => c != ':'),
      .lit ":".toList, .plus (fun c => c != '@'), .lit "@".toList]) (matchPats [.lit "mysql://".toList, .plus (fun c => c != ':'),
      .lit ":".toList, .plus (fun c => c != '@'), .lit "@".toList])
      "postgresql://***:***@".toList "mysql://***:***@".toList
      (fun cs => (url_run_iff cs (.lit "postgresql://".toList)).symm)
      (fun X => url_match_exact "postgresql://".toList (by decide) X)
      (fun d hd X => none_of_dead urlStep (.lit "mysql://".toList) .accept .dead
        (fun _ => rfl) (by decide) (matchPats [.lit "mysql://".toList, .plus (fun c => c != ':'),
      .lit ":".toList, .plus (fun c => c != '@'), .lit "@".toList]) (fun cs => (url_run_iff cs (.lit "mysql://".toList)).symm)
        ("postgresql://***:***@".toList.drop d) X (hnd7 d hd))
      (by decide)
      (fun segs hwf => urlA_transfer "postgresql://".toList "mysql://".toList
        "mysql".toList "mysql://***:***@".toList (matchPats [.lit "mysql://".toList, .plus (fun c => c != ':'),
      .lit ":".toList, .plus (fun c => c != '@'), .lit "@".toList])
        (by decide) (by decide) (by decide)
        (fun jm X h hl => url_jm_decomp "mysql://".toList jm X h)
        (by decide) segs hwf (.lit "postgresql://".toList) (by decide)))
  have hnd8 : ∀ d, d < "postgresql://***:***@".toList.length →
      runD urlStep (.lit "mongodb://".toList) ("postgresql://***:***@".toList.drop d) = .dead := by
    decide
  have hp8 := preserve_scan (matchPats [.lit "postgresql://".toList, .plus (fun c => c != ':'),
      .lit ":".toList, .plus (fun c => c != '@'), .lit "@".toList]) (matchPats [.lit "mongodb://".toList, .plus (fun c => c != ':'),
      .lit ":".toList, .plus (fun c => c != '@'), .lit "@".toList])
    "postgresql://***:***@".toList "mongodb://***:***@".toList (matchPats_le _)
    (url_preserve "postgresql://".toList (matchPats [.lit "postgresql://".toList, .plus (fun c => c != ':'),
      .lit ":".toList, .plus (fun c => c != '@'), .lit "@".toList]) (matchPats [.lit "mongodb://".toList, .plus (fun c => c != ':'),
      .lit ":".toList, .plus (fun c => c != '@'), .lit "@".toList])
      "postgresql://***:***@".toList "mongodb://***:***@".toList
      (fun cs => (url_run_iff cs (.lit "postgresql://".toList)).symm)
      (fun X => url_match_exact "postgresql://".toList (by decide) X)
      (fun d hd X => none_of_dead urlStep (.lit "mongodb://".toList) .accept .dead
        (fun _ => rfl) (by decide) (matchPats [.lit "mongodb://".toList, .plus (fun c => c != ':'),
      .lit ":".toList, .plus (fun c => c != '@'), .lit "@".toList]) (fun cs => (url_run_iff cs (.lit "mongodb://".toList)).symm)
        ("postgresql://***:***@".toList.drop d) X (hnd8 d hd))
      (by decide)
      (fun segs hwf => urlA_transfer "postgresql://".toList "mongodb://".toList
        "mongodb".toList "mongodb://***:***@".toList (matchPats [.lit "mongodb://".toList, .plus (fun c => c != ':'),
      .lit ":".toList, .plus (fun c => c != '@'), .lit "@".toList])
        (by decide) (by decide) (by decide)
        (fun jm X h hl => url_jm_decomp "mongodb://".toList jm X h)
        (by decide) segs hwf (.lit "postgresql://".toList) (by decide)))
  have hnd9 : ∀ d, d < "postgresql://***:***@".toList.length →
      runD urlStep (.lit "redis://".toList) ("postgresql://***:***@".toList.drop d) = .dead := by
    decide
  have hp9 := preserve_scan (matchPats [.lit "postgresql://".toList, .plus (fun c => c != ':'),
      .lit ":".toList, .plus (fun c => c != '@'), .lit "@".toList]) (matchPats [.lit "redis://".toList, .plus (fun c => c != ':'),
      .lit ":".toList, .plus (fun c => c != '@'), .lit "@".toList])
    "postgresql://***:***@".toList "redis://***:***@".toList (matchPats_le _)
    (url_preserve "postgresql://".toList (matchPats [.lit "postgresql://".toList, .plus (fun c => c != ':'),
      .lit ":".toList, .plus (fun c => c != '@'), .lit "@".toList]) (matchPats [.lit "redis://".toList, .plus (fun c => c != ':'),
      .lit ":".toList, .plus (fun c => c != '@'), .lit "@".toList])
      "postgresql://***:***@".toList "redis://***:***@".toList
      (fun cs => (url_run_iff cs (.lit "postgresql://".toList)).symm)
      (fun X => url_match_exact "postgresql://".toList (by decide) X)
      (fun d hd X => none_of_dead urlStep (.lit "redis://".toList) .accept .dead
        (fun _ => rfl) (by decide) (matchPats [.lit "redis://".toList, .plus (fun c => c != ':'),
      .lit ":".toList, .plus (fun c => c != '@'), .lit "@".toList]) (fun cs => (url_run_iff cs (.lit "redis://".toList)).symm)
        ("postgresql://***:***@".toList.drop d) X (hnd9 d hd))
      (by decide)
      (fun segs hwf => urlA_transfer "postgresql://".toList "redis://".toList
        "redis".toList "redis://***:***@".toList (matchPats [.lit "redis://".toList, .plus (fun c => c != ':'),
      .lit ":".toList, .plus (fun c => c != '@'), .lit "@".toList])
        (by decide) (by decide) (by decide)
        (fun jm X h hl => url_jm_decomp "redis://".toList jm X h)
        (by decide) segs hwf (.lit "postgresql://".toList) (by decide)))
  have hnd10 : ∀ d, d < "postgresql://***:***@".toList.length →
      runD akStep (.lit "akia".toList) ("postgresql://***:***@".toList.drop d) = .dead := by
    decide
  have hp10 := preserve_scan (matchPats [.lit "postgresql://".toList, .plus (fun c => c != ':'),
      .lit ":".toList, .plus (fun c => c != '@'), .lit "@".toList]) (matchPats [.lit "akia".toList, .exactly 16 isAlnumChar])
    "postgresql://***:***@".toList "AKIA***".toList (matchPats_le _)
    (url_preserve "postgresql://".toList (matchPats [.lit "postgresql://".toList, .plus (fun c => c != ':'),
      .lit ":".toList, .plus (fun c => c != '@'), .lit "@".toList]) (matchPats [.lit "akia".toList, .exactly 16 isAlnumChar])
      "postgresql://***:***@".toList "AKIA***".toList
      (fun cs => (url_run_iff cs (.lit "postgresql://".toList)).symm)
      (fun X => url_match_exact "postgresql://".toList (by decide) X)
      (fun d hd X => none_of_dead akStep (.lit "akia".toList) .accept .dead
        (fun _ => rfl) (by decide) (matchPats [.lit "akia".toList, .exactly 16 isAlnumChar]) (fun cs => (ak_run_iff cs (.lit "akia".toList)).symm)
        ("postgresql://***:***@".toList.drop d) X (hnd10 d hd))
      (by decide)
      (fun segs hwf => urlB_transfer "postgresql://".toList (matchPats [.lit "akia".toList, .exactly 16 isAlnumChar])
        (fun jm X h hl => ak_jm_decomp jm X h)
        (by decide) segs hwf (.lit "postgresql://".toList) (by decide)))
  have hnd11 : ∀ d, d < "postgresql://***:***@".toList.length →
      runD (kwStep isAwsTailChar) (.lit "aws_secret_access_key".toList) ("postgresql://***:***@".toList.drop d) = .dead := by
    decide
  have hp11 := preserve_scan (matchPats [.lit "postgresql://".toList, .plus (fun c => c != ':'),
      .lit ":".toList, .plus (fun c => c != '@'), .lit "@".toList]) (matchPats [.lit "aws_secret_access_key".toList, .plus isSepChar, .plus isAwsTailChar])
    "postgresql://***:***@".toList "aws_secret_access_key=***".toList (matchPats_le _)
    (url_preserve "postgresql://".toList (matchPats [.lit "postgresql://".toList, .plus (fun c => c != ':'),
      .lit ":".toList, .plus (fun c => c != '@'), .lit "@".toList]) (matchPats [.lit "aws_secret_access_key".toList, .plus isSepChar, .plus isAwsTailChar])
      "postgresql://***:***@".toList "aws_secret_access_key=***".toList
      (fun cs => (url_run_iff cs (.lit "postgresql://".toList)).symm)
      (fun X => url_match_exact "postgresql://".toList (by decide) X)
      (fun d hd X => none_of_dead (kwStep isAwsTailChar) (.lit "aws_secret_access_key".toList) .accept .dead
        (fun _ => rfl) (by decide) (matchPats [.lit "aws_secret_access_key".toList, .plus isSepChar, .plus isAwsTailChar]) (fun cs => (kw_run_iff isAwsTailChar cs (.lit "aws_secret_access_key".toList)).symm)
        ("postgresql://***:***@".toList.drop d) X (hnd11 d hd))
      (by decide)
      (fun segs hwf => urlC_transfer "postgresql://".toList (matchPats [.lit "aws_secret_access_key".toList, .plus isSepChar, .plus isAwsTailChar])
        (fun jm X h hl => kw_jm_decomp "aws_secret_access_key".toList
          isAwsTailChar jm X h)
        (by decide) segs hwf (.lit "postgresql://".toList) (by decide)))
  exact hp11 _ (hp10 _ (hp9 _ (hp8 _ (hp7 _ (hself (t5 cs))))))

theorem clean7 : ∀ cs, CleanPos (matchPats (urlPattern "mysql"))
    "mysql://***:***@".toList (t11 cs) := by
  intro cs
  have hself := self_scan (matchPats [.lit "mysql://".toList, .plus (fun c => c != ':'),
      .lit ":".toList, .plus (fun c => c != '@'), .lit "@".toList]) "mysql://***:***@".toList (matchPats_le _)
    (url_self "mysql://".toList (matchPats [.lit "mysql://".toList, .plus (fun c => c != ':'),
      .lit ":".toList, .plus (fun c => c != '@'), .lit "@".toList]) "mysql://***:***@".toList
      (fun cs => (url_run_iff cs (.lit "mysql://".toList)).symm)
      (lit_head_pos "mysql://".toList (by decide) _)
      (fun X => url_match_exact "mysql://".toList (by decide) X)
      (by decide)
      (fun segs hwf => urlA_transfer "mysql://".toList "mysql://".toList
        "mysql".toList "mysql://***:***@".toList (matchPats [.lit "mysql://".toList, .plus (fun c => c != ':'),
      .lit ":".toList, .plus (fun c => c != '@'), .lit "@".toList])
        (by decide) (by decide) (by decide)
        (fun jm X h hl => url_jm_decomp "mysql://".toList jm X h)
        (by decide) segs hwf (.lit "mysql://".toList) (by decide)))
  have hnd8 : ∀ d, d < "mysql://***:***@".toList.length →
      runD urlStep (.lit "mongodb://".toList) ("mysql://***:***@".toList.drop d) = .dead := by
    decide
  have hp8 := preserve_scan (matchPats [.lit "mysql://".toList, .plus (fun c => c != ':'),
      .lit ":".toList, .plus (fun c => c != '@'), .lit "@".toList]) (matchPats [.lit "mongodb://".toList, .plus (fun c => c != ':'),
      .lit ":".toList, .plus (fun c => c != '@'), .lit "@".toList])
    "mysql://***:***@".toList "mongodb://***:***@".toList (matchPats_le _)
    (url_preserve "mysql://".toList (matchPats [.lit "mysql://".toList, .plus (fun c => c != ':'),
      .lit ":".toList, .plus (fun c => c != '@'), .lit "@".toList]) (matchPats [.lit "mongodb://".toList, .plus (fun c => c != ':'),
      .lit ":".toList, .plus (fun c => c != '@'), .lit "@".toList])
      "mysql://***:***@".toList "mongodb://***:***@".toList
      (fun cs => (url_run_iff cs (.lit "mysql://".toList)).symm)
      (fun X => url_match_exact "mysql://".toList (by decide) X)
      (fun d hd X => none_of_dead urlStep (.lit "mongodb://".toList) .accept .dead
        (fun _ => rfl) (by decide) (matchPats [.lit "mongodb://".toList, .plus (fun c => c != ':'),
      .lit ":".toList, .plus (fun c => c != '@'), .lit "@".toList]) (fun cs => (url_run_iff cs (.lit "mongodb://".toList)).symm)
        ("mysql://***:***@".toList.drop d) X (hnd8 d hd))
      (by decide)
      (fun segs hwf => urlA_transfer "mysql://".toList "mongodb://".toList
        "mongodb".toList "mongodb://***:***@".toList (matchPats [.lit "mongodb://".toList, .plus (fun c => c != ':'),
      .lit ":".toList, .plus (fun c => c != '@'), .lit "@".toList])
        (by decide) (by decide) (by decide)
        (fun jm X h hl => url_jm_decomp "mongodb://".toList jm X h)
        (by decide) segs hwf (.lit "mysql://".toList) (by decide)))
  have hnd9 : ∀ d, d < "mysql://***:***@".toList.length →
      runD urlStep (.lit "redis://".toList) ("mysql://***:***@".toList.drop d) = .dead := by
    decide
  have hp9 := preserve_scan (matchPats [.lit "mysql://".toList, .plus (fun c => c != ':'),
      .lit ":".toList, .plus (fun c => c != '@'), .lit "@".toList]) (matchPats [.lit "redis://".toList, .plus (fun c => c != ':'),
      .lit ":".toList, .plus (fun c => c != '@'), .lit "@".toList])
    "mysql://***:***@".toList "redis://***:***@".toList (matchPats_le _)
    (url_preserve "mysql://".toList (matchPats [.lit "mysql://".toList, .plus (fun c => c != ':'),
      .lit ":".toList, .plus (fun c => c != '@'), .lit "@".toList]) (matchPats [.lit "redis://".toList, .plus (fun c => c != ':'),
      .lit ":".toList, .plus (fun c => c != '@'), .lit "@".toList])
      "mysql://***:***@".toList "redis://***:***@".toList
      (fun cs => (url_run_iff cs (.lit "mysql://".toList)).symm)
      (fun X => url_match_exact "mysql://".toList (by decide) X)
      (fun d hd X => none_of_dead urlStep (.lit "redis://".toList) .accept .dead
        (fun _ => rfl) (by decide) (matchPats [.lit "redis://".toList, .plus (fun c => c != ':'),
      .lit ":".toList, .plus (fun c => c != '@'), .lit "@".toList]) (fun cs => (url_run_iff cs (.lit "redis://".toList)).symm)
        ("mysql://***:***@".toList.drop d) X (hnd9 d hd))
      (by decide)
      (fun segs hwf => urlA_transfer "mysql://".toList "redis://".toList
        "redis".toList "redis://***:***@".toList (matchPats [.lit "redis://".toList, .plus (fun c => c != ':'),
      .lit ":".toList, .plus (fun c => c != '@'), .lit "@".toList])
        (by decide) (by decide) (by decide)
        (fun jm X h hl => url_jm_decomp "redis://".toList jm X h)
        (by decide) segs hwf (.lit "mysql://".toList) (by decide)))
  have hnd10 : ∀ d, d < "mysql://***:***@".toList.length →
      runD akStep (.lit "akia".toList) ("mysql://***:***@".toList.drop d) = .dead := by
    decide
  have hp10 := preserve_scan (matchPats [.lit "mysql://".toList, .plus (fun c => c != ':'),
      .lit ":".toList, .plus (fun c => c != '@'), .lit "@".toList]) (matchPats [.lit "akia".toList, .exactly 16 isAlnumChar])
    "mysql://***:***@".toList "AKIA***".toList (matchPats_le _)
    (url_preserve "mysql://".toList (matchPats [.lit "mysql://".toList, .plus (fun c => c != ':'),
      .lit ":".toList, .plus (fun c => c != '@'), .lit "@".toList]) (matchPats [.lit "akia".toList, .exactly 16 isAlnumChar])
      "mysql://***:***@".toList "AKIA***".toList
      (fun cs => (url_run_iff cs (.lit "mysql://".toList)).symm)
      (fun X => url_match_exact "mysql://".toList (by decide) X)
      (fun d hd X => none_of_dead akStep (.lit "akia".toList) .accept .dead
        (fun _ => rfl) (by decide) (matchPats [.lit "akia".toList, .exactly 16 isAlnumChar]) (fun cs => (ak_run_iff cs (.lit "akia".toList)).symm)
        ("mysql://***:***@".toList.drop d) X (hnd10 d hd))
      (by decide)
      (fun segs hwf => urlB_transfer "mysql://".toList (matchPats [.lit "akia".toList, .exactly 16 isAlnumChar])
        (fun jm X h hl => ak_jm_decomp jm X h)
        (by decide) segs hwf (.lit "mysql://".toList) (by decide)))
  have hnd11 : ∀ d, d < "mysql://***:***@".toList.length →
      runD (kwStep isAwsTailChar) (.lit "aws_secret_access_key".toList) ("mysql://***:***@".toList.drop d) = .dead := by
    decide
  have hp11 := preserve_scan (matchPats [.lit "mysql://".toList, .plus (fun c => c != ':'),
      .lit ":".toList, .plus (fun c => c != '@'), .lit "@".toList]) (matchPats [.lit "aws_secret_access_key".toList, .plus isSepChar, .plus isAwsTailChar])
    "mysql://***:***@".toList "aws_secret_access_key=***".toList (matchPats_le _)
    (url_preserve "mysql://".toList (matchPats [.lit "mysql://".toList, .plus (fun c => c != ':'),
      .lit ":".toList, .plus (fun c => c != '@'), .lit "@".toList]) (matchPats [.lit "aws_secret_access_key".toList, .plus isSepChar, .plus isAwsTailChar])
      "mysql://***:***@".toList "aws_secret_access_key=***".toList
      (fun cs => (url_run_iff cs (.lit "mysql://".toList)).symm)
      (fun X => url_match_exact "mysql://".toList (by decide) X)
      (fun d hd X => none_of_dead (kwStep isAwsTailChar) (.lit "aws_secret_access_key".toList) .accept .dead
        (fun _ => rfl) (by decide) (matchPats [.lit "aws_secret_access_key".toList, .plus isSepChar, .plus isAwsTailChar]) (fun cs => (kw_run_iff isAwsTailChar cs (.lit "aws_secret_access_key".toList)).symm)
        ("mysql://***:***@".toList.drop d) X (hnd11 d hd))
      (by decide)
      (fun segs hwf => urlC_transfer "mysql://".toList (matchPats [.lit "aws_secret_access_key".toList, .plus isSepChar, .plus isAwsTailChar])
        (fun jm X h hl => kw_jm_decomp "aws_secret_access_key".toList
          isAwsTailChar jm X h)
        (by decide) segs hwf (.lit "mysql://".toList) (by decide)))
  exact hp11 _ (hp10 _ (hp9 _ (hp8 _ (hself (t6 cs)))))

theorem clean8 : ∀ cs, CleanPos (matchPats (urlPattern "mongodb"))
    "mongodb://***:***@".toList (t11 cs) := by
  intro cs
  have hself := self_scan (matchPats [.lit "mongodb://".toList, .plus (fun c => c != ':'),
      .lit ":".toList, .plus (fun c => c != '@'), .lit "@".toList]) "mongodb://***:***@".toList (matchPats_le _)
    (url_self "mongodb://".toList (matchPats [.lit "mongodb://".toList, .plus (fun c => c != ':'),
      .lit ":".toList, .plus (fun c => c != '@'), .lit "@".toList]) "mongodb://***:***@".toList
      (fun cs => (url_run_iff cs (.lit "mongodb://".toList)).symm)
      (lit_head_pos "mongodb://".toList (by decide) _)
      (fun X => url_match_exact "mongodb://".toList (by decide) X)
      (by decide)
      (fun segs hwf => urlA_transfer "mongodb://".toList "mongodb://".toList
        "mongodb".toList "mongodb://***:***@".toList (matchPats [.lit "mongodb://".toList, .plus (fun c => c != ':'),
      .lit ":".toList, .plus (fun c => c != '@'), .lit "@".toList])
        (by decide) (by decide) (by decide)
        (fun jm X h hl => url_jm_decomp "mongodb://".toList jm X h)
        (by decide) segs hwf (.lit "mongodb://".toList) (by decide)))
  have hnd9 : ∀ d, d < "mongodb://***:***@".toList.length →
      runD urlStep (.lit "redis://".toList) ("mongodb://***:***@".toList.drop d) = .dead := by
    decide
  have hp9 := preserve_scan (matchPats [.lit "mongodb://".toList, .plus (fun c => c != ':'),
      .lit ":".toList, .plus (fun c => c != '@'), .lit "@".toList]) (matchPats [.lit "redis://".toList, .plus (fun c => c != ':'),
      .lit ":".toList, .plus (fun c => c != '@'), .lit "@".toList])
    "mongodb://***:***@".toList "redis://***:***@".toList (matchPats_le _)
    (url_preserve "mongodb://".toList (matchPats [.lit "mongodb://".toList, .plus (fun c => c != ':'),
      .lit ":".toList, .plus (fun c => c != '@'), .lit "@".toList]) (matchPats [.lit "redis://".toList, .plus (fun c => c != ':'),
      .lit ":".toList, .plus (fun c => c != '@'), .lit "@".toList])
      "mongodb://***:***@".toList "redis://***:***@".toList
      (fun cs => (url_run_iff cs (.lit "mongodb://".toList)).symm)
      (fun X => url_match_exact "mongodb://".toList (by decide) X)
      (fun d hd X => none_of_dead urlStep (.lit "redis://".toList) .accept .dead
        (fun _ => rfl) (by decide) (matchPats [.lit "redis://".toList, .plus (fun c => c != ':'),
      .lit ":".toList, .plus (fun c => c != '@'), .lit "@".toList]) (fun cs => (url_run_iff cs (.lit "redis://".toList)).symm)
        ("mongodb://***:***@".toList.drop d) X (hnd9 d hd))
      (by decide)
      (fun segs hwf => urlA_transfer "mongodb://".toList "redis://".toList
        "redis".toList "redis://***:***@".toList (matchPats [.lit "redis://".toList, .plus (fun c => c != ':'),
      .lit ":".toList, .plus (fun c => c != '@'), .lit "@".toList])
        (by decide) (by decide) (by decide)
        (fun jm X h hl => url_jm_decomp "redis://".toList jm X h)
        (by decide) segs hwf (.lit "mongodb://".toList) (by decide)))
  have hnd10 : ∀ d, d < "mongodb://***:***@".toList.length →
      runD akStep (.lit "akia".toList) ("mongodb://***:***@".toList.drop d) = .dead := by
    decide
  have hp10 := preserve_scan (matchPats [.lit "mongodb://".toList, .plus (fun c => c != ':'),
      .lit ":".toList, .plus (fun c => c != '@'), .lit "@".toList]) (matchPats [.lit "akia".toList, .exactly 16 isAlnumChar])
    "mongodb://***:***@".toList "AKIA***".toList (matchPats_le _)
    (url_preserve "mongodb://".toList (matchPats [.lit "mongodb://".toList, .plus (fun c => c != ':'),
      .lit ":".toList, .plus (fun c => c != '@'), .lit "@".toList]) (matchPats [.lit "akia".toList, .exactly 16 isAlnumChar])
      "mongodb://***:***@".toList "AKIA***".toList
      (fun cs => (url_run_iff cs (.lit "mongodb://".toList)).symm)
      (fun X => url_match_exact "mongodb://".toList (by decide) X)
      (fun d hd X => none_of_dead akStep (.lit "akia".toList) .accept .dead
        (fun _ => rfl) (by decide) (matchPats [.lit "akia".toList, .exactly 16 isAlnumChar]) (fun cs => (ak_run_iff cs (.lit "akia".toList)).symm)
        ("mongodb://***:***@".toList.drop d) X (hnd10 d hd))
      (by decide)
      (fun segs hwf => urlB_transfer "mongodb://".toList (matchPats [.lit "akia".toList, .exactly 16 isAlnumChar])
        (fun jm X h hl => ak_jm_decomp jm X h)
        (by decide) segs hwf (.lit "mongodb://".toList) (by decide)))
  have hnd11 : ∀ d, d < "mongodb://***:***@".toList.length →
      runD (kwStep isAwsTailChar) (.lit "aws_secret_access_key".toList) ("mongodb://***:***@".toList.drop d) = .dead := by
    decide
  have hp11 := preserve_scan (matchPats [.lit "mongodb://".toList, .plus (fun c => c != ':'),
      .lit ":".toList, .plus (fun c => c != '@'), .lit "@".toList]) (matchPats [.lit "aws_secret_access_key".toList, .plus isSepChar, .plus isAwsTailChar])
    "mongodb://***:***@".toList "aws_secret_access_key=***".toList (matchPats_le _)
    (url_preserve "mongodb://".toList (matchPats [.lit "mongodb://".toList, .plus (fun c => c != ':'),
      .lit ":".toList, .plus (fun c => c != '@'), .lit "@".toList]) (matchPats [.lit "aws_secret_access_key".toList, .plus isSepChar, .plus isAwsTailChar])
      "mongodb://***:***@".toList "aws_secret_access_key=***".toList
      (fun cs => (url_run_iff cs (.lit "mongodb://".toList)).symm)
      (fun X => url_match_exact "mongodb://".toList (by decide) X)
      (fun d hd X => none_of_dead (kwStep isAwsTailChar) (.lit "aws_secret_access_key".toList) .accept .dead
        (fun _ => rfl) (by decide) (matchPats [.lit "aws_secret_access_key".toList, .plus isSepChar, .plus isAwsTailChar]) (fun cs => (kw_run_iff isAwsTailChar cs (.lit "aws_secret_access_key".toList)).symm)
        ("mongodb://***:***@".toList.drop d) X (hnd11 d hd))
      (by decide)
      (fun segs hwf => urlC_transfer "mongodb://".toList (matchPats [.lit "aws_secret_access_key".toList, .plus isSepChar, .plus isAwsTailChar])
        (fun jm X h hl => kw_jm_decomp "aws_secret_access_key".toList
          isAwsTailChar jm X h)
        (by decide) segs hwf (.lit "mongodb://".toList) (by decide)))
  exact hp11 _ (hp10 _ (hp9 _ (hself (t7 cs))))

theorem clean9 : ∀ cs, CleanPos (matchPats (urlPattern "redis"))
    "redis://***:***@".toList (t11 cs) := by
  intro cs
  have hself := self_scan (matchPats [.lit "redis://".toList, .plus (fun c => c != ':'),
      .lit ":".toList, .plus (fun c => c != '@'), .lit "@".toList]) "redis://***:***@".toList (matchPats_le _)
    (url_self "redis://".toList (matchPats [.lit "redis://".toList, .plus (fun c => c != ':'),
      .lit ":".toList, .plus (fun c => c != '@'), .lit "@".toList]) "redis://***:***@".toList
      (fun cs => (url_run_iff cs (.lit "redis://".toList)).symm)
      (lit_head_pos "redis://".toList (by decide) _)
      (fun X => url_match_exact "redis://".toList (by decide) X)
      (by decide)
      (fun segs hwf => urlA_transfer "redis://".toList "redis://".toList
        "redis".toList "redis://***:***@".toList (matchPats [.lit "redis://".toList, .plus (fun c => c != ':'),
      .lit ":".toList, .plus (fun c => c != '@'), .lit "@".toList])
        (by decide) (by decide) (by decide)
        (fun jm X h hl => url_jm_decomp "redis://".toList jm X h)
        (by decide) segs hwf (.lit "redis://".toList) (by decide)))
  have hnd10 : ∀ d, d < "redis://***:***@".toList.length →
      runD akStep (.lit "akia".toList) ("redis://***:***@".toList.drop d) = .dead := by
    decide
  have hp10 := preserve_scan (matchPats [.lit "redis://".toList, .plus (fun c => c != ':'),
      .lit ":".toList, .plus (fun c => c != '@'), .lit "@".toList]) (matchPats [.lit "akia".toList, .exactly 16 isAlnumChar])
    "redis://***:***@".toList "AKIA***".toList (matchPats_le _)
    (url_preserve "redis://".toList (matchPats [.lit "redis://".toList, .plus (fun c => c != ':'),
      .lit ":".toList, .plus (fun c => c != '@'), .lit "@".toList]) (matchPats [.lit "akia".toList, .exactly 16 isAlnumChar])
      "redis://***:***@".toList "AKIA***".toList
      (fun cs => (url_run_iff cs (.lit "redis://".toList)).symm)
      (fun X => url_match_exact "redis://".toList (by decide) X)
      (fun d hd X => none_of_dead akStep (.lit "akia".toList) .accept .dead
        (fun _ => rfl) (by decide) (matchPats [.lit "akia".toList, .exactly 16 isAlnumChar]) (fun cs => (ak_run_iff cs (.lit "akia".toList)).symm)
        ("redis://***:***@".toList.drop d) X (hnd10 d hd))
      (by decide)
      (fun segs hwf => urlB_transfer "redis://".toList (matchPats [.lit "akia".toList, .exactly 16 isAlnumChar])
        (fun jm X h hl => ak_jm_decomp jm X h)
        (by decide) segs hwf (.lit "redis://".toList) (by decide)))
  have hnd11 : ∀ d, d < "redis://***:***@".toList.length →
      runD (kwStep isAwsTailChar) (.lit "aws_secret_access_key".toList) ("redis://***:***@".toList.drop d) = .dead := by
    decide
  have hp11 := preserve_scan (matchPats [.lit "redis://".toList, .plus (fun c => c != ':'),
      .lit ":".toList, .plus (fun c => c != '@'), .lit "@".toList]) (matchPats [.lit "aws_secret_access_key".toList, .plus isSepChar, .plus isAwsTailChar])
    "redis://***:***@".toList "aws_secret_access_key=***".toList (matchPats_le _)
    (url_preserve "redis://".toList (matchPats [.lit "redis://".toList, .plus (fun c => c != ':'),
      .lit ":".toList, .plus (fun c => c != '@'), .lit "@".toList]) (matchPats [.lit "aws_secret_access_key".toList, .plus isSepChar, .plus isAwsTailChar])
      "redis://***:***@".toList "aws_secret_access_key=***".toList
      (fun cs => (url_run_iff cs (.lit "redis://".toList)).symm)
      (fun X => url_match_exact "redis://".toList (by decide) X)
      (fun d hd X => none_of_dead (kwStep isAwsTailChar) (.lit "aws_secret_access_key".toList) .accept .dead
        (fun _ => rfl) (by decide) (matchPats [.lit "aws_secret_access_key".toList, .plus isSepChar, .plus isAwsTailChar]) (fun cs => (kw_run_iff isAwsTailChar cs (.lit "aws_secret_access_key".toList)).symm)
        ("redis://***:***@".toList.drop d) X (hnd11 d hd))
      (by decide)
      (fun segs hwf => urlC_transfer "redis://".toList (matchPats [.lit "aws_secret_access_key".toList, .plus isSepChar, .plus isAwsTailChar])
        (fun jm X h hl => kw_jm_decomp "aws_secret_access_key".toList
          isAwsTailChar jm X h)
        (by decide) segs hwf (.lit "redis://".toList) (by decide)))
  exact hp11 _ (hp10 _ (hself (t8 cs)))

/-- A full sanitizer pass leaves its own output unchanged. -/
theorem sanitizeChars_idem (cs : List Char) :
    sanitizeChars (sanitizeChars cs) = sanitizeChars cs := by
  have f1 : t1 (sanitizeChars cs) = sanitizeChars cs :=
    CleanPos_scan_id (matchPats (kwPattern "password"))
      "password=***".toList (by decide) (sanitizeChars cs) (clean1 cs)
  have f2 : t2 (sanitizeChars cs) = sanitizeChars cs := by
    show scanSub (matchPats (kwPattern "token")) "token=***".toList
      (t1 (sanitizeChars cs)) = sanitizeChars cs
    rw [f1]
    exact CleanPos_scan_id (matchPats (kwPattern "token"))
      "token=***".toList (by decide) (sanitizeChars cs) (clean2 cs)
  have f3 : t3 (sanitizeChars cs) = sanitizeChars cs := by
    show scanSub (matchPats (kwPattern "key")) "key=***".toList
      (t2 (sanitizeChars cs)) = sanitizeChars cs
    rw [f2]
    exact CleanPos_scan_id (matchPats (kwPattern "key"))
      "key=***".toList (by decide) (sanitizeChars cs) (clean3 cs)
  have f4 : t4 (sanitizeChars cs) = sanitizeChars cs := by
    show scanSub (matchPats (kwPattern "secret")) "secret=***".toList
      (t3 (sanitizeChars cs)) = sanitizeChars cs
    rw [f3]
    exact CleanPos_scan_id (matchPats (kwPattern "secret"))
      "secret=***".toList (by decide) (sanitizeChars cs) (clean4 cs)
  have f5 : t5 (sanitizeChars cs) = sanitizeChars cs := by
    show scanSub (matchPats apiKeyPattern) "api_key=***".toList
      (t4 (sanitizeChars cs)) = sanitizeChars cs
    rw [f4]
    exact CleanPos_scan_id (matchPats apiKeyPattern)
      "api_key=***".toList (by decide) (sanitizeChars cs) (clean5 cs)
  have f6 : t6 (sanitizeChars cs) = sanitizeChars cs := by
    show scanSub (matchPats (urlPattern "postgresql")) "postgresql://***:***@".toList
      (t5 (sanitizeChars cs)) = sanitizeChars cs
    rw [f5]
    exact CleanPos_scan_id (matchPats (urlPattern "postgresql"))
      "postgresql://***:***@".toList (by decide) (sanitizeChars cs) (clean6 cs)
  have f7 : t7 (sanitizeChars cs) = sanitizeChars cs := by
    show scanSub (matchPats (urlPattern "mysql")) "mysql://***:***@".toList
      (t6 (sanitizeChars cs)) = sanitizeChars cs
    rw [f6]
    exact CleanPos_scan_id (matchPats (urlPattern "mysql"))
      "mysql://***:***@".toList (by decide) (sanitizeChars cs) (clean7 cs)
  have f8 : t8 (sanitizeChars cs) = sanitizeChars cs := by
    show scanSub (matchPats (urlPattern "mongodb")) "mongodb://***:***@".toList
      (t7 (sanitizeChars cs)) = sanitizeChars cs
    rw [f7]
    exact CleanPos_scan_id (matchPats (urlPattern "mongodb"))
      "mongodb://***:***@".toList (by decide) (sanitizeChars cs) (clean8 cs)
  have f9 : t9 (sanitizeChars cs) = sanitizeChars cs := by
    show scanSub (matchPats (urlPattern "redis")) "redis://***:***@".toList
      (t8 (sanitizeChars cs)) = sanitizeChars cs
    rw [f8]
    exact CleanPos_scan_id (matchPats (urlPattern "redis"))
      "redis://***:***@".toList (by decide) (sanitizeChars cs) (clean9 cs)
  have f10 : t10 (sanitizeChars cs) = sanitizeChars cs := by
    show scanSub (matchPats akiaPattern) "AKIA***".toList
      (t9 (sanitizeChars cs)) = sanitizeChars cs
    rw [f9]
    exact CleanPos_scan_id (matchPats akiaPattern)
      "AKIA***".toList (by decide) (sanitizeChars cs) (clean10 cs)
  have f11 : t11 (sanitizeChars cs) = sanitizeChars cs := by
    show scanSub (matchPats awsPattern) "aws_secret_access_key=***".toList
      (t10 (sanitizeChars cs)) = sanitizeChars cs
    rw [f10]
    exact CleanPos_scan_id (matchPats awsPattern)
      "aws_secret_access_key=***".toList (by decide) (sanitizeChars cs) (clean11 cs)
  exact f11

/-- C9: the free-text sanitizer is idempotent: sanitizing an already
sanitized string changes nothing. -/
theorem sanitize_string_idempotent (s : String) :
    sanitize_string (sanitize_string s) = sanitize_string s := by
  show String.mk (sanitizeChars (String.mk (sanitizeChars s.data)).data)
    = String.mk (sanitizeChars s.data)
  rw [show (String.mk (sanitizeChars s.data)).data
    = sanitizeChars s.data from rfl]
  rw [sanitizeChars_idem]


end ShowcaseSystem
